import Mathlib

/-!
Verification of the basic-memory-store dual-tier cache engine.

The definitions below are a shallow embedding of the TypeScript source:
the TTL cache (src/utils/cache.ts), the memory-tier and durable-tier
query handlers (src/routes, the file holding getAll, getSorted, getRank,
get, globalBatchSet, bufferedBatchSet), the write-behind batcher
(src/utils/dbBatcher.ts), the permission middleware
(src/middlewares/checkKey.ts) and the zod query validation.

Modelling conventions:
  - Wall-clock instants (Date.now(), expiry timestamps, write cursors)
    are integers (milliseconds).
  - JavaScript numbers are embedded as integers; payloads are embedded
    as structured objects (finite string-keyed records of scalar
    values), matching the data model of the spec (payload: opaque
    structured value).  String-to-number coercion (the JS Number
    function used by parseValue) is modelled on the integer-literal
    fragment of strings.
  - JS Map insertion-order semantics are embedded as association
    lists: an update of an existing key keeps its position, a fresh
    key is appended, iteration is list order.
  - The Mongo tier is a list of documents; find/sort/limit/count and
    the aggregation pipeline used by the source are embedded with BSON
    comparison semantics (query operators type-bracketed, sort order
    placing numbers before strings).
-/

/-- Scalar values appearing inside payloads, cursors and defaults. -/
inductive SVal
  | num (n : Int)
  | str (s : String)
deriving DecidableEq, Repr

/-- Lexicographic order on the character lists of two strings, the
order JS string comparison and BSON string comparison use on the
embedded domain. -/
def charsLt : List Char → List Char → Bool
  | [], [] => false
  | [], _ :: _ => true
  | _ :: _, [] => false
  | a :: as, b :: bs =>
    if a = b then charsLt as bs else decide (a < b)

/-- String order used by both JS relational operators and BSON. -/
def strLt (a b : String) : Bool := charsLt a.data b.data

/-- Digit accumulator for integer-literal parsing. -/
def charsNatAux : List Char → Nat → Option Nat
  | [], acc => some acc
  | c :: cs, acc =>
    if c.isDigit then charsNatAux cs (acc * 10 + (c.toNat - 48)) else none

/-- Parsing of a string as an integer literal, the fragment of the JS
ToNumber coercion the embedding models; any other string is NaN. -/
def strToInt (s : String) : Option Int :=
  match s.data with
  | [] => none
  | '-' :: rest =>
    if rest.isEmpty then none
    else (charsNatAux rest 0).map (fun n => -(n : Int))
  | cs => (charsNatAux cs 0).map (fun n => (n : Int))

/-- Coercion of a scalar to a number, mirroring JS ToNumber on the
embedded domain: numbers are themselves, strings parse as integer
literals or are NaN (none). -/
def toNum : SVal → Option Int
  | .num n => some n
  | .str s => strToInt s

/-- JS strict less-than on scalars: string-string compares
lexicographically, otherwise both sides coerce to numbers and a NaN
makes the comparison false. -/
def jsLt (a b : SVal) : Bool :=
  match a, b with
  | .str x, .str y => strLt x y
  | a, b =>
    match toNum a, toNum b with
    | some x, some y => decide (x < y)
    | _, _ => false

/-- JS strict greater-than on scalars. -/
def jsGt (a b : SVal) : Bool := jsLt b a

/-- JS less-or-equal on scalars: false as soon as a NaN is involved. -/
def jsLe (a b : SVal) : Bool :=
  match a, b with
  | .str x, .str y => !strLt y x
  | a, b =>
    match toNum a, toNum b with
    | some x, some y => decide (x ≤ y)
    | _, _ => false

/-- JS greater-or-equal on scalars. -/
def jsGe (a b : SVal) : Bool := jsLe b a

/-- Sort direction, the sortDirection query parameter. -/
inductive Dir
  | asc
  | desc
deriving DecidableEq, Repr

/-- The three-way comparator of the source (function compare):
strictly equal values give 0, otherwise ascending asks whether a is
greater and descending asks whether a is smaller. -/
def compare3 (a b : SVal) (dir : Dir) : Int :=
  if a = b then 0
  else
    match dir with
    | .asc => if jsGt a b then 1 else -1
    | .desc => if jsLt a b then 1 else -1

/-- BSON cross-type order used by Mongo sort: numbers sort before
strings, values of one type sort naturally. -/
def bsonLt (a b : SVal) : Bool :=
  match a, b with
  | .num x, .num y => decide (x < y)
  | .str x, .str y => strLt x y
  | .num _, .str _ => true
  | .str _, .num _ => false

/-- Type-bracketed strict comparison used by the Mongo query operators
on the embedded domain: values of distinct types never match. -/
def mongoQLt (a b : SVal) : Bool :=
  match a, b with
  | .num x, .num y => decide (x < y)
  | .str x, .str y => strLt x y
  | _, _ => false

/-- Type-bracketed strict greater-than for Mongo query operators. -/
def mongoQGt (a b : SVal) : Bool := mongoQLt b a

/-- Numeric content of a scalar, for stating hypotheses and sort keys
over values known to be numbers. -/
def svalNum : SVal → Int
  | .num n => n
  | .str _ => 0

/-- A payload: a structured JSON object restricted to scalar fields. -/
abbrev Payload := List (String × SVal)

/-- Field lookup in a payload, mirroring property access: the value of
the first binding of the name, absent when no binding exists. -/
def Payload.getField (p : Payload) (name : String) : Option SVal :=
  (p.find? (fun b => b.1 = name)).map (·.2)

/-- The helper parseValue of the source: an absent string stays
absent, a string that reads as a number becomes that number and any
other string stays a string. -/
def parseValue (v : Option String) : Option SVal :=
  v.map (fun s =>
    match strToInt s with
    | some n => .num n
    | none => .str s)

/-! ## The TTL cache (src/utils/cache.ts) -/

/-- Expiry instant of a cache entry: either a concrete millisecond
timestamp or Infinity. -/
inductive Expiry
  | inf
  | time (t : Int)
deriving DecidableEq, Repr

/-- One stored cache entry, the CacheEntry record of the source. -/
structure CacheEntry (V : Type) where
  value : V
  expiry : Expiry
deriving DecidableEq, Repr

/-- Expiry test of the source (entry.expiry < Date.now()); Infinity is
never in the past. -/
def Expiry.expired (e : Expiry) (now : Int) : Bool :=
  match e with
  | .inf => false
  | .time t => decide (t < now)

/-- The TTLCache class: a JS Map from string keys to entries, embedded
as an association list in insertion order. -/
abbrev TTLCache (V : Type) := List (String × CacheEntry V)

/-- Raw map lookup (this.cache.get). -/
def TTLCache.lookup (c : TTLCache V) (k : String) : Option (CacheEntry V) :=
  (c.find? (fun p => p.1 = k)).map (·.2)

/-- JS Map set semantics: an existing key is updated in place, a new
key is appended. -/
def TTLCache.mapSet (c : TTLCache V) (k : String) (e : CacheEntry V) :
    TTLCache V :=
  if c.any (fun p => p.1 = k) then
    c.map (fun p => if p.1 = k then (k, e) else p)
  else
    c ++ [(k, e)]

/-- TTLCache.set of the source: a nonpositive ttlSeconds stores the
value with infinite expiry, a positive one with expiry now plus
ttlSeconds times 1000 milliseconds. -/
def TTLCache.set (c : TTLCache V) (k : String) (v : V) (ttlSeconds : Int)
    (now : Int) : TTLCache V :=
  if ttlSeconds ≤ 0 then
    TTLCache.mapSet c k ⟨v, .inf⟩
  else
    TTLCache.mapSet c k ⟨v, .time (now + ttlSeconds * 1000)⟩

/-- TTLCache.delete of the source. -/
def TTLCache.del (c : TTLCache V) (k : String) : TTLCache V :=
  c.filter (fun p => p.1 ≠ k)

/-- TTLCache.get of the source: a missing key returns absent, an
expired entry is deleted as a side effect and returns absent, a live
entry returns its value. The pair carries the possibly updated
cache. -/
def TTLCache.get (c : TTLCache V) (k : String) (now : Int) :
    Option V × TTLCache V :=
  match TTLCache.lookup c k with
  | none => (none, c)
  | some e =>
    if e.expiry.expired now then (none, TTLCache.del c k)
    else (some e.value, c)

/-- The entries a handler loop over map().keys() plus get(key)
observes: the stored entries that are live at the given instant, in
map order. -/
def liveEntries (c : TTLCache V) (now : Int) : List (String × V) :=
  c.filterMap (fun p =>
    if p.2.expiry.expired now then none else some (p.1, p.2.value))

/-! ## Memory-tier data model and handlers (the routes file) -/

/-- The value stored per key inside a namespace cache: the payload and
the write cursor (Date.now() at write time). -/
structure MemEntry where
  payload : Payload
  cursor : Int
deriving DecidableEq, Repr

/-- One namespace cache. -/
abbrev NsCache := TTLCache MemEntry

/-- The top-level registry: a TTL cache of namespace caches. -/
abbrev Registry := TTLCache NsCache

/-- The helper get_index_cache of the routes file: looks up the
namespace cache; when absent, a fresh empty cache is stored with ttl 0
(infinite expiry at the registry level). -/
def get_index_cache (reg : Registry) (idx : String) (now : Int) :
    NsCache × Registry :=
  match TTLCache.get reg idx now with
  | (some game, regAfter) => (game, regAfter)
  | (none, regAfter) => ([], TTLCache.set regAfter idx [] 0 now)

/-- Updating in place the value stored under a present key, keeping its
registry-level expiry: the effect of mutating the namespace cache
object held inside the registry map. -/
def Registry.storeBack (reg : Registry) (idx : String) (game : NsCache) :
    Registry :=
  reg.map (fun p => if p.1 = idx then (p.1, ⟨game, p.2.expiry⟩) else p)

/-- One memory-tier write (the memory branch of the set handlers):
resolve the namespace cache, set the key, and keep the mutated cache
inside the registry. -/
def memWrite (reg : Registry) (idx key : String) (data : Payload)
    (ttl : Int) (now : Int) : Registry :=
  let (game, regAfter) := get_index_cache reg idx now
  Registry.storeBack regAfter idx
    (TTLCache.set game key ⟨data, now⟩ ttl now)

/-- Response page of the recency listing (getAll): the data array plus
the meta fields, the source tag apart. -/
structure RecencyPage where
  items : List (String × Payload)
  pageSize : Nat
  totalItems : Nat
  nextCursor : Option Int
  hasMore : Bool
deriving DecidableEq, Repr

/-- Response page of the field-sorted listing (getSorted), the source
tag apart. -/
structure SortedPage where
  items : List (String × Payload)
  pageSize : Nat
  totalItems : Nat
  nextCursor : Option SVal
  hasMore : Bool
deriving DecidableEq, Repr

/-- One materialized row of the memory-tier sorted listing: key, the
whole payload and the effective sort value. -/
structure SRow where
  key : String
  data : Payload
  val : SVal
deriving DecidableEq, Repr

/-- The row a live entry materializes to when a default value is
supplied: the payload field, or the default when the field is
missing, becomes the effective sort value. -/
def rowOf (dataName : String) (d : SVal) (p : String × MemEntry) : SRow :=
  ⟨p.1, p.2.payload, (p.2.payload.getField dataName).getD d⟩

/-- The interval comparator the memory-tier getAll sort call uses:
the row a may precede the row b exactly when the comparator
b.cursor - a.cursor is nonpositive. -/
def recLe (a b : String × MemEntry) : Bool :=
  decide (b.2.cursor ≤ a.2.cursor)

/-- The memory branch of the getAll handler: scan live entries
counting them all, keep the ones before the cursor (a falsy cursor -
absent or zero - keeps everything), sort by cursor descending, slice
one page. -/
def getAllMem (game : NsCache) (cursor : Option Int) (pageSize : Nat)
    (now : Int) : RecencyPage :=
  let live := liveEntries game now
  let filtered := live.filter (fun p =>
    match cursor with
    | none => true
    | some c => decide (c = 0) || decide (p.2.cursor < c))
  let sorted := filtered.mergeSort recLe
  let page := sorted.take pageSize
  { items := page.map (fun p => (p.1, p.2.payload))
    pageSize := pageSize
    totalItems := live.length
    nextCursor := (page.getLast?).map (fun p => p.2.cursor)
    hasMore := decide (page.length = pageSize) &&
      decide (pageSize < sorted.length) }

/-- Effective sort value of a payload for the sorted paths: the field
value, or the parsed default when the field is absent (the JS
nullish-coalescing step). -/
def effVal (p : Payload) (dataName : String) (dflt : Option SVal) :
    Option SVal :=
  match p.getField dataName with
  | some v => some v
  | none => dflt

/-- Cursor filter of the memory-tier sorted listing: with a cursor,
ascending drops rows at or below it and descending drops rows at or
above it (include = not (val <= cursor) resp. not (val >= cursor)). -/
def sortedKeep (v : SVal) (cursor : Option SVal) (dir : Dir) : Bool :=
  match cursor with
  | none => true
  | some c =>
    match dir with
    | .asc => !jsLe v c
    | .desc => !jsGe v c

/-- Sort comparator of the memory-tier sorted listing: the row a may
precede the row b exactly when compare3 of their values is
nonpositive. -/
def rowLe (dir : Dir) (a b : SRow) : Bool :=
  decide (compare3 a.val b.val dir ≤ 0)

/-- The memory branch of the getSorted handler: materialize every live
entry holding an effective value (counting them as totalItems), keep
the ones strictly past the cursor, sort with the three-way comparator,
slice one page. -/
def getSortedMem (game : NsCache) (dataName : String) (dir : Dir)
    (cursor : Option SVal) (dflt : Option SVal) (pageSize : Nat)
    (now : Int) : SortedPage :=
  let withVals : List SRow := (liveEntries game now).filterMap (fun p =>
    match effVal p.2.payload dataName dflt with
    | none => none
    | some v => some ⟨p.1, p.2.payload, v⟩)
  let filtered := withVals.filter (fun r => sortedKeep r.val cursor dir)
  let sorted := filtered.mergeSort (rowLe dir)
  let page := sorted.take pageSize
  { items := page.map (fun r => (r.key, r.data))
    pageSize := pageSize
    totalItems := withVals.length
    nextCursor := (page.getLast?).map (·.val)
    hasMore := decide (page.length = pageSize) &&
      decide (pageSize < sorted.length) }

/-- Outcome of a rank request. -/
inductive RankRes
  | notFound
  | fieldMissing
  | ranked (r : Nat)
deriving DecidableEq, Repr

/-- The strictly-better test of the rank scan: ascending counts
strictly smaller values, descending strictly greater ones. -/
def betterThan (v target : SVal) (dir : Dir) : Bool :=
  match dir with
  | .asc => jsLt v target
  | .desc => jsGt v target

/-- The memory branch of the getRank handler: resolve the target entry
(absent gives notFound), compute its effective value (absent gives the
field-missing BAD_REQUEST), then scan all live entries counting
strictly better effective values; the rank is that count plus one. -/
def getRankMem (game : NsCache) (key dataName : String) (dir : Dir)
    (dflt : Option SVal) (now : Int) : RankRes :=
  match (TTLCache.get game key now).1 with
  | none => .notFound
  | some entry =>
    match effVal entry.payload dataName dflt with
    | none => .fieldMissing
    | some target =>
      let betterCount := (liveEntries game now).foldl
        (fun acc p =>
          match effVal p.2.payload dataName dflt with
          | none => acc
          | some v => if betterThan v target dir then acc + 1 else acc) 0
      .ranked (betterCount + 1)

/-- The memory branch of the get handler: the handler always answers
200 OK, with the payload when the entry is live and null data
otherwise. -/
def getMem (game : NsCache) (key : String) (now : Int) : Option Payload :=
  ((TTLCache.get game key now).1).map (·.payload)

/-! ## Durable-tier data model and operations -/

/-- One document of the durable collection (the Mongo cache model):
index, key, payload, write cursor and expiry instant, with a
uniqueness constraint on (index, key). -/
structure Doc where
  index : String
  key : String
  payload : Payload
  cursor : Int
  expireAt : Int
deriving DecidableEq, Repr

/-- The durable tier: the list of documents of the collection, in
natural order. -/
abbrev Db := List Doc

/-- The sortVal-augmented document the default-value aggregation
produces: the payload field, or the default under ifNull, becomes the
effective sort value. -/
def drowOf (dataName : String) (d : SVal) (dc : Doc) : Doc × SVal :=
  (dc, (dc.payload.getField dataName).getD d)

/-- Statement vocabulary: whether a scalar is a number. -/
def isNum : SVal → Bool
  | .num _ => true
  | .str _ => false

/-- Statement vocabulary: the value is strictly past the cursor in the
requested direction - strictly greater for ascending, strictly smaller
for descending; an absent cursor keeps everything. -/
def pastCursor (dir : Dir) (v : SVal) (cursor : Option SVal) : Prop :=
  match cursor with
  | none => True
  | some c =>
    (match dir with
      | Dir.asc => jsGt v c
      | Dir.desc => jsLt v c) = true

/-- Statement vocabulary: strict order of two sort values in the
requested direction. -/
def dirStrict (dir : Dir) (a b : SVal) : Bool :=
  match dir with
  | Dir.asc => jsLt a b
  | Dir.desc => jsGt a b

/-- Sort position for a possibly missing field value under BSON order:
a missing field counts as null and sorts before every number and
string. -/
def bsonOptLt (a b : Option SVal) : Bool :=
  match a, b with
  | none, none => false
  | none, some _ => true
  | some _, none => false
  | some x, some y => bsonLt x y

/-- Mongo ascending-or-descending sort comparator over a key
function. -/
def bsonSortLe (dir : Dir) (f : α → Option SVal) (a b : α) : Bool :=
  match dir with
  | .asc => !bsonOptLt (f b) (f a)
  | .desc => !bsonOptLt (f a) (f b)

/-- The db branch of the getAll handler: find the documents of the
index before the cursor (a falsy cursor keeps everything), sorted by
cursor descending, limited to one page; totalItems counts the whole
index; hasMore probes for one document strictly before the last
returned cursor. -/
def dbGetAll (db : Db) (idx : String) (cursor : Option Int)
    (pageSize : Nat) : RecencyPage :=
  let inIdx := db.filter (fun d => d.index = idx)
  let filtered := inIdx.filter (fun d =>
    match cursor with
    | none => true
    | some c => decide (c = 0) || decide (d.cursor < c))
  let docs := (filtered.mergeSort
      (fun a b => decide (b.cursor ≤ a.cursor))).take pageSize
  { items := docs.map (fun d => (d.key, d.payload))
    pageSize := pageSize
    totalItems := inIdx.length
    nextCursor := (docs.getLast?).map (·.cursor)
    hasMore :=
      match docs.getLast? with
      | none => false
      | some last => inIdx.any (fun d => decide (d.cursor < last.cursor)) }

/-- The Mongo comparison operator the sorted listing filters with:
ascending keeps values strictly greater than the cursor, descending
strictly smaller ones, type-bracketed. -/
def mongoPast (dir : Dir) (v c : SVal) : Bool :=
  match dir with
  | .asc => mongoQGt v c
  | .desc => mongoQLt v c

/-- The db branch of the getSorted handler when a default value is
supplied: an aggregation adds sortVal as ifNull of the payload field
and the default, filters strictly past the cursor, sorts by sortVal
and limits; totalItems counts the whole index; hasMore re-runs the
aggregation probing strictly past the last sortVal. -/
def dbGetSortedDflt (db : Db) (idx dataName : String) (dir : Dir)
    (cursor : Option SVal) (dflt : SVal) (pageSize : Nat) : SortedPage :=
  let inIdx := db.filter (fun d => d.index = idx)
  let rows := inIdx.map (fun d =>
    (d, (d.payload.getField dataName).getD dflt))
  let filtered := rows.filter (fun r =>
    match cursor with
    | none => true
    | some c => mongoPast dir r.2 c)
  let sorted := filtered.mergeSort (bsonSortLe dir (fun r => some r.2))
  let docs := sorted.take pageSize
  { items := docs.map (fun r => (r.1.key, r.1.payload))
    pageSize := pageSize
    totalItems := inIdx.length
    nextCursor := (docs.getLast?).map (·.2)
    hasMore :=
      match docs.getLast? with
      | none => false
      | some last => rows.any (fun r => mongoPast dir r.2 last.2) }

/-- The db branch of the getSorted handler without a default value: a
find keeping documents whose payload field exists (and is strictly
past the cursor when one is given), sorted by the payload field and
limited; totalItems counts the documents of the index holding the
field; hasMore probes for one document with the field strictly past
the last returned field value. -/
def dbGetSortedNoDflt (db : Db) (idx dataName : String) (dir : Dir)
    (cursor : Option SVal) (pageSize : Nat) : SortedPage :=
  let inIdx := db.filter (fun d => d.index = idx)
  let filtered := inIdx.filter (fun d =>
    match d.payload.getField dataName with
    | none => false
    | some v =>
      match cursor with
      | none => true
      | some c => mongoPast dir v c)
  let sorted := filtered.mergeSort
    (bsonSortLe dir (fun d => d.payload.getField dataName))
  let docs := sorted.take pageSize
  { items := docs.map (fun d => (d.key, d.payload))
    pageSize := pageSize
    totalItems := inIdx.countP (fun d =>
      (d.payload.getField dataName).isSome)
    nextCursor := (docs.getLast?).bind (fun d => d.payload.getField dataName)
    hasMore :=
      match docs.getLast? with
      | none => false
      | some last =>
        match last.payload.getField dataName with
        | none => decide (filtered.length ≠ 0)
        | some nc => inIdx.any (fun d =>
            match d.payload.getField dataName with
            | none => false
            | some v => mongoPast dir v nc) }

/-- Dispatch of the two db sorted branches on the presence of the
parsed default value, as the source does. -/
def dbGetSorted (db : Db) (idx dataName : String) (dir : Dir)
    (cursor : Option SVal) (dflt : Option SVal) (pageSize : Nat) :
    SortedPage :=
  match dflt with
  | some v => dbGetSortedDflt db idx dataName dir cursor v pageSize
  | none => dbGetSortedNoDflt db idx dataName dir cursor pageSize

/-- The db branch of the getRank handler: findOne the target (absent
gives notFound), compute its effective value (absent gives the
field-missing BAD_REQUEST); with a default, an aggregation counts
documents whose ifNull sortVal is strictly better; without, a count of
documents whose existing payload field is strictly better. Rank is the
count plus one. -/
def dbGetRank (db : Db) (idx key dataName : String) (dir : Dir)
    (dflt : Option SVal) : RankRes :=
  match db.find? (fun d => d.index = idx && d.key = key) with
  | none => .notFound
  | some doc =>
    match effVal doc.payload dataName dflt with
    | none => .fieldMissing
    | some target =>
      let inIdx := db.filter (fun d => d.index = idx)
      let better : Dir → SVal → SVal → Bool := fun dir v t =>
        match dir with
        | .asc => mongoQLt v t
        | .desc => mongoQGt v t
      match dflt with
      | some dv =>
        .ranked (inIdx.countP (fun d =>
          better dir ((d.payload.getField dataName).getD dv) target) + 1)
      | none =>
        .ranked (inIdx.countP (fun d =>
          match d.payload.getField dataName with
          | none => false
          | some v => better dir v target) + 1)

/-- The db branch of the get handler: findOne by index and key; the
handler answers 200 OK with the payload or null data. -/
def dbGet (db : Db) (idx key : String) : Option Payload :=
  (db.find? (fun d => d.index = idx && d.key = key)).map (·.payload)

/-! ## Handler-level responses (get and rank, both tiers) -/

/-- Externally observable outcome of a get or rank request. -/
inductive ApiResult
  | okData (data : Option Payload)
  | okRank (r : Nat)
  | notFound
  | badRequestFieldMissing
deriving DecidableEq, Repr

/-- Response of the get handler on the memory tier: always 200 OK,
with null data when the entry is absent. -/
def memGetHandler (game : NsCache) (key : String) (now : Int) : ApiResult :=
  .okData (getMem game key now)

/-- Response of the get handler on the db tier: always 200 OK, with
null data when the document is absent. -/
def dbGetHandler (db : Db) (idx key : String) : ApiResult :=
  .okData (dbGet db idx key)

/-- Response of the rank handler on the memory tier. -/
def memRankHandler (game : NsCache) (key dataName : String) (dir : Dir)
    (dflt : Option SVal) (now : Int) : ApiResult :=
  match getRankMem game key dataName dir dflt now with
  | .notFound => .notFound
  | .fieldMissing => .badRequestFieldMissing
  | .ranked r => .okRank r

/-- Response of the rank handler on the db tier. -/
def dbRankHandler (db : Db) (idx key dataName : String) (dir : Dir)
    (dflt : Option SVal) : ApiResult :=
  match dbGetRank db idx key dataName dir dflt with
  | .notFound => .notFound
  | .fieldMissing => .badRequestFieldMissing
  | .ranked r => .okRank r

/-! ## Durable writes, the write-behind batcher and the batch handlers -/

/-- One queued updateOne upsert descriptor: filter index and key,
replacement payload, cursor and expiry. -/
structure DbOp where
  index : String
  key : String
  payload : Payload
  cursor : Int
  expireAt : Int
deriving DecidableEq, Repr

/-- Application of one updateOne upsert: the matching document is
replaced in place, an absent one is inserted. -/
def applyUpdateOne (db : Db) (op : DbOp) : Db :=
  if db.any (fun d => d.index = op.index && d.key = op.key) then
    db.map (fun d =>
      if d.index = op.index && d.key = op.key then
        { d with
          payload := op.payload
          cursor := op.cursor
          expireAt := op.expireAt }
      else d)
  else
    db ++ [⟨op.index, op.key, op.payload, op.cursor, op.expireAt⟩]

/-- Application of a bulkWrite of updateOne upserts. -/
def applyBulkWrite (db : Db) (ops : List DbOp) : Db :=
  ops.foldl applyUpdateOne db

/-- The DbBatcher flush: an empty queue is left alone; otherwise the
whole queue is snapshotted and the queue is emptied before the bulk
write runs. The pair is (snapshot handed to bulkWrite, queue left
behind). -/
def DbBatcher.flush (queue : List DbOp) : List DbOp × List DbOp :=
  if queue.isEmpty then ([], queue) else (queue, [])

/-- The DbBatcher batch-size threshold. -/
def batchSize : Nat := 500

/-- The DbBatcher add: push one op, then flush when the threshold is
reached. The pair is (ops flushed now, queue left behind). -/
def DbBatcher.add (queue : List DbOp) (op : DbOp) :
    List DbOp × List DbOp :=
  let q := queue ++ [op]
  if batchSize ≤ q.length then DbBatcher.flush q else ([], q)

/-- The DbBatcher addMany: push all ops, then flush when the threshold
is reached. -/
def DbBatcher.addMany (queue : List DbOp) (ops : List DbOp) :
    List DbOp × List DbOp :=
  let q := queue ++ ops
  if batchSize ≤ q.length then DbBatcher.flush q else ([], q)

/-- A calling event of the batcher: an add, an addMany or a timer
flush; each carries whether the resulting bulk write (if any)
succeeds. -/
inductive BEvent
  | add (op : DbOp) (writeOk : Bool)
  | addMany (ops : List DbOp) (writeOk : Bool)
  | tick (writeOk : Bool)

/-- Observable batcher history: the live queue, the batches handed to
bulkWrite so far, and the durable state the successful bulk writes
produced. -/
structure BatcherSt where
  queue : List DbOp
  batches : List (List DbOp)
  db : Db
deriving Repr

/-- Bookkeeping of one flush hand-off: an empty snapshot only updates
the queue; a nonempty snapshot is recorded as handed to bulkWrite
exactly once, and a failed bulk write only skips the durable
application - the queue is never refilled and the snapshot is never
retried. -/
def bemit (st : BatcherSt) (flushed queueAfter : List DbOp)
    (writeOk : Bool) : BatcherSt :=
  if flushed.isEmpty then { st with queue := queueAfter }
  else
    { queue := queueAfter
      batches := st.batches ++ [flushed]
      db := if writeOk then applyBulkWrite st.db flushed else st.db }

/-- One step of the batcher: adds may trigger a threshold flush, a
timer tick flushes a nonempty queue. -/
def bstep (st : BatcherSt) (e : BEvent) : BatcherSt :=
  match e with
  | .add op ok =>
    let (flushed, q) := DbBatcher.add st.queue op
    bemit st flushed q ok
  | .addMany ops ok =>
    let (flushed, q) := DbBatcher.addMany st.queue ops
    bemit st flushed q ok
  | .tick ok =>
    if st.queue.isEmpty then st
    else
      let (flushed, q) := DbBatcher.flush st.queue
      bemit st flushed q ok

/-- Running the batcher over a sequence of events from an initial
durable state with an empty queue. -/
def brun (db : Db) (events : List BEvent) : BatcherSt :=
  events.foldl bstep ⟨[], [], db⟩

/-- The ops a sequence of events enqueues, in order. -/
def enqueuedOps : List BEvent → List DbOp
  | [] => []
  | .add op _ :: es => op :: enqueuedOps es
  | .addMany ops _ :: es => ops ++ enqueuedOps es
  | .tick _ :: es => enqueuedOps es

/-- The success-flag-free shape of one event: which ops it enqueues,
or none for a timer tick. -/
def eshape : BEvent → Option (List DbOp)
  | .add op _ => some [op]
  | .addMany ops _ => some ops
  | .tick _ => none

/-- The success-flag-free shape of a sequence of events, the only part
a bulk write failure cannot change. -/
def eventShape (events : List BEvent) : List (Option (List DbOp)) :=
  events.map eshape

/-! ## Batch-set handlers (global and buffered) -/

/-- One item of a global batch write: target namespace, key, data. -/
structure BItem where
  index : String
  key : String
  data : Payload
deriving DecidableEq, Repr

/-- Outcome of a batch-set request. -/
inductive BatchOutcome
  | forbidden (idx : String)
  | unavailable
  | okWritten
deriving DecidableEq, Repr

/-- The whole store state a batch handler can touch: the in-memory
registry, the durable collection and the batcher queue. -/
structure SysState where
  reg : Registry
  db : Db
  queue : List DbOp
deriving Repr

/-- The per-item permission loop shared by the two global batch
handlers: outside wildcard mode, the first item whose namespace is not
an exact member of allowedIndexes rejects the whole request. -/
def batchPermission (allowed : List String) (items : List BItem) :
    Option String :=
  if allowed.contains "*" then none
  else (items.find? (fun i => !allowed.contains i.index)).map (·.index)

/-- The updateOne descriptors a batch builds. -/
def batchOps (items : List BItem) (now ttl : Int) : List DbOp :=
  items.map (fun i => ⟨i.index, i.key, i.data, now, now + ttl * 1000⟩)

/-- The globalBatchSet handler: permission loop first (fail-closed,
state untouched); persist requires a connected db and bulk-writes all
items synchronously; the memory path writes every item through its
namespace cache. -/
def globalBatchSet (st : SysState) (allowed : List String) (ttl : Int)
    (items : List BItem) (persist : Bool) (dbReady : Bool) (now : Int) :
    BatchOutcome × SysState :=
  match batchPermission allowed items with
  | some badIdx => (.forbidden badIdx, st)
  | none =>
    if persist then
      if !dbReady then (.unavailable, st)
      else (.okWritten,
        { st with db := applyBulkWrite st.db (batchOps items now ttl) })
    else
      let regAfter := items.foldl
        (fun r i => memWrite r i.index i.key i.data ttl now) st.reg
      (.okWritten, { st with reg := regAfter })

/-- The bufferedBatchSet handler: identical to globalBatchSet except
that the persist path hands the descriptors to the write-behind
batcher (which may flush at the threshold) instead of writing
synchronously. -/
def bufferedBatchSet (st : SysState) (allowed : List String) (ttl : Int)
    (items : List BItem) (persist : Bool) (dbReady : Bool) (now : Int)
    (writeOk : Bool) : BatchOutcome × SysState :=
  match batchPermission allowed items with
  | some badIdx => (.forbidden badIdx, st)
  | none =>
    if persist then
      if !dbReady then (.unavailable, st)
      else
        let (flushed, q) := DbBatcher.addMany st.queue
          (batchOps items now ttl)
        (.okWritten,
          { st with
            queue := q
            db := if !flushed.isEmpty && writeOk then
                applyBulkWrite st.db flushed
              else st.db })
    else
      let regAfter := items.foldl
        (fun r i => memWrite r i.index i.key i.data ttl now) st.reg
      (.okWritten, { st with reg := regAfter })

/-! ## Permission middleware (src/middlewares/checkKey.ts) -/

/-- Decision of the per-request namespace authorization. -/
inductive AuthDecision
  | proceed
  | forbidden
deriving DecidableEq, Repr

/-- Splitting a character list on the slash character, the JS
String.prototype.split("/") used to extract the path segments. -/
def splitSlashAux : List Char → List Char → List String
  | [], acc => [String.mk acc.reverse]
  | c :: cs, acc =>
    if c = '/' then String.mk acc.reverse :: splitSlashAux cs []
    else splitSlashAux cs (c :: acc)

/-- The segments of a request path: the path split on slashes. -/
def pathSegments (path : String) : List String :=
  splitSlashAux path.data []

/-- The namespace-permission portion of the keyHandler middleware: the
two global batch paths defer to their handlers; otherwise the second
path segment is the target namespace and, unless it is empty or one of
batch, sorted, rank, a token that is neither wildcard nor an exact
member is rejected as forbidden. -/
def permissionCheck (allowedIndexes : List String) (path : String) :
    AuthDecision :=
  let isUniversal := allowedIndexes.contains "*"
  if path = "/batch/set" || path = "/batch/buffered" then .proceed
  else
    let segments := pathSegments path
    let targetIndex := segments.getD 1 ""
    if targetIndex ≠ "" ∧ targetIndex ∉ ["batch", "sorted", "rank"] then
      if !isUniversal && !allowedIndexes.contains targetIndex then
        .forbidden
      else .proceed
    else .proceed

/-! ## Query validation (the zod schemas) -/

/-- The pageSize rule of the Query and SortedQuery schemas: an omitted
value defaults to 5000; a supplied number must be an integer, strictly
positive and at most 5000, anything else is a BAD_REQUEST (none). -/
def validatePageSize : Option Rat → Option Nat
  | none => some 5000
  | some q =>
    if q.den = 1 ∧ 0 < q ∧ q ≤ 5000 then some q.num.toNat else none

/-! ## Cross-tier equivalence vocabulary -/

/-- The recency cursor filter of both getAll branches: a falsy
cursor (absent or zero) keeps everything, otherwise only write cursors
strictly before it pass. -/
def cursKeep (cursor : Option Int) (v : Int) : Bool :=
  match cursor with
  | none => true
  | some c => decide (c = 0) || decide (v < c)

/-- The strictly-better Mongo operator of the db rank branch:
ascending counts lt matches, descending gt matches. -/
def dbBetter (dir : Dir) (v t : SVal) : Bool :=
  match dir with
  | .asc => mongoQLt v t
  | .desc => mongoQGt v t

/-- Direction-adjusted integer sort key, for stating that both tiers
sort by the same key: ascending keeps the number, descending negates
it. -/
def dirKey (dir : Dir) (n : Int) : Int :=
  match dir with
  | .asc => n
  | .desc => -n

/-- The cursor filter of the db sorted branches: an absent cursor
keeps everything, otherwise the Mongo strictly-past operator of the
direction decides. -/
def svalKeep (dir : Dir) (cursor : Option SVal) (v : SVal) : Bool :=
  match cursor with
  | none => true
  | some c => mongoPast dir v c

/-- The find filter of the db sorted branch without a default: the
payload field must exist and be strictly past the cursor when one is
given. -/
def docKeep (dataName : String) (dir : Dir) (cursor : Option SVal)
    (d : Doc) : Bool :=
  match d.payload.getField dataName with
  | none => false
  | some v => svalKeep dir cursor v

/-! ## Helper lemmas about the TTL cache -/

theorem lookup_mapSet_self (c : TTLCache V) (k : String) (e : CacheEntry V) :
    TTLCache.lookup (TTLCache.mapSet c k e) k = some e := by
  unfold TTLCache.mapSet
  split
  case isTrue hany =>
    unfold TTLCache.lookup
    induction c with
    | nil => simp at hany
    | cons p rest ih =>
      simp only [List.any_cons, Bool.or_eq_true, decide_eq_true_eq] at hany
      by_cases hp : p.1 = k
      · simp [List.find?, hp]
      · have hrest : rest.any (fun p => decide (p.1 = k)) = true := by
          rcases hany with h | h
          · exact absurd h hp
          · exact h
        simp only [List.map_cons, if_neg hp]
        rw [List.find?]
        simp only [hp, decide_eq_false, Bool.false_eq_true]
        exact ih hrest
  case isFalse hany =>
    unfold TTLCache.lookup
    rw [List.find?_append]
    have hnone : c.find? (fun p => decide (p.1 = k)) = none := by
      rw [List.find?_eq_none]
      intro x hx
      have := List.any_eq_false.mp (Bool.eq_false_iff.mpr hany) x hx
      simpa using this
    simp [hnone, List.find?]

theorem lookup_del_self (c : TTLCache V) (k : String) :
    TTLCache.lookup (TTLCache.del c k) k = none := by
  unfold TTLCache.lookup TTLCache.del
  rw [Option.map_eq_none', List.find?_eq_none]
  intro x hx
  have := List.mem_filter.mp hx
  simpa using this.2

theorem get_set_eq (c : TTLCache V) (k : String) (v : V) (ttl now t : Int) :
    TTLCache.get (TTLCache.set c k v ttl now) k t =
      (if ttl ≤ 0 then
        (some v, TTLCache.set c k v ttl now)
      else if now + ttl * 1000 < t then
        (none, TTLCache.del (TTLCache.set c k v ttl now) k)
      else
        (some v, TTLCache.set c k v ttl now)) := by
  unfold TTLCache.set TTLCache.get
  by_cases h : ttl ≤ 0
  · simp only [if_pos h]
    rw [lookup_mapSet_self]
    simp [Expiry.expired]
  · simp only [if_neg h]
    rw [lookup_mapSet_self]
    by_cases ht : now + ttl * 1000 < t
    · simp [Expiry.expired, ht]
    · simp [Expiry.expired, ht]

/-- C2: TTL semantics of the memory store. A set with ttlSeconds <= 0
leaves the entry retrievable by get at every later instant until it is
explicitly deleted (infinite expiry); a set with ttlSeconds > 0 leaves
get returning the value at any instant up to expiry and returning
absent at any instant after expiry, and the absent-returning get
removes the entry from the underlying map as a side effect. -/
theorem ttl_semantics (c : TTLCache V) (k : String) (v : V)
    (ttl now : Int) :
    (ttl ≤ 0 →
      (∀ t, (TTLCache.get (TTLCache.set c k v ttl now) k t).1 = some v) ∧
      (∀ t,
        (TTLCache.get (TTLCache.del (TTLCache.set c k v ttl now) k) k t).1
          = none)) ∧
    (0 < ttl → ∀ t,
      (t ≤ now + ttl * 1000 →
        (TTLCache.get (TTLCache.set c k v ttl now) k t).1 = some v) ∧
      (now + ttl * 1000 < t →
        (TTLCache.get (TTLCache.set c k v ttl now) k t).1 = none ∧
        TTLCache.lookup
          (TTLCache.get (TTLCache.set c k v ttl now) k t).2 k = none)) := by
  constructor
  · intro httl
    constructor
    · intro t
      rw [get_set_eq]
      simp [httl]
    · intro t
      unfold TTLCache.get
      rw [lookup_del_self]
  · intro httl t
    have hnot : ¬ ttl ≤ 0 := by omega
    constructor
    · intro ht
      rw [get_set_eq]
      simp only [if_neg hnot]
      rw [if_neg (by omega)]
    · intro ht
      rw [get_set_eq]
      simp only [if_neg hnot]
      rw [if_pos ht]
      exact ⟨rfl, lookup_del_self _ _⟩

/-- Closed witness for C2: a concrete run at ttl -1 (never expires)
and ttl 2 (2000 ms window starting at instant 1000). -/
theorem ttl_semantics_witness :
    ((-1 : Int) ≤ 0 →
      (∀ t, (TTLCache.get
        (TTLCache.set ([] : TTLCache Nat) "k" 7 (-1) 1000) "k" t).1
          = some 7) ∧
      (∀ t, (TTLCache.get
        (TTLCache.del
          (TTLCache.set ([] : TTLCache Nat) "k" 7 (-1) 1000) "k") "k" t).1
          = none)) ∧
    ((0 : Int) < 2 → ∀ t,
      (t ≤ 1000 + 2 * 1000 →
        (TTLCache.get
          (TTLCache.set ([] : TTLCache Nat) "k" 7 2 1000) "k" t).1
          = some 7) ∧
      (1000 + 2 * 1000 < t →
        (TTLCache.get
          (TTLCache.set ([] : TTLCache Nat) "k" 7 2 1000) "k" t).1 = none ∧
        TTLCache.lookup
          (TTLCache.get
            (TTLCache.set ([] : TTLCache Nat) "k" 7 2 1000) "k" t).2 "k"
          = none)) :=
  ⟨(ttl_semantics ([] : TTLCache Nat) "k" 7 (-1) 1000).1,
   (ttl_semantics ([] : TTLCache Nat) "k" 7 2 1000).2⟩

/-- C8 counterexample: with a non-wildcard token allowed only the
namespace foo, a request whose target namespace is literally named
batch (path /batch, the recency listing of that namespace) proceeds,
although the claim mandates a forbidden rejection since batch is not a
member of allowedNamespaces. -/
theorem permission_exempt_name_counterexample :
    permissionCheck ["foo"] "/batch" = AuthDecision.proceed ∧
    (["foo"] : List String).contains "*" = false ∧
    (["foo"] : List String).contains "batch" = false := by
  exact ⟨by decide, by decide, by decide⟩

/-- C8 (amended): wildcard membership grants every namespace, and the
exact-membership rule holds for every target namespace except that a
namespace named batch, sorted or rank (and the two global batch paths,
whose check is deferred to the handler) bypasses the middleware check
and proceeds regardless of membership. -/
theorem permission_membership (allowed : List String) (path t : String)
    (hseg : (pathSegments path).getD 1 "" = t)
    (hne : t ≠ "")
    (hexempt : t ∉ (["batch", "sorted", "rank"] : List String))
    (hp1 : path ≠ "/batch/set") (hp2 : path ≠ "/batch/buffered") :
    (allowed.contains "*" = true →
      permissionCheck allowed path = .proceed) ∧
    (allowed.contains "*" = false →
      (permissionCheck allowed path = .proceed ↔
        allowed.contains t = true)) ∧
    (allowed.contains "*" = false → allowed.contains t = false →
      permissionCheck allowed path = .forbidden) ∧
    (∀ s, s ∈ (["batch", "sorted", "rank"] : List String) →
      ∀ path2, (pathSegments path2).getD 1 "" = s →
        path2 ≠ "/batch/set" → path2 ≠ "/batch/buffered" →
        permissionCheck allowed path2 = .proceed) := by
  have hcond : (path = "/batch/set" || path = "/batch/buffered") = false := by
    simp [hp1, hp2]
  refine ⟨?_, ?_, ?_, ?_⟩
  · intro huni
    unfold permissionCheck
    simp only [hcond, Bool.false_eq_true, if_false, hseg, huni]
    split
    · simp
    · rfl
  · intro huni
    unfold permissionCheck
    simp only [hcond, Bool.false_eq_true, if_false, hseg, huni]
    rw [if_pos ⟨hne, hexempt⟩]
    simp only [Bool.not_false, Bool.true_and]
    constructor
    · intro h
      by_contra hc
      have hcont : allowed.contains t = false := Bool.eq_false_iff.mpr hc
      have hb : (!allowed.contains t) = true := by rw [hcont]; rfl
      rw [if_pos hb] at h
      exact absurd h (by decide)
    · intro h
      have hb : (!allowed.contains t) = false := by rw [h]; rfl
      rw [if_neg (by rw [hb]; exact Bool.false_ne_true)]
  · intro huni hmem
    unfold permissionCheck
    simp only [hcond, Bool.false_eq_true, if_false, hseg, huni,
      Bool.not_false, Bool.true_and]
    rw [if_pos ⟨hne, hexempt⟩]
    have hb : (!allowed.contains t) = true := by rw [hmem]; rfl
    rw [if_pos hb]
  · intro s hs path2 hseg2 hq1 hq2
    have hcond2 :
        (path2 = "/batch/set" || path2 = "/batch/buffered") = false := by
      simp [hq1, hq2]
    unfold permissionCheck
    simp only [hcond2, Bool.false_eq_true, if_false, hseg2]
    rw [if_neg]
    intro hcontra
    exact hcontra.2 hs

/-- Closed witness for C8 (amended theorem): token allowed exactly the
namespace foo, request paths /foo/k1 (allowed), /bar/k1 (forbidden)
and /sorted (exempt name). -/
theorem permission_membership_witness :
    (permissionCheck ["foo"] "/foo/k1" = .proceed ↔
      (["foo"] : List String).contains "foo" = true) ∧
    permissionCheck ["foo"] "/bar/k1" = .forbidden ∧
    permissionCheck ["foo"] "/sorted" = .proceed := by
  refine ⟨?_, ?_, ?_⟩
  · exact (permission_membership ["foo"] "/foo/k1" "foo" (by decide)
      (by decide) (by decide) (by decide) (by decide)).2.1 (by decide)
  · exact (permission_membership ["foo"] "/bar/k1" "bar" (by decide)
      (by decide) (by decide) (by decide) (by decide)).2.2.1
      (by decide) (by decide)
  · exact (permission_membership ["foo"] "/zzz" "zzz" (by decide)
      (by decide) (by decide) (by decide) (by decide)).2.2.2 "sorted"
      (by decide) "/sorted" (by decide) (by decide) (by decide)

/-- C9 counterexample: a get request for a key with no live entry is
answered 200 OK with null data on both tiers, not with the not-found
outcome the claim mandates. -/
theorem get_missing_counterexample :
    memGetHandler ([] : NsCache) "k" 0 = ApiResult.okData none ∧
    dbGetHandler ([] : Db) "ns" "k" = ApiResult.okData none ∧
    ApiResult.okData none ≠ ApiResult.notFound := by
  exact ⟨rfl, rfl, by decide⟩

/-- C9 (amended): on both tiers a rank request for a missing entry is
reported as not-found, a rank request for an existing entry whose
payload lacks the field with no default supplied is reported as the
distinct BAD_REQUEST-class field-missing outcome, and a get request
for a missing entry is answered 200 OK with null data (absence is
reported through the data being null, not through a not-found
status). -/
theorem notfound_vs_fieldmissing (game : NsCache) (db : Db)
    (idx key dataName : String) (dir : Dir) (dflt : Option SVal)
    (now : Int) :
    ((TTLCache.get game key now).1 = none →
      memRankHandler game key dataName dir dflt now = .notFound) ∧
    (db.find? (fun d => d.index = idx && d.key = key) = none →
      dbRankHandler db idx key dataName dir dflt = .notFound) ∧
    (∀ entry, (TTLCache.get game key now).1 = some entry →
      entry.payload.getField dataName = none →
      memRankHandler game key dataName dir none now
        = .badRequestFieldMissing) ∧
    (∀ doc, db.find? (fun d => d.index = idx && d.key = key) = some doc →
      doc.payload.getField dataName = none →
      dbRankHandler db idx key dataName dir none
        = .badRequestFieldMissing) ∧
    (ApiResult.badRequestFieldMissing ≠ ApiResult.notFound) ∧
    ((TTLCache.get game key now).1 = none →
      memGetHandler game key now = .okData none) ∧
    (db.find? (fun d => d.index = idx && d.key = key) = none →
      dbGetHandler db idx key = .okData none) := by
  refine ⟨?_, ?_, ?_, ?_, by decide, ?_, ?_⟩
  · intro h
    unfold memRankHandler getRankMem
    rw [h]
  · intro h
    unfold dbRankHandler dbGetRank
    rw [h]
  · intro entry hentry hfield
    unfold memRankHandler
    simp only [getRankMem, hentry, effVal, hfield]
  · intro doc hdoc hfield
    unfold dbRankHandler
    simp only [dbGetRank, hdoc, effVal, hfield]
  · intro h
    unfold memGetHandler getMem
    rw [h]
    rfl
  · intro h
    unfold dbGetHandler dbGet
    rw [h]
    rfl

/-- Closed witness for C9 (amended theorem): a one-entry store whose
payload lacks the field, asked for a missing key and for the rank of
the present key without a default. -/
theorem notfound_vs_fieldmissing_witness :
    (memRankHandler [("a", ⟨⟨[("x", .num 1)], 5⟩, .inf⟩)] "zz" "s"
      .desc none 0 = .notFound) ∧
    (memRankHandler [("a", ⟨⟨[("x", .num 1)], 5⟩, .inf⟩)] "a" "s"
      .desc none 0 = .badRequestFieldMissing) ∧
    (dbRankHandler [⟨"ns", "a", [("x", .num 1)], 5, 99⟩] "ns" "zz" "s"
      .desc none = .notFound) ∧
    (dbRankHandler [⟨"ns", "a", [("x", .num 1)], 5, 99⟩] "ns" "a" "s"
      .desc none = .badRequestFieldMissing) ∧
    (memGetHandler [("a", ⟨⟨[("x", .num 1)], 5⟩, .inf⟩)] "zz" 0
      = .okData none) ∧
    (dbGetHandler [⟨"ns", "a", [("x", .num 1)], 5, 99⟩] "ns" "zz"
      = .okData none) := by
  refine ⟨?_, ?_, ?_, ?_, ?_, ?_⟩
  · exact (notfound_vs_fieldmissing
      [("a", ⟨⟨[("x", .num 1)], 5⟩, .inf⟩)] [] "ns" "zz" "s" .desc none
      0).1 (by decide)
  · exact (notfound_vs_fieldmissing
      [("a", ⟨⟨[("x", .num 1)], 5⟩, .inf⟩)] [] "ns" "a" "s" .desc none
      0).2.2.1 ⟨[("x", .num 1)], 5⟩ (by decide) (by decide)
  · exact (notfound_vs_fieldmissing []
      [⟨"ns", "a", [("x", .num 1)], 5, 99⟩] "ns" "zz" "s" .desc none
      0).2.1 (by decide)
  · exact (notfound_vs_fieldmissing []
      [⟨"ns", "a", [("x", .num 1)], 5, 99⟩] "ns" "a" "s" .desc none
      0).2.2.2.1 ⟨"ns", "a", [("x", .num 1)], 5, 99⟩ (by decide)
      (by decide)
  · exact (notfound_vs_fieldmissing
      [("a", ⟨⟨[("x", .num 1)], 5⟩, .inf⟩)] [] "ns" "zz" "s" .desc none
      0).2.2.2.2.2.1 (by decide)
  · exact (notfound_vs_fieldmissing []
      [⟨"ns", "a", [("x", .num 1)], 5, 99⟩] "ns" "zz" "s" .desc none
      0).2.2.2.2.2.2 (by decide)

/-- C10: pageSize validation. An omitted pageSize defaults to 5000; a
supplied pageSize greater than 5000, nonpositive or non-integer is
rejected as BAD_REQUEST before any data is read; every accepted
pageSize is at most 5000; and with an accepted pageSize no single page
of the recency or sorted listing, on either tier, holds more than 5000
items. -/
theorem pageSize_validation (q : Rat) :
    (validatePageSize none = some 5000) ∧
    ((5000 : Rat) < q ∨ q ≤ 0 ∨ q.den ≠ 1 →
      validatePageSize (some q) = none) ∧
    (∀ p, validatePageSize (some q) = some p → p ≤ 5000) ∧
    (∀ p, validatePageSize (some q) = some p →
      ∀ (game : NsCache) (db : Db) (idx dataName : String) (dir : Dir)
        (cursor : Option Int) (scursor dflt : Option SVal) (now : Int),
        (getAllMem game cursor p now).items.length ≤ 5000 ∧
        (dbGetAll db idx cursor p).items.length ≤ 5000 ∧
        (getSortedMem game dataName dir scursor dflt p now).items.length
          ≤ 5000 ∧
        (dbGetSorted db idx dataName dir scursor dflt p).items.length
          ≤ 5000) := by
  have hmain : ∀ p, validatePageSize (some q) = some p → p ≤ 5000 := by
    intro p hp
    simp only [validatePageSize] at hp
    by_cases hcond : q.den = 1 ∧ 0 < q ∧ q ≤ 5000
    · rw [if_pos hcond] at hp
      have hq : (q.num : Rat) = q := (Rat.den_eq_one_iff q).mp hcond.1
      have hle : (q.num : Rat) ≤ (5000 : Rat) := by
        rw [hq]; exact hcond.2.2
      have hnum : q.num ≤ 5000 := by exact_mod_cast hle
      have : p = q.num.toNat := by
        injection hp with h
        exact h.symm
      omega
    · rw [if_neg hcond] at hp
      exact absurd hp (by simp)
  refine ⟨rfl, ?_, hmain, ?_⟩
  · intro hbad
    simp only [validatePageSize]
    rw [if_neg]
    rintro ⟨hden, hpos, hle⟩
    rcases hbad with h | h | h
    · exact absurd hle (not_le.mpr h)
    · exact absurd hpos (not_lt.mpr h)
    · exact h hden
  · intro p hp game db idx dataName dir cursor scursor dflt now
    have hple := hmain p hp
    have hbound : ∀ (α β : Type) (l : List α) (f : α → β),
        ((l.take p).map f).length ≤ 5000 := by
      intro α β l f
      rw [List.length_map, List.length_take]
      calc p ⊓ l.length ≤ p := inf_le_left
        _ ≤ 5000 := hple
    refine ⟨?_, ?_, ?_, ?_⟩
    · exact hbound _ _ _ _
    · exact hbound _ _ _ _
    · exact hbound _ _ _ _
    · unfold dbGetSorted
      cases dflt with
      | some v => exact hbound _ _ _ _
      | none => exact hbound _ _ _ _

/-- Closed witness for C10: the pageSize 20 is accepted and a concrete
one-entry listing stays within the bound. -/
theorem pageSize_validation_witness :
    validatePageSize (some 20) = some 20 ∧
    (getAllMem [("a", ⟨⟨[("x", .num 1)], 5⟩, .inf⟩)] none 20 0).items.length
      ≤ 5000 := by
  constructor
  · decide
  · exact ((pageSize_validation 20).2.2.2 20 (by decide)
      [("a", ⟨⟨[("x", .num 1)], 5⟩, .inf⟩)] [] "ns" "x" .desc none none
      none 0).1

/-- C6: batch-write authorization atomicity. With a non-wildcard
token, a global batch (synchronous or buffered) holding any item whose
namespace is not an exact member of the allowed set is rejected as
forbidden and the whole store state - memory registry, durable
collection and batcher queue - is left unchanged. -/
theorem batch_authorization_atomic (st : SysState) (allowed : List String)
    (ttl : Int) (items : List BItem) (persist dbReady : Bool) (now : Int)
    (writeOk : Bool)
    (hnw : allowed.contains "*" = false)
    (hbad : ∃ i ∈ items, allowed.contains i.index = false) :
    ∃ bad,
      globalBatchSet st allowed ttl items persist dbReady now
        = (.forbidden bad, st) ∧
      bufferedBatchSet st allowed ttl items persist dbReady now writeOk
        = (.forbidden bad, st) := by
  obtain ⟨i, hi, hidx⟩ := hbad
  have hfind : (items.find? (fun i => !allowed.contains i.index)).isSome
      = true := by
    rw [List.find?_isSome]
    exact ⟨i, hi, by rw [hidx]; rfl⟩
  obtain ⟨x, hx⟩ := Option.isSome_iff_exists.mp hfind
  have hperm : batchPermission allowed items = some x.index := by
    unfold batchPermission
    rw [if_neg (by rw [hnw]; exact Bool.false_ne_true), hx]
    rfl
  refine ⟨x.index, ?_, ?_⟩
  · unfold globalBatchSet
    rw [hperm]
  · unfold bufferedBatchSet
    rw [hperm]

/-- Closed witness for C6: a two-item batch where the second item
names a disallowed namespace is rejected whole, on both the
synchronous and the buffered path. -/
theorem batch_authorization_atomic_witness :
    ∃ bad,
      globalBatchSet ⟨[], [], []⟩ ["foo"] 60
        [⟨"foo", "k1", []⟩, ⟨"bar", "k2", []⟩] true true 0
        = (.forbidden bad, ⟨[], [], []⟩) ∧
      bufferedBatchSet ⟨[], [], []⟩ ["foo"] 60
        [⟨"foo", "k1", []⟩, ⟨"bar", "k2", []⟩] true true 0 true
        = (.forbidden bad, ⟨[], [], []⟩) :=
  batch_authorization_atomic ⟨[], [], []⟩ ["foo"] 60
    [⟨"foo", "k1", []⟩, ⟨"bar", "k2", []⟩] true true 0 true
    (by decide) ⟨⟨"bar", "k2", []⟩, by decide, by decide⟩

/-- Snapshot semantics of the write-behind flush: a nonempty queue is
handed over whole and the queue left behind is empty. -/
theorem flush_nonempty (q : List DbOp) (h : q ≠ []) :
    DbBatcher.flush q = (q, []) := by
  unfold DbBatcher.flush
  rw [if_neg (by simpa using h)]

/-- The tracked state after a nonempty hand-off. -/
theorem bemit_nonempty (st : BatcherSt) (flushed queueAfter : List DbOp)
    (writeOk : Bool) (h : flushed ≠ []) :
    bemit st flushed queueAfter writeOk =
      ⟨queueAfter, st.batches ++ [flushed],
        if writeOk then applyBulkWrite st.db flushed else st.db⟩ := by
  unfold bemit
  rw [if_neg (by simpa using h)]

/-- The tracked state after an empty hand-off. -/
theorem bemit_empty (st : BatcherSt) (queueAfter : List DbOp)
    (writeOk : Bool) :
    bemit st [] queueAfter writeOk = { st with queue := queueAfter } := by
  unfold bemit
  rfl

/-- Per-step conservation of the batcher: one event appends its
enqueued ops to the concatenation of all flushed batches and the live
queue. -/
theorem bstep_conserve (st : BatcherSt) (e : BEvent) :
    (bstep st e).batches.flatten ++ (bstep st e).queue =
      st.batches.flatten ++ st.queue ++ enqueuedOps [e] := by
  cases e with
  | add op ok =>
    unfold bstep DbBatcher.add
    simp only [enqueuedOps]
    by_cases hth : batchSize ≤ (st.queue ++ [op]).length
    · rw [if_pos hth, flush_nonempty _ (by simp),
        bemit_nonempty _ _ _ _ (by simp)]
      simp
    · rw [if_neg hth, bemit_empty]
      simp
  | addMany ops ok =>
    unfold bstep DbBatcher.addMany
    simp only [enqueuedOps]
    by_cases hth : batchSize ≤ (st.queue ++ ops).length
    · have hne : st.queue ++ ops ≠ [] := by
        intro hc
        rw [hc] at hth
        simp [batchSize] at hth
      rw [if_pos hth, flush_nonempty _ hne, bemit_nonempty _ _ _ _ hne]
      simp
    · rw [if_neg hth, bemit_empty]
      simp
  | tick ok =>
    unfold bstep
    simp only [enqueuedOps]
    by_cases hemp : st.queue.isEmpty
    · rw [if_pos hemp]
      simp
    · have hne : st.queue ≠ [] := by simpa using hemp
      rw [if_neg hemp, flush_nonempty _ hne, bemit_nonempty _ _ _ _ hne]
      simp

/-- The bookkeeping of a hand-off ignores the success flag on its
queue and batches components. -/
theorem bemit_queue_batches (st1 st2 : BatcherSt)
    (flushed queueAfter : List DbOp) (ok1 ok2 : Bool)
    (hq : st1.queue = st2.queue) (hb : st1.batches = st2.batches) :
    (bemit st1 flushed queueAfter ok1).queue
      = (bemit st2 flushed queueAfter ok2).queue ∧
    (bemit st1 flushed queueAfter ok1).batches
      = (bemit st2 flushed queueAfter ok2).batches := by
  unfold bemit
  split <;> simp [hb]

/-- The addMany of a single op is the add of that op. -/
theorem addMany_single (queue : List DbOp) (op : DbOp) :
    DbBatcher.addMany queue [op] = DbBatcher.add queue op := rfl

/-- One step of the batcher computes the same queue and the same
flushed batches for any two events of the same shape, whatever the
success flags: a failed bulk write is dropped, never re-queued and
never retried. -/
theorem bstep_shape (st1 st2 : BatcherSt) (e1 e2 : BEvent)
    (hq : st1.queue = st2.queue) (hb : st1.batches = st2.batches)
    (hs : eshape e1 = eshape e2) :
    (bstep st1 e1).queue = (bstep st2 e2).queue ∧
    (bstep st1 e1).batches = (bstep st2 e2).batches := by
  cases e1 with
  | add op1 ok1 =>
    cases e2 with
    | add op2 ok2 =>
      have hop : op1 = op2 := by
        simpa [eshape] using hs
      subst hop
      simp only [bstep]
      rw [hq]
      rcases hadd : DbBatcher.add st2.queue op1 with ⟨flushed, q⟩
      exact bemit_queue_batches st1 st2 flushed q ok1 ok2 hq hb
    | addMany ops2 ok2 =>
      have hop : ops2 = [op1] := by
        have := hs
        simp [eshape] at this
        exact this.symm
      subst hop
      simp only [bstep]
      rw [hq, addMany_single]
      rcases hadd : DbBatcher.add st2.queue op1 with ⟨flushed, q⟩
      exact bemit_queue_batches st1 st2 flushed q ok1 ok2 hq hb
    | tick ok2 => simp [eshape] at hs
  | addMany ops1 ok1 =>
    cases e2 with
    | add op2 ok2 =>
      have hop : ops1 = [op2] := by
        simpa [eshape] using hs
      subst hop
      simp only [bstep]
      rw [hq, addMany_single]
      rcases hadd : DbBatcher.add st2.queue op2 with ⟨flushed, q⟩
      exact bemit_queue_batches st1 st2 flushed q ok1 ok2 hq hb
    | addMany ops2 ok2 =>
      have hop : ops1 = ops2 := by
        simpa [eshape] using hs
      subst hop
      simp only [bstep]
      rw [hq]
      rcases hadd : DbBatcher.addMany st2.queue ops1 with ⟨flushed, q⟩
      exact bemit_queue_batches st1 st2 flushed q ok1 ok2 hq hb
    | tick ok2 => simp [eshape] at hs
  | tick ok1 =>
    cases e2 with
    | add op2 ok2 => simp [eshape] at hs
    | addMany ops2 ok2 => simp [eshape] at hs
    | tick ok2 =>
      simp only [bstep]
      rw [hq]
      by_cases hemp : st2.queue.isEmpty
      · rw [if_pos hemp, if_pos hemp]
        exact ⟨hq, hb⟩
      · rw [if_neg hemp, if_neg hemp]
        rcases hfl : DbBatcher.flush st2.queue with ⟨flushed, q⟩
        exact bemit_queue_batches st1 st2 flushed q ok1 ok2 hq hb

/-- Conservation over a run from any starting state. -/
theorem brun_conserve_aux (events : List BEvent) : ∀ st : BatcherSt,
    ((events.foldl bstep st).batches.flatten
        ++ (events.foldl bstep st).queue)
      = st.batches.flatten ++ st.queue ++ enqueuedOps events := by
  induction events with
  | nil =>
    intro st
    simp [enqueuedOps]
  | cons e es ih =>
    intro st
    rw [List.foldl_cons, ih (bstep st e), bstep_conserve]
    cases e <;> simp [enqueuedOps]

/-- Shape invariance over a run from any pair of starting states. -/
theorem brun_shape_aux (events1 : List BEvent) :
    ∀ (events2 : List BEvent) (st1 st2 : BatcherSt),
    eventShape events1 = eventShape events2 →
    st1.queue = st2.queue → st1.batches = st2.batches →
    (events1.foldl bstep st1).queue = (events2.foldl bstep st2).queue ∧
    (events1.foldl bstep st1).batches
      = (events2.foldl bstep st2).batches := by
  induction events1 with
  | nil =>
    intro events2 st1 st2 hs hq hb
    cases events2 with
    | nil => exact ⟨hq, hb⟩
    | cons f fs => simp [eventShape] at hs
  | cons e es ih =>
    intro events2 st1 st2 hs hq hb
    cases events2 with
    | nil => simp [eventShape] at hs
    | cons f fs =>
      simp only [eventShape, List.map_cons, List.cons.injEq] at hs
      obtain ⟨hstep1, hstep2⟩ :=
        bstep_shape st1 st2 e f hq hb hs.1
      exact ih fs (bstep st1 e) (bstep st2 f)
        (by simpa [eventShape] using hs.2) hstep1 hstep2

/-- C7: write-behind batcher flush semantics. A flush snapshots
exactly the queued operations and empties the queue before applying
them; over any sequence of batcher events the flushed batches followed
by the live queue are exactly the enqueued operations in order (no
operation lost, none flushed twice); the queue and the flushed batches
are independent of bulk-write success (a failed batch is dropped, the
queue never regains it, no retry occurs); and a failed bulk write
leaves the durable state untouched. -/
theorem batcher_at_most_once :
    (∀ q : List DbOp, q ≠ [] → DbBatcher.flush q = (q, [])) ∧
    (∀ (db : Db) (events : List BEvent),
      (brun db events).batches.flatten ++ (brun db events).queue
        = enqueuedOps events) ∧
    (∀ (db1 db2 : Db) (events1 events2 : List BEvent),
      eventShape events1 = eventShape events2 →
      (brun db1 events1).queue = (brun db2 events2).queue ∧
      (brun db1 events1).batches = (brun db2 events2).batches) ∧
    (∀ (st : BatcherSt) (op : DbOp) (ops : List DbOp),
      (bstep st (.add op false)).db = st.db ∧
      (bstep st (.addMany ops false)).db = st.db ∧
      (bstep st (.tick false)).db = st.db) := by
  have hdb : ∀ (st : BatcherSt) (flushed q : List DbOp),
      (bemit st flushed q false).db = st.db := by
    intro st flushed q
    unfold bemit
    split <;> rfl
  refine ⟨flush_nonempty, ?_, ?_, ?_⟩
  · intro db events
    have := brun_conserve_aux events ⟨[], [], db⟩
    simpa [brun] using this
  · intro db1 db2 events1 events2 hs
    exact brun_shape_aux events1 events2 ⟨[], [], db1⟩ ⟨[], [], db2⟩
      hs rfl rfl
  · intro st op ops
    refine ⟨?_, ?_, ?_⟩
    · simp only [bstep]
      rcases h : DbBatcher.add st.queue op with ⟨flushed, q⟩
      exact hdb st flushed q
    · simp only [bstep]
      rcases h : DbBatcher.addMany st.queue ops with ⟨flushed, q⟩
      exact hdb st flushed q
    · simp only [bstep]
      by_cases hemp : st.queue.isEmpty
      · rw [if_pos hemp]
      · rw [if_neg hemp]
        rcases h : DbBatcher.flush st.queue with ⟨flushed, q⟩
        exact hdb st flushed q

/-- Closed witness for C7: a concrete three-event run in which the
middle flush fails; the flushed batches and final queue cover exactly
the enqueued ops, and the same run with a succeeding flush has the
same queue and batches. -/
theorem batcher_at_most_once_witness :
    DbBatcher.flush [⟨"n", "k", [], 1, 2⟩] = ([⟨"n", "k", [], 1, 2⟩], []) ∧
    ((brun [] [.add ⟨"n", "k", [], 1, 2⟩ true, .tick false,
        .add ⟨"n", "j", [], 3, 4⟩ true]).batches.flatten
      ++ (brun [] [.add ⟨"n", "k", [], 1, 2⟩ true, .tick false,
        .add ⟨"n", "j", [], 3, 4⟩ true]).queue
      = enqueuedOps [.add ⟨"n", "k", [], 1, 2⟩ true, .tick false,
        .add ⟨"n", "j", [], 3, 4⟩ true]) ∧
    ((brun [] [.add ⟨"n", "k", [], 1, 2⟩ true, .tick false,
        .add ⟨"n", "j", [], 3, 4⟩ true]).queue
      = (brun [] [.add ⟨"n", "k", [], 1, 2⟩ true, .tick true,
        .add ⟨"n", "j", [], 3, 4⟩ true]).queue) := by
  refine ⟨?_, ?_, ?_⟩
  · exact batcher_at_most_once.1 [⟨"n", "k", [], 1, 2⟩] (by decide)
  · exact batcher_at_most_once.2.1 []
      [.add ⟨"n", "k", [], 1, 2⟩ true, .tick false,
        .add ⟨"n", "j", [], 3, 4⟩ true]
  · exact (batcher_at_most_once.2.2.1 [] []
      [.add ⟨"n", "k", [], 1, 2⟩ true, .tick false,
        .add ⟨"n", "j", [], 3, 4⟩ true]
      [.add ⟨"n", "k", [], 1, 2⟩ true, .tick true,
        .add ⟨"n", "j", [], 3, 4⟩ true] (by decide)).1

/-- Counting loop accumulator: folding an if-increment equals the
starting value plus countP. -/
theorem foldl_count {α : Type} (f : α → Bool) (l : List α) : ∀ n : Nat,
    l.foldl (fun acc x => if f x then acc + 1 else acc) n
      = n + l.countP f := by
  induction l with
  | nil =>
    intro n
    simp
  | cons x xs ih =>
    intro n
    rw [List.foldl_cons]
    by_cases hf : f x
    · rw [if_pos hf, ih, List.countP_cons, if_pos hf]
      omega
    · rw [if_neg hf, ih, List.countP_cons, if_neg hf]
      omega

/-- C3: rank computation on both tiers. For a resolved target entry
with an effective value, the rank is one plus the number of entries of
the namespace whose effective field value (the payload field, or the
supplied default when the field is missing) is strictly better than
the target value - greater for descending, smaller for ascending: the
memory branch counts live entries with the JS comparator, the db
branch counts namespace documents with the Mongo operator. A key with
no entry yields not-found on either tier; an entry whose payload lacks
the field with no default supplied yields the distinct field-missing
BAD_REQUEST-class outcome on either tier. -/
theorem rank_semantics (game : NsCache) (db : Db) (idx key dataName : String)
    (dir : Dir) (dflt : Option SVal) (now : Int) :
    (∀ entry target,
      (TTLCache.get game key now).1 = some entry →
      effVal entry.payload dataName dflt = some target →
      getRankMem game key dataName dir dflt now =
        .ranked (1 + (liveEntries game now).countP (fun p =>
          match effVal p.2.payload dataName dflt with
          | none => false
          | some v => betterThan v target dir))) ∧
    ((TTLCache.get game key now).1 = none →
      getRankMem game key dataName dir dflt now = .notFound) ∧
    (∀ entry, (TTLCache.get game key now).1 = some entry →
      entry.payload.getField dataName = none →
      getRankMem game key dataName dir none now = .fieldMissing) ∧
    (∀ dc target,
      db.find? (fun d => d.index = idx && d.key = key) = some dc →
      effVal dc.payload dataName dflt = some target →
      dbGetRank db idx key dataName dir dflt =
        .ranked (1 + (db.filter (fun c => c.index = idx)).countP (fun d =>
          match effVal d.payload dataName dflt with
          | none => false
          | some v => dbBetter dir v target))) ∧
    (db.find? (fun d => d.index = idx && d.key = key) = none →
      dbGetRank db idx key dataName dir dflt = .notFound) ∧
    (∀ dc, db.find? (fun d => d.index = idx && d.key = key) = some dc →
      dc.payload.getField dataName = none →
      dbGetRank db idx key dataName dir none = .fieldMissing) ∧
    (RankRes.fieldMissing ≠ RankRes.notFound) := by
  refine ⟨?_, ?_, ?_, ?_, ?_, ?_, by decide⟩
  · intro entry target hentry htarget
    simp only [getRankMem, hentry, htarget]
    have hbody : (fun (acc : Nat) (p : String × MemEntry) =>
        match effVal p.2.payload dataName dflt with
        | none => acc
        | some v => if betterThan v target dir then acc + 1 else acc)
        = (fun (acc : Nat) (p : String × MemEntry) =>
          if (match effVal p.2.payload dataName dflt with
            | none => false
            | some v => betterThan v target dir) then acc + 1
          else acc) := by
      funext acc p
      cases h : effVal p.2.payload dataName dflt with
      | none => simp
      | some v => simp
    rw [hbody, foldl_count]
    have : (0 : Nat) + (liveEntries game now).countP (fun p =>
        match effVal p.2.payload dataName dflt with
        | none => false
        | some v => betterThan v target dir) = _ := rfl
    rw [Nat.zero_add, Nat.add_comm]
  · intro h
    simp only [getRankMem, h]
  · intro entry hentry hfield
    simp only [getRankMem, hentry, effVal, hfield]
  · intro dc target hfind htarget
    unfold dbGetRank
    rw [hfind]
    dsimp only
    rw [htarget]
    cases dflt with
    | none =>
      dsimp only
      have hc : (db.filter (fun c => c.index = idx)).countP (fun d =>
          match d.payload.getField dataName with
          | none => false
          | some v => dbBetter dir v target)
          = (db.filter (fun c => c.index = idx)).countP (fun d =>
            match effVal d.payload dataName none with
            | none => false
            | some v => dbBetter dir v target) := by
        apply List.countP_congr
        intro d _
        cases h : d.payload.getField dataName with
        | none => simp [effVal, h]
        | some v => simp [effVal, h]
      have hfinal : RankRes.ranked
          ((db.filter (fun c => c.index = idx)).countP (fun d =>
            match d.payload.getField dataName with
            | none => false
            | some v => dbBetter dir v target) + 1)
          = RankRes.ranked
            (1 + (db.filter (fun c => c.index = idx)).countP (fun d =>
              match effVal d.payload dataName none with
              | none => false
              | some v => dbBetter dir v target)) := by
        rw [hc, Nat.add_comm]
      exact hfinal
    | some dv =>
      dsimp only
      have hc : (db.filter (fun c => c.index = idx)).countP (fun d =>
          dbBetter dir ((d.payload.getField dataName).getD dv) target)
          = (db.filter (fun c => c.index = idx)).countP (fun d =>
            match effVal d.payload dataName (some dv) with
            | none => false
            | some v => dbBetter dir v target) := by
        apply List.countP_congr
        intro d _
        cases h : d.payload.getField dataName with
        | none => simp [effVal, h]
        | some v => simp [effVal, h]
      have hfinal : RankRes.ranked
          ((db.filter (fun c => c.index = idx)).countP (fun d =>
            dbBetter dir ((d.payload.getField dataName).getD dv) target) + 1)
          = RankRes.ranked
            (1 + (db.filter (fun c => c.index = idx)).countP (fun d =>
              match effVal d.payload dataName (some dv) with
              | none => false
              | some v => dbBetter dir v target)) := by
        rw [hc, Nat.add_comm]
      exact hfinal
  · intro h
    unfold dbGetRank
    rw [h]
  · intro dc hfind hfield
    simp only [dbGetRank, hfind, effVal, hfield]

/-- Closed witness for C3: the three-entry namespace with field values
10, 20 and 30 sorted descending gives the entry valued 20 the rank 2
and the entry valued 30 the rank 1 on both tiers; a missing key is
not-found and a field missing from a payload with no default is
field-missing, again on both tiers. -/
theorem rank_semantics_witness :
    getRankMem
      [("a", ⟨⟨[("s", .num 10)], 100⟩, .inf⟩),
       ("b", ⟨⟨[("s", .num 20)], 101⟩, .inf⟩),
       ("c", ⟨⟨[("s", .num 30)], 102⟩, .inf⟩)] "b" "s" .desc none 50
      = .ranked 2 ∧
    getRankMem
      [("a", ⟨⟨[("s", .num 10)], 100⟩, .inf⟩),
       ("b", ⟨⟨[("s", .num 20)], 101⟩, .inf⟩),
       ("c", ⟨⟨[("s", .num 30)], 102⟩, .inf⟩)] "c" "s" .desc none 50
      = .ranked 1 ∧
    getRankMem
      [("a", ⟨⟨[("s", .num 10)], 100⟩, .inf⟩),
       ("b", ⟨⟨[("s", .num 20)], 101⟩, .inf⟩),
       ("c", ⟨⟨[("s", .num 30)], 102⟩, .inf⟩)] "zz" "s" .desc none 50
      = .notFound ∧
    getRankMem
      [("a", ⟨⟨[("s", .num 10)], 100⟩, .inf⟩),
       ("b", ⟨⟨[("s", .num 20)], 101⟩, .inf⟩),
       ("c", ⟨⟨[("s", .num 30)], 102⟩, .inf⟩)] "b" "nope" .desc none 50
      = .fieldMissing ∧
    dbGetRank ([⟨"ns", "a", [("s", .num 10)], 100, 999⟩,
       ⟨"ns", "b", [("s", .num 20)], 101, 999⟩,
       ⟨"ns", "c", [("s", .num 30)], 102, 999⟩] : Db) "ns" "b" "s" .desc none = .ranked 2 ∧
    dbGetRank ([⟨"ns", "a", [("s", .num 10)], 100, 999⟩,
       ⟨"ns", "b", [("s", .num 20)], 101, 999⟩,
       ⟨"ns", "c", [("s", .num 30)], 102, 999⟩] : Db) "ns" "c" "s" .desc none = .ranked 1 ∧
    dbGetRank ([⟨"ns", "a", [("s", .num 10)], 100, 999⟩,
       ⟨"ns", "b", [("s", .num 20)], 101, 999⟩,
       ⟨"ns", "c", [("s", .num 30)], 102, 999⟩] : Db) "ns" "zz" "s" .desc none = .notFound ∧
    dbGetRank ([⟨"ns", "a", [("s", .num 10)], 100, 999⟩,
       ⟨"ns", "b", [("s", .num 20)], 101, 999⟩,
       ⟨"ns", "c", [("s", .num 30)], 102, 999⟩] : Db) "ns" "b" "nope" .desc none = .fieldMissing := by
  refine ⟨?_, ?_, ?_, ?_, ?_, ?_, ?_, ?_⟩
  · have h := (rank_semantics
      [("a", ⟨⟨[("s", .num 10)], 100⟩, .inf⟩),
       ("b", ⟨⟨[("s", .num 20)], 101⟩, .inf⟩),
       ("c", ⟨⟨[("s", .num 30)], 102⟩, .inf⟩)] ([⟨"ns", "a", [("s", .num 10)], 100, 999⟩,
       ⟨"ns", "b", [("s", .num 20)], 101, 999⟩,
       ⟨"ns", "c", [("s", .num 30)], 102, 999⟩] : Db) "ns" "b" "s" .desc none 50).1
      ⟨[("s", .num 20)], 101⟩ (.num 20) (by decide) (by decide)
    rw [h]
    decide
  · have h := (rank_semantics
      [("a", ⟨⟨[("s", .num 10)], 100⟩, .inf⟩),
       ("b", ⟨⟨[("s", .num 20)], 101⟩, .inf⟩),
       ("c", ⟨⟨[("s", .num 30)], 102⟩, .inf⟩)] ([⟨"ns", "a", [("s", .num 10)], 100, 999⟩,
       ⟨"ns", "b", [("s", .num 20)], 101, 999⟩,
       ⟨"ns", "c", [("s", .num 30)], 102, 999⟩] : Db) "ns" "c" "s" .desc none 50).1
      ⟨[("s", .num 30)], 102⟩ (.num 30) (by decide) (by decide)
    rw [h]
    decide
  · exact (rank_semantics
      [("a", ⟨⟨[("s", .num 10)], 100⟩, .inf⟩),
       ("b", ⟨⟨[("s", .num 20)], 101⟩, .inf⟩),
       ("c", ⟨⟨[("s", .num 30)], 102⟩, .inf⟩)] ([⟨"ns", "a", [("s", .num 10)], 100, 999⟩,
       ⟨"ns", "b", [("s", .num 20)], 101, 999⟩,
       ⟨"ns", "c", [("s", .num 30)], 102, 999⟩] : Db) "ns" "zz" "s" .desc none 50).2.1 (by decide)
  · exact (rank_semantics
      [("a", ⟨⟨[("s", .num 10)], 100⟩, .inf⟩),
       ("b", ⟨⟨[("s", .num 20)], 101⟩, .inf⟩),
       ("c", ⟨⟨[("s", .num 30)], 102⟩, .inf⟩)] ([⟨"ns", "a", [("s", .num 10)], 100, 999⟩,
       ⟨"ns", "b", [("s", .num 20)], 101, 999⟩,
       ⟨"ns", "c", [("s", .num 30)], 102, 999⟩] : Db) "ns" "b" "nope" .desc none 50).2.2.1
      ⟨[("s", .num 20)], 101⟩ (by decide) (by decide)
  · have h := (rank_semantics
      [("a", ⟨⟨[("s", .num 10)], 100⟩, .inf⟩),
       ("b", ⟨⟨[("s", .num 20)], 101⟩, .inf⟩),
       ("c", ⟨⟨[("s", .num 30)], 102⟩, .inf⟩)] ([⟨"ns", "a", [("s", .num 10)], 100, 999⟩,
       ⟨"ns", "b", [("s", .num 20)], 101, 999⟩,
       ⟨"ns", "c", [("s", .num 30)], 102, 999⟩] : Db) "ns" "b" "s" .desc none 50).2.2.2.1
      ⟨"ns", "b", [("s", .num 20)], 101, 999⟩ (.num 20)
      (by decide) (by decide)
    rw [h]
    decide
  · have h := (rank_semantics
      [("a", ⟨⟨[("s", .num 10)], 100⟩, .inf⟩),
       ("b", ⟨⟨[("s", .num 20)], 101⟩, .inf⟩),
       ("c", ⟨⟨[("s", .num 30)], 102⟩, .inf⟩)] ([⟨"ns", "a", [("s", .num 10)], 100, 999⟩,
       ⟨"ns", "b", [("s", .num 20)], 101, 999⟩,
       ⟨"ns", "c", [("s", .num 30)], 102, 999⟩] : Db) "ns" "c" "s" .desc none 50).2.2.2.1
      ⟨"ns", "c", [("s", .num 30)], 102, 999⟩ (.num 30)
      (by decide) (by decide)
    rw [h]
    decide
  · exact (rank_semantics
      [("a", ⟨⟨[("s", .num 10)], 100⟩, .inf⟩),
       ("b", ⟨⟨[("s", .num 20)], 101⟩, .inf⟩),
       ("c", ⟨⟨[("s", .num 30)], 102⟩, .inf⟩)] ([⟨"ns", "a", [("s", .num 10)], 100, 999⟩,
       ⟨"ns", "b", [("s", .num 20)], 101, 999⟩,
       ⟨"ns", "c", [("s", .num 30)], 102, 999⟩] : Db) "ns" "zz" "s" .desc none 50).2.2.2.2.1 (by decide)
  · exact (rank_semantics
      [("a", ⟨⟨[("s", .num 10)], 100⟩, .inf⟩),
       ("b", ⟨⟨[("s", .num 20)], 101⟩, .inf⟩),
       ("c", ⟨⟨[("s", .num 30)], 102⟩, .inf⟩)] ([⟨"ns", "a", [("s", .num 10)], 100, 999⟩,
       ⟨"ns", "b", [("s", .num 20)], 101, 999⟩,
       ⟨"ns", "c", [("s", .num 30)], 102, 999⟩] : Db) "ns" "b" "nope" .desc none 50).2.2.2.2.2.1
      ⟨"ns", "b", [("s", .num 20)], 101, 999⟩ (by decide) (by decide)

/-- An ascending strictly-sorted list merge-sorted with the descending
comparator is its reverse. -/
theorem mergeSort_desc_of_sorted_asc {α : Type} (keyf : α → Int)
    (l : List α)
    (hasc : l.Pairwise (fun a b => keyf a < keyf b)) :
    l.mergeSort (fun a b => decide (keyf b ≤ keyf a)) = l.reverse := by
  have hperm : (l.mergeSort (fun a b => decide (keyf b ≤ keyf a))).Perm l :=
    List.mergeSort_perm l _
  have hsorted : (l.mergeSort (fun a b => decide (keyf b ≤ keyf a))).Pairwise
      (fun a b => keyf b ≤ keyf a) := by
    have := @List.sorted_mergeSort _
      (fun a b => decide (keyf b ≤ keyf a))
      (fun a b c hab hbc => by
        simp only [decide_eq_true_eq] at *
        omega)
      (fun a b => by
        simp only [Bool.or_eq_true, decide_eq_true_eq]
        omega) l
    exact this.imp (fun h => by simpa using h)
  have hne : l.Pairwise (fun a b => keyf a ≠ keyf b) :=
    hasc.imp (fun h => by omega)
  have hnePerm : (l.mergeSort (fun a b => decide (keyf b ≤ keyf a))).Pairwise
      (fun a b => keyf a ≠ keyf b) :=
    (List.Perm.pairwise_iff (fun h => h.symm) hperm).mpr hne
  have hstrict : (l.mergeSort (fun a b => decide (keyf b ≤ keyf a))).Pairwise
      (fun a b => keyf b < keyf a) :=
    (hsorted.and hnePerm).imp (fun h => by omega)
  have hrev : l.reverse.Pairwise (fun a b => keyf b < keyf a) :=
    List.pairwise_reverse.mpr hasc
  have hperm2 : (l.mergeSort (fun a b => decide (keyf b ≤ keyf a))).Perm
      l.reverse := hperm.trans (List.reverse_perm l).symm
  exact @List.eq_of_perm_of_sorted _ (fun a b => keyf b < keyf a)
    ⟨fun a b h1 h2 => absurd h1 (by omega)⟩ _ _ hperm2 hstrict hrev

/-- C5: recency pagination of a namespace whose live entries were
written with strictly increasing write times: a request with no cursor
and pageSize equal to the number of entries returns all of them in
descending write-time order, with nextCursor the last (oldest)
returned write cursor and hasMore false - on the memory tier and on
the durable tier alike. -/
theorem recency_full_page (game : NsCache) (db : Db) (idx : String)
    (now : Int)
    (hascMem : (liveEntries game now).Pairwise
      (fun a b => a.2.cursor < b.2.cursor))
    (hascDb : (db.filter (fun d => d.index = idx)).Pairwise
      (fun a b => a.cursor < b.cursor)) :
    getAllMem game none (liveEntries game now).length now =
      { items := (liveEntries game now).reverse.map
          (fun p => (p.1, p.2.payload))
        pageSize := (liveEntries game now).length
        totalItems := (liveEntries game now).length
        nextCursor := ((liveEntries game now).head?).map
          (fun p => p.2.cursor)
        hasMore := false } ∧
    dbGetAll db idx none (db.filter (fun d => d.index = idx)).length =
      { items := (db.filter (fun d => d.index = idx)).reverse.map
          (fun d => (d.key, d.payload))
        pageSize := (db.filter (fun d => d.index = idx)).length
        totalItems := (db.filter (fun d => d.index = idx)).length
        nextCursor := ((db.filter (fun d => d.index = idx)).head?).map
          (·.cursor)
        hasMore := false } := by
  constructor
  · unfold getAllMem
    dsimp only
    rw [List.filter_true]
    have hsort : (liveEntries game now).mergeSort recLe
        = (liveEntries game now).reverse := by
      have : recLe = fun (a b : String × MemEntry) =>
          decide (b.2.cursor ≤ a.2.cursor) := rfl
      rw [this]
      exact mergeSort_desc_of_sorted_asc
        (fun (p : String × MemEntry) => p.2.cursor) _ hascMem
    rw [hsort]
    have hlen : (liveEntries game now).reverse.length
        = (liveEntries game now).length := List.length_reverse _
    have htake : (liveEntries game now).reverse.take
        (liveEntries game now).length = (liveEntries game now).reverse :=
      List.take_of_length_le (by rw [hlen])
    rw [htake]
    have hmore : (decide ((liveEntries game now).reverse.length
          = (liveEntries game now).length) &&
        decide ((liveEntries game now).length
          < (liveEntries game now).reverse.length)) = false := by
      rw [hlen]
      simp
    rw [hmore]
    rw [List.getLast?_reverse]
  · unfold dbGetAll
    dsimp only
    rw [List.filter_true]
    have hsort : (db.filter (fun d => d.index = idx)).mergeSort
        (fun a b => decide (b.cursor ≤ a.cursor))
        = (db.filter (fun d => d.index = idx)).reverse :=
      mergeSort_desc_of_sorted_asc (fun (d : Doc) => d.cursor) _ hascDb
    rw [hsort]
    have hlen : (db.filter (fun d => d.index = idx)).reverse.length
        = (db.filter (fun d => d.index = idx)).length :=
      List.length_reverse _
    have htake : (db.filter (fun d => d.index = idx)).reverse.take
        (db.filter (fun d => d.index = idx)).length
        = (db.filter (fun d => d.index = idx)).reverse :=
      List.take_of_length_le (by rw [hlen])
    rw [htake, List.getLast?_reverse]
    have hprobe : (match (db.filter (fun d => d.index = idx)).head? with
        | none => false
        | some last => (db.filter (fun d => d.index = idx)).any
            (fun d => decide (d.cursor < last.cursor))) = false := by
      cases hh : (db.filter (fun d => d.index = idx)) with
      | nil => rfl
      | cons h tl =>
        simp only [List.head?_cons]
        rw [hh] at hascDb
        have hlt : ∀ x ∈ tl, h.cursor < x.cursor :=
          (List.pairwise_cons.mp hascDb).1
        rw [List.any_eq_false]
        intro d hd
        rcases List.mem_cons.mp hd with hdh | hdt
        · subst hdh
          simp
        · have := hlt d hdt
          simp only [decide_eq_true_eq]
          omega
    rw [hprobe]

/-- Closed witness for C5: two entries written at instants 100 and 101
listed with pageSize 2 and no cursor, on both tiers. -/
theorem recency_full_page_witness :
    getAllMem [("a", ⟨⟨[("x", .num 1)], 100⟩, .inf⟩),
        ("b", ⟨⟨[("y", .num 2)], 101⟩, .inf⟩)] none 2 50 =
      { items := [("b", [("y", .num 2)]), ("a", [("x", .num 1)])]
        pageSize := 2
        totalItems := 2
        nextCursor := some 100
        hasMore := false } ∧
    dbGetAll [⟨"ns", "a", [("x", .num 1)], 100, 9⟩,
        ⟨"ns", "b", [("y", .num 2)], 101, 9⟩] "ns" none 2 =
      { items := [("b", [("y", .num 2)]), ("a", [("x", .num 1)])]
        pageSize := 2
        totalItems := 2
        nextCursor := some 100
        hasMore := false } := by
  have h := recency_full_page
    [("a", ⟨⟨[("x", .num 1)], 100⟩, .inf⟩),
     ("b", ⟨⟨[("y", .num 2)], 101⟩, .inf⟩)]
    [⟨"ns", "a", [("x", .num 1)], 100, 9⟩,
     ⟨"ns", "b", [("y", .num 2)], 101, 9⟩] "ns" 50
    (by decide) (by decide)
  exact ⟨h.1.trans (by decide), h.2.trans (by decide)⟩

/-! ## Generic sorting and numeric-comparison helper lemmas -/

theorem filterMap_all_some {α β : Type} (f : α → Option β) (g : α → β)
    (l : List α) (h : ∀ a ∈ l, f a = some (g a)) :
    l.filterMap f = l.map g := by
  induction l with
  | nil => rfl
  | cons x xs ih =>
    rw [List.filterMap_cons, h x (by simp), List.map_cons,
      ih (fun a ha => h a (by simp [ha]))]

theorem jsLt_num (a b : Int) :
    jsLt (.num a) (.num b) = decide (a < b) := rfl

theorem jsLe_num (a b : Int) :
    jsLe (.num a) (.num b) = decide (a ≤ b) := rfl

theorem jsGt_num (a b : Int) :
    jsGt (.num a) (.num b) = decide (b < a) := rfl

theorem jsGe_num (a b : Int) :
    jsGe (.num a) (.num b) = decide (b ≤ a) := rfl

theorem mongoQLt_num (a b : Int) :
    mongoQLt (.num a) (.num b) = decide (a < b) := rfl

theorem mongoQGt_num (a b : Int) :
    mongoQGt (.num a) (.num b) = decide (b < a) := rfl

theorem bsonLt_num (a b : Int) :
    bsonLt (.num a) (.num b) = decide (a < b) := rfl

theorem compare3_num_asc (a b : Int) :
    (compare3 (.num a) (.num b) .asc ≤ 0) ↔ a ≤ b := by
  by_cases hab : a = b
  · subst hab
    simp [compare3]
  · have hne : (SVal.num a) ≠ (SVal.num b) := by
      intro hc
      exact hab (by injection hc)
    by_cases hlt : b < a
    · have h1 : compare3 (.num a) (.num b) .asc = 1 := by
        simp [compare3, hne, jsGt, jsLt, toNum, hlt]
      rw [h1]
      omega
    · have h1 : compare3 (.num a) (.num b) .asc = -1 := by
        simp [compare3, hne, jsGt, jsLt, toNum, hlt]
      rw [h1]
      omega

theorem compare3_num_desc (a b : Int) :
    (compare3 (.num a) (.num b) .desc ≤ 0) ↔ b ≤ a := by
  by_cases hab : a = b
  · subst hab
    simp [compare3]
  · have hne : (SVal.num a) ≠ (SVal.num b) := by
      intro hc
      exact hab (by injection hc)
    by_cases hlt : a < b
    · have h1 : compare3 (.num a) (.num b) .desc = 1 := by
        simp [compare3, hne, jsLt, toNum, hlt]
      rw [h1]
      omega
    · have h1 : compare3 (.num a) (.num b) .desc = -1 := by
        simp [compare3, hne, jsLt, toNum, hlt]
      rw [h1]
      omega

/-- Merge sort with a comparator that agrees on the list with an
integer key comparison produces the key-sorted order. -/
theorem mergeSort_eq_keySort {α : Type} (l : List α) (le : α → α → Bool)
    (keyf : α → Int)
    (hagree : ∀ a ∈ l, ∀ b ∈ l, le a b = decide (keyf a ≤ keyf b)) :
    l.mergeSort le = l.mergeSort (fun a b => decide (keyf a ≤ keyf b)) := by
  have h := @List.map_mergeSort _ _ le
    (fun a b => decide (keyf a ≤ keyf b)) id l
    (fun a ha b hb => hagree a ha b hb)
  simpa using h

/-- Pairwise nonstrict key order of the merge-sorted list. -/
theorem mergeSort_key_pairwise {α : Type} (l : List α) (le : α → α → Bool)
    (keyf : α → Int)
    (hagree : ∀ a ∈ l, ∀ b ∈ l, le a b = decide (keyf a ≤ keyf b)) :
    (l.mergeSort le).Pairwise (fun a b => keyf a ≤ keyf b) := by
  rw [mergeSort_eq_keySort l le keyf hagree]
  have h := @List.sorted_mergeSort _
    (fun a b => decide (keyf a ≤ keyf b))
    (fun a b c hab hbc => by
      simp only [decide_eq_true_eq] at *
      omega)
    (fun a b => by
      simp only [Bool.or_eq_true, decide_eq_true_eq]
      omega) l
  exact h.imp (fun h => by simpa using h)

/-- Pairwise strict key order of the merge-sorted list when the keys
are pairwise distinct. -/
theorem mergeSort_key_pairwise_strict {α : Type} (l : List α)
    (le : α → α → Bool) (keyf : α → Int)
    (hagree : ∀ a ∈ l, ∀ b ∈ l, le a b = decide (keyf a ≤ keyf b))
    (hnd : (l.map keyf).Nodup) :
    (l.mergeSort le).Pairwise (fun a b => keyf a < keyf b) := by
  have hle := mergeSort_key_pairwise l le keyf hagree
  have hnd2 : l.Pairwise (fun a b => keyf a ≠ keyf b) :=
    List.pairwise_map.mp hnd
  have hnd3 : (l.mergeSort le).Pairwise (fun a b => keyf a ≠ keyf b) :=
    (List.Perm.pairwise_iff (fun h => h.symm)
      (List.mergeSort_perm l le)).mpr hnd2
  exact (hle.and hnd3).imp (fun h => by omega)


/-- Characterization of the memory-tier sorted listing with a default
value, for numeric distinct effective values fitting one page: the
items are exactly the live entries whose effective (default
substituted) value is strictly past the cursor, and they appear in
strict effective-value order. -/
theorem getSortedMem_dflt_char (game : NsCache) (dataName : String)
    (dir : Dir) (dn : Int) (cursor : Option SVal) (pageSize : Nat)
    (now : Int)
    (hcur : cursor = none ∨ ∃ cn, cursor = some (SVal.num cn))
    (hnum : ∀ p ∈ liveEntries game now, ∀ v,
      p.2.payload.getField dataName = some v → ∃ n, v = SVal.num n)
    (hnd : ((liveEntries game now).map
      (fun p => svalNum
        ((p.2.payload.getField dataName).getD (SVal.num dn)))).Nodup)
    (hpage : (liveEntries game now).length ≤ pageSize) :
    (∀ k pay, (k, pay) ∈ (getSortedMem game dataName dir cursor
        (some (SVal.num dn)) pageSize now).items ↔
      ((∃ e : MemEntry, (k, e) ∈ liveEntries game now ∧ e.payload = pay) ∧
        (match cursor with
          | none => True
          | some c =>
            (match dir with
              | Dir.asc => jsGt ((pay.getField dataName).getD (SVal.num dn)) c
              | Dir.desc =>
                jsLt ((pay.getField dataName).getD (SVal.num dn)) c)
              = true))) ∧
    (getSortedMem game dataName dir cursor (some (SVal.num dn)) pageSize
        now).items.Pairwise (fun a b =>
      (match dir with
        | Dir.asc => jsLt ((a.2.getField dataName).getD (SVal.num dn))
            ((b.2.getField dataName).getD (SVal.num dn))
        | Dir.desc => jsGt ((a.2.getField dataName).getD (SVal.num dn))
            ((b.2.getField dataName).getD (SVal.num dn))) = true) := by
  have hrows : ((liveEntries game now).filterMap (fun p =>
      match effVal p.2.payload dataName (some (SVal.num dn)) with
      | none => none
      | some v => some (⟨p.1, p.2.payload, v⟩ : SRow)))
      = (liveEntries game now).map (rowOf dataName (SVal.num dn)) := by
    apply filterMap_all_some
    intro p hp
    cases hf : p.2.payload.getField dataName with
    | none => simp [effVal, hf, rowOf]
    | some v => simp [effVal, hf, rowOf]
  have hvalnum : ∀ r ∈ (liveEntries game now).map
      (rowOf dataName (SVal.num dn)),
      ∃ n, r.val = SVal.num n ∧ svalNum r.val = n := by
    intro r hr
    obtain ⟨p, hp, hrp⟩ := List.mem_map.mp hr
    subst hrp
    cases hf : p.2.payload.getField dataName with
    | none => exact ⟨dn, by simp [rowOf, hf], by simp [rowOf, hf, svalNum]⟩
    | some v =>
      obtain ⟨n, hn⟩ := hnum p hp v hf
      exact ⟨n, by simp [rowOf, hf, hn], by simp [rowOf, hf, hn, svalNum]⟩
  have hvaleq : ∀ r ∈ (liveEntries game now).map
      (rowOf dataName (SVal.num dn)),
      r.val = (r.data.getField dataName).getD (SVal.num dn) := by
    intro r hr
    obtain ⟨p, hp, hrp⟩ := List.mem_map.mp hr
    subst hrp
    rfl
  have hitems : (getSortedMem game dataName dir cursor
      (some (SVal.num dn)) pageSize now).items
      = ((((liveEntries game now).map (rowOf dataName (SVal.num dn))).filter
            (fun r => sortedKeep r.val cursor dir)).mergeSort
          (rowLe dir)).map (fun r => (r.key, r.data)) := by
    unfold getSortedMem
    dsimp only
    rw [hrows]
    congr 1
    apply List.take_of_length_le
    rw [List.length_mergeSort]
    calc (((liveEntries game now).map
          (rowOf dataName (SVal.num dn))).filter
            (fun r => sortedKeep r.val cursor dir)).length
        ≤ ((liveEntries game now).map
            (rowOf dataName (SVal.num dn))).length :=
          List.length_filter_le _ _
      _ = (liveEntries game now).length := List.length_map _ _
      _ ≤ pageSize := hpage
  constructor
  · intro k pay
    rw [hitems]
    constructor
    · intro hmem
      obtain ⟨r, hr, hrk⟩ := List.mem_map.mp hmem
      have hr2 := List.mem_mergeSort.mp hr
      obtain ⟨hrW, hrkeep⟩ := List.mem_filter.mp hr2
      obtain ⟨p, hp, hrp⟩ := List.mem_map.mp hrW
      obtain ⟨n, hn, _⟩ := hvalnum r hrW
      have hkey : r.key = k := congrArg Prod.fst hrk
      have hdata : r.data = pay := congrArg Prod.snd hrk
      refine ⟨⟨p.2, ?_, ?_⟩, ?_⟩
      · have hp1 : p.1 = k := by
          rw [← hkey, ← hrp]
          rfl
        rw [← hp1]
        exact hp
      · have : p.2.payload = r.data := by
          rw [← hrp]
          rfl
        rw [this, hdata]
      · rcases hcur with hc | ⟨cn, hc⟩
        · subst hc
          trivial
        · subst hc
          have hveq : r.val = (pay.getField dataName).getD (SVal.num dn) := by
            rw [← hdata]
            exact hvaleq r hrW
          cases dir with
          | asc =>
            have hkeepval : (!jsLe r.val (SVal.num cn)) = true := hrkeep
            rw [hn] at hkeepval
            rw [jsLe_num] at hkeepval
            show jsGt ((pay.getField dataName).getD (SVal.num dn))
              (SVal.num cn) = true
            rw [← hveq, hn, jsGt_num]
            simp only [Bool.not_eq_eq_eq_not, Bool.not_true,
              decide_eq_false_iff_not, not_le] at hkeepval
            simp only [decide_eq_true_eq]
            omega
          | desc =>
            have hkeepval : (!jsGe r.val (SVal.num cn)) = true := hrkeep
            rw [hn] at hkeepval
            rw [jsGe_num] at hkeepval
            show jsLt ((pay.getField dataName).getD (SVal.num dn))
              (SVal.num cn) = true
            rw [← hveq, hn, jsLt_num]
            simp only [Bool.not_eq_eq_eq_not, Bool.not_true,
              decide_eq_false_iff_not, not_le] at hkeepval
            simp only [decide_eq_true_eq]
            omega
    · rintro ⟨⟨e, he, hepay⟩, hpast⟩
      apply List.mem_map.mpr
      refine ⟨rowOf dataName (SVal.num dn) (k, e), ?_, ?_⟩
      · apply List.mem_mergeSort.mpr
        apply List.mem_filter.mpr
        refine ⟨List.mem_map.mpr ⟨(k, e), he, rfl⟩, ?_⟩
        have hvala : (rowOf dataName (SVal.num dn) (k, e)).val
            = (pay.getField dataName).getD (SVal.num dn) := by
          simp only [rowOf, hepay]
        have hvnum : ∃ n, (pay.getField dataName).getD (SVal.num dn)
            = SVal.num n := by
          cases hf : pay.getField dataName with
          | none => exact ⟨dn, by simp⟩
          | some v =>
            obtain ⟨n, hn⟩ := hnum (k, e) he v (by rw [hepay]; exact hf)
            exact ⟨n, by simp [hn]⟩
        obtain ⟨n, hn⟩ := hvnum
        rcases hcur with hc | ⟨cn, hc⟩
        · subst hc
          rfl
        · subst hc
          cases dir with
          | asc =>
            have hpast2 : jsGt ((pay.getField dataName).getD (SVal.num dn))
                (SVal.num cn) = true := hpast
            rw [hn] at hpast2
            rw [jsGt_num] at hpast2
            show (!jsLe (rowOf dataName (SVal.num dn) (k, e)).val
              (SVal.num cn)) = true
            rw [hvala, hn, jsLe_num]
            simp only [decide_eq_true_eq] at hpast2
            simp only [Bool.not_eq_eq_eq_not, Bool.not_true,
              decide_eq_false_iff_not, not_le]
            omega
          | desc =>
            have hpast2 : jsLt ((pay.getField dataName).getD (SVal.num dn))
                (SVal.num cn) = true := hpast
            rw [hn] at hpast2
            rw [jsLt_num] at hpast2
            show (!jsGe (rowOf dataName (SVal.num dn) (k, e)).val
              (SVal.num cn)) = true
            rw [hvala, hn, jsGe_num]
            simp only [decide_eq_true_eq] at hpast2
            simp only [Bool.not_eq_eq_eq_not, Bool.not_true,
              decide_eq_false_iff_not, not_le]
            omega
      · simp only [rowOf, hepay]
  · rw [hitems]
    apply List.pairwise_map.mpr
    cases dir with
    | asc =>
      have hagree : ∀ a ∈ ((liveEntries game now).map
          (rowOf dataName (SVal.num dn))).filter
            (fun r => sortedKeep r.val cursor .asc),
          ∀ b ∈ ((liveEntries game now).map
          (rowOf dataName (SVal.num dn))).filter
            (fun r => sortedKeep r.val cursor .asc),
          rowLe .asc a b
            = decide (svalNum a.val ≤ svalNum b.val) := by
        intro a ha b hb
        obtain ⟨x, hx, _⟩ := hvalnum a (List.mem_of_mem_filter ha)
        obtain ⟨y, hy, _⟩ := hvalnum b (List.mem_of_mem_filter hb)
        show decide (compare3 a.val b.val .asc ≤ 0)
          = decide (svalNum a.val ≤ svalNum b.val)
        rw [hx, hy]
        exact decide_eq_decide.mpr (compare3_num_asc x y)
      have hndW : (((liveEntries game now).map
          (rowOf dataName (SVal.num dn))).map
          (fun r => svalNum r.val)).Nodup := by
        rw [List.map_map]
        exact hnd
      have hndF : ((((liveEntries game now).map
          (rowOf dataName (SVal.num dn))).filter
            (fun r => sortedKeep r.val cursor .asc)).map
          (fun r => svalNum r.val)).Nodup :=
        List.Nodup.sublist ((List.filter_sublist _).map _) hndW
      have hstrict := mergeSort_key_pairwise_strict _ (rowLe .asc) _
        hagree hndF
      refine hstrict.imp_of_mem ?_
      intro a b ha hb hlt
      have haW := List.mem_of_mem_filter (List.mem_mergeSort.mp ha)
      have hbW := List.mem_of_mem_filter (List.mem_mergeSort.mp hb)
      obtain ⟨x, hx, _⟩ := hvalnum a haW
      obtain ⟨y, hy, _⟩ := hvalnum b hbW
      have hva := hvaleq a haW
      have hvb := hvaleq b hbW
      show jsLt ((a.data.getField dataName).getD (SVal.num dn))
        ((b.data.getField dataName).getD (SVal.num dn)) = true
      rw [← hva, ← hvb, hx, hy, jsLt_num]
      rw [hx, hy] at hlt
      simp only [svalNum] at hlt
      simp only [decide_eq_true_eq]
      omega
    | desc =>
      have hagree : ∀ a ∈ ((liveEntries game now).map
          (rowOf dataName (SVal.num dn))).filter
            (fun r => sortedKeep r.val cursor .desc),
          ∀ b ∈ ((liveEntries game now).map
          (rowOf dataName (SVal.num dn))).filter
            (fun r => sortedKeep r.val cursor .desc),
          rowLe .desc a b
            = decide (-svalNum a.val ≤ -svalNum b.val) := by
        intro a ha b hb
        obtain ⟨x, hx, _⟩ := hvalnum a (List.mem_of_mem_filter ha)
        obtain ⟨y, hy, _⟩ := hvalnum b (List.mem_of_mem_filter hb)
        show decide (compare3 a.val b.val .desc ≤ 0)
          = decide (-svalNum a.val ≤ -svalNum b.val)
        rw [hx, hy]
        refine decide_eq_decide.mpr ?_
        rw [compare3_num_desc]
        show y ≤ x ↔ -svalNum (SVal.num x) ≤ -svalNum (SVal.num y)
        simp only [svalNum]
        omega
      have hndW : (((liveEntries game now).map
          (rowOf dataName (SVal.num dn))).map
          (fun r => -svalNum r.val)).Nodup := by
        rw [List.map_map]
        have hcomp : ((fun (r : SRow) => -svalNum r.val) ∘
            (rowOf dataName (SVal.num dn)))
            = (fun n => -n) ∘ (fun (p : String × MemEntry) => svalNum
              ((p.2.payload.getField dataName).getD (SVal.num dn))) := by
          funext p
          rfl
        rw [hcomp, ← List.map_map]
        exact hnd.map (fun a b h => by omega)
      have hndF : ((((liveEntries game now).map
          (rowOf dataName (SVal.num dn))).filter
            (fun r => sortedKeep r.val cursor .desc)).map
          (fun r => -svalNum r.val)).Nodup :=
        List.Nodup.sublist ((List.filter_sublist _).map _) hndW
      have hstrict := mergeSort_key_pairwise_strict _ (rowLe .desc) _
        hagree hndF
      refine hstrict.imp_of_mem ?_
      intro a b ha hb hlt
      have haW := List.mem_of_mem_filter (List.mem_mergeSort.mp ha)
      have hbW := List.mem_of_mem_filter (List.mem_mergeSort.mp hb)
      obtain ⟨x, hx, _⟩ := hvalnum a haW
      obtain ⟨y, hy, _⟩ := hvalnum b hbW
      have hva := hvaleq a haW
      have hvb := hvaleq b hbW
      show jsGt ((a.data.getField dataName).getD (SVal.num dn))
        ((b.data.getField dataName).getD (SVal.num dn)) = true
      rw [← hva, ← hvb, hx, hy, jsGt_num]
      rw [hx, hy] at hlt
      simp only [svalNum] at hlt
      simp only [decide_eq_true_eq]
      omega

/-- Characterization of the durable-tier sorted listing with a default
value, for numeric distinct effective values fitting one page: the
items are exactly the documents of the namespace whose effective
(ifNull default substituted) value is strictly past the cursor, in
strict effective-value order. -/
theorem dbGetSortedDflt_char (db : Db) (idx dataName : String)
    (dir : Dir) (dn : Int) (cursor : Option SVal) (pageSize : Nat)
    (hcur : cursor = none ∨ ∃ cn, cursor = some (SVal.num cn))
    (hnum : ∀ dc ∈ db.filter (fun c => c.index = idx), ∀ v,
      dc.payload.getField dataName = some v → ∃ n, v = SVal.num n)
    (hnd : ((db.filter (fun c => c.index = idx)).map
      (fun dc => svalNum
        ((dc.payload.getField dataName).getD (SVal.num dn)))).Nodup)
    (hpage : (db.filter (fun c => c.index = idx)).length ≤ pageSize) :
    (∀ k pay, (k, pay) ∈ (dbGetSortedDflt db idx dataName dir cursor
        (SVal.num dn) pageSize).items ↔
      ((∃ dc : Doc, dc ∈ db.filter (fun c => c.index = idx) ∧
          dc.key = k ∧ dc.payload = pay) ∧
        (match cursor with
          | none => True
          | some c =>
            (match dir with
              | Dir.asc => jsGt ((pay.getField dataName).getD (SVal.num dn)) c
              | Dir.desc =>
                jsLt ((pay.getField dataName).getD (SVal.num dn)) c)
              = true))) ∧
    (dbGetSortedDflt db idx dataName dir cursor (SVal.num dn)
        pageSize).items.Pairwise (fun a b =>
      (match dir with
        | Dir.asc => jsLt ((a.2.getField dataName).getD (SVal.num dn))
            ((b.2.getField dataName).getD (SVal.num dn))
        | Dir.desc => jsGt ((a.2.getField dataName).getD (SVal.num dn))
            ((b.2.getField dataName).getD (SVal.num dn))) = true) := by
  have hvalnum : ∀ r ∈ (db.filter (fun c => c.index = idx)).map
      (drowOf dataName (SVal.num dn)),
      ∃ n, r.2 = SVal.num n ∧ svalNum r.2 = n := by
    intro r hr
    obtain ⟨dc, hdc, hrp⟩ := List.mem_map.mp hr
    subst hrp
    cases hf : dc.payload.getField dataName with
    | none => exact ⟨dn, by simp [drowOf, hf], by simp [drowOf, hf, svalNum]⟩
    | some v =>
      obtain ⟨n, hn⟩ := hnum dc hdc v hf
      exact ⟨n, by simp [drowOf, hf, hn], by simp [drowOf, hf, hn, svalNum]⟩
  have hvaleq : ∀ r ∈ (db.filter (fun c => c.index = idx)).map
      (drowOf dataName (SVal.num dn)),
      r.2 = (r.1.payload.getField dataName).getD (SVal.num dn) := by
    intro r hr
    obtain ⟨dc, hdc, hrp⟩ := List.mem_map.mp hr
    subst hrp
    rfl
  have hitems : (dbGetSortedDflt db idx dataName dir cursor (SVal.num dn)
      pageSize).items
      = ((((db.filter (fun c => c.index = idx)).map
            (drowOf dataName (SVal.num dn))).filter
            (fun r => match cursor with
              | none => true
              | some c => mongoPast dir r.2 c)).mergeSort
          (bsonSortLe dir (fun r => some r.2))).map
          (fun r => (r.1.key, r.1.payload)) := by
    unfold dbGetSortedDflt
    dsimp only
    have hmapeq : (db.filter (fun c => decide (c.index = idx))).map
        (fun d => (d, (d.payload.getField dataName).getD (SVal.num dn)))
        = (db.filter (fun c => decide (c.index = idx))).map
          (drowOf dataName (SVal.num dn)) := rfl
    rw [hmapeq]
    congr 1
    apply List.take_of_length_le
    rw [List.length_mergeSort]
    calc (((db.filter (fun c => decide (c.index = idx))).map
          (drowOf dataName (SVal.num dn))).filter
            (fun r => match cursor with
              | none => true
              | some c => mongoPast dir r.2 c)).length
        ≤ ((db.filter (fun c => decide (c.index = idx))).map
            (drowOf dataName (SVal.num dn))).length :=
          List.length_filter_le _ _
      _ = (db.filter (fun c => decide (c.index = idx))).length :=
          List.length_map _ _
      _ ≤ pageSize := hpage
  constructor
  · intro k pay
    rw [hitems]
    constructor
    · intro hmem
      obtain ⟨r, hr, hrk⟩ := List.mem_map.mp hmem
      have hr2 := List.mem_mergeSort.mp hr
      obtain ⟨hrW, hrkeep⟩ := List.mem_filter.mp hr2
      obtain ⟨n, hn, _⟩ := hvalnum r hrW
      have hkey : r.1.key = k := congrArg Prod.fst hrk
      have hdata : r.1.payload = pay := congrArg Prod.snd hrk
      obtain ⟨dc, hdc, hrp⟩ := List.mem_map.mp hrW
      refine ⟨⟨r.1, ?_, hkey, hdata⟩, ?_⟩
      · have : r.1 = dc := by rw [← hrp]; rfl
        rw [this]
        exact hdc
      · rcases hcur with hc | ⟨cn, hc⟩
        · subst hc
          trivial
        · subst hc
          have hveq : r.2 = (pay.getField dataName).getD (SVal.num dn) := by
            rw [← hdata]
            exact hvaleq r hrW
          cases dir with
          | asc =>
            have hkeepval : mongoPast .asc r.2 (SVal.num cn) = true := hrkeep
            have hk2 : mongoQGt r.2 (SVal.num cn) = true := hkeepval
            rw [hn, mongoQGt_num] at hk2
            show jsGt ((pay.getField dataName).getD (SVal.num dn))
              (SVal.num cn) = true
            rw [← hveq, hn, jsGt_num]
            exact hk2
          | desc =>
            have hkeepval : mongoPast .desc r.2 (SVal.num cn) = true := hrkeep
            have hk2 : mongoQLt r.2 (SVal.num cn) = true := hkeepval
            rw [hn, mongoQLt_num] at hk2
            show jsLt ((pay.getField dataName).getD (SVal.num dn))
              (SVal.num cn) = true
            rw [← hveq, hn, jsLt_num]
            exact hk2
    · rintro ⟨⟨dc, hdc, hkey, hpay⟩, hpast⟩
      apply List.mem_map.mpr
      refine ⟨drowOf dataName (SVal.num dn) dc, ?_, ?_⟩
      · apply List.mem_mergeSort.mpr
        apply List.mem_filter.mpr
        refine ⟨List.mem_map.mpr ⟨dc, hdc, rfl⟩, ?_⟩
        have hvala : (drowOf dataName (SVal.num dn) dc).2
            = (pay.getField dataName).getD (SVal.num dn) := by
          simp only [drowOf, hpay]
        have hvnum : ∃ n, (pay.getField dataName).getD (SVal.num dn)
            = SVal.num n := by
          cases hf : pay.getField dataName with
          | none => exact ⟨dn, by simp⟩
          | some v =>
            obtain ⟨n, hn⟩ := hnum dc hdc v (by rw [hpay]; exact hf)
            exact ⟨n, by simp [hn]⟩
        obtain ⟨n, hn⟩ := hvnum
        rcases hcur with hc | ⟨cn, hc⟩
        · subst hc
          rfl
        · subst hc
          cases dir with
          | asc =>
            have hpast2 : jsGt ((pay.getField dataName).getD (SVal.num dn))
                (SVal.num cn) = true := hpast
            rw [hn, jsGt_num] at hpast2
            show mongoPast .asc (drowOf dataName (SVal.num dn) dc).2
              (SVal.num cn) = true
            show mongoQGt (drowOf dataName (SVal.num dn) dc).2
              (SVal.num cn) = true
            rw [hvala, hn, mongoQGt_num]
            exact hpast2
          | desc =>
            have hpast2 : jsLt ((pay.getField dataName).getD (SVal.num dn))
                (SVal.num cn) = true := hpast
            rw [hn, jsLt_num] at hpast2
            show mongoPast .desc (drowOf dataName (SVal.num dn) dc).2
              (SVal.num cn) = true
            show mongoQLt (drowOf dataName (SVal.num dn) dc).2
              (SVal.num cn) = true
            rw [hvala, hn, mongoQLt_num]
            exact hpast2
      · simp only [drowOf, hkey, hpay]
  · rw [hitems]
    apply List.pairwise_map.mpr
    cases dir with
    | asc =>
      have hagree : ∀ a ∈ ((db.filter (fun c => c.index = idx)).map
          (drowOf dataName (SVal.num dn))).filter
            (fun r => match cursor with
              | none => true
              | some c => mongoPast .asc r.2 c),
          ∀ b ∈ ((db.filter (fun c => c.index = idx)).map
          (drowOf dataName (SVal.num dn))).filter
            (fun r => match cursor with
              | none => true
              | some c => mongoPast .asc r.2 c),
          bsonSortLe .asc (fun (r : Doc × SVal) => some r.2) a b
            = decide (svalNum a.2 ≤ svalNum b.2) := by
        intro a ha b hb
        obtain ⟨x, hx, _⟩ := hvalnum a (List.mem_of_mem_filter ha)
        obtain ⟨y, hy, _⟩ := hvalnum b (List.mem_of_mem_filter hb)
        show (!bsonOptLt (some b.2) (some a.2))
          = decide (svalNum a.2 ≤ svalNum b.2)
        rw [hx, hy]
        show (!bsonLt (SVal.num y) (SVal.num x))
          = decide (svalNum (SVal.num x) ≤ svalNum (SVal.num y))
        rw [bsonLt_num]
        simp only [svalNum]
        by_cases h : y < x
        · rw [decide_eq_true h]
          simp only [Bool.not_true]
          symm
          simp only [decide_eq_false_iff_not, not_le]
          omega
        · rw [decide_eq_false h]
          simp only [Bool.not_false]
          symm
          simp only [decide_eq_true_eq]
          omega
      have hndW : (((db.filter (fun c => c.index = idx)).map
          (drowOf dataName (SVal.num dn))).map
          (fun r => svalNum r.2)).Nodup := by
        rw [List.map_map]
        exact hnd
      have hndF : ((((db.filter (fun c => c.index = idx)).map
          (drowOf dataName (SVal.num dn))).filter
            (fun r => match cursor with
              | none => true
              | some c => mongoPast .asc r.2 c)).map
          (fun r => svalNum r.2)).Nodup :=
        List.Nodup.sublist ((List.filter_sublist _).map _) hndW
      have hstrict := mergeSort_key_pairwise_strict _
        (bsonSortLe .asc (fun (r : Doc × SVal) => some r.2)) _ hagree hndF
      refine hstrict.imp_of_mem ?_
      intro a b ha hb hlt
      have haW := List.mem_of_mem_filter (List.mem_mergeSort.mp ha)
      have hbW := List.mem_of_mem_filter (List.mem_mergeSort.mp hb)
      obtain ⟨x, hx, _⟩ := hvalnum a haW
      obtain ⟨y, hy, _⟩ := hvalnum b hbW
      have hva := hvaleq a haW
      have hvb := hvaleq b hbW
      show jsLt ((a.1.payload.getField dataName).getD (SVal.num dn))
        ((b.1.payload.getField dataName).getD (SVal.num dn)) = true
      rw [← hva, ← hvb, hx, hy, jsLt_num]
      rw [hx, hy] at hlt
      simp only [svalNum] at hlt
      simp only [decide_eq_true_eq]
      omega
    | desc =>
      have hagree : ∀ a ∈ ((db.filter (fun c => c.index = idx)).map
          (drowOf dataName (SVal.num dn))).filter
            (fun r => match cursor with
              | none => true
              | some c => mongoPast .desc r.2 c),
          ∀ b ∈ ((db.filter (fun c => c.index = idx)).map
          (drowOf dataName (SVal.num dn))).filter
            (fun r => match cursor with
              | none => true
              | some c => mongoPast .desc r.2 c),
          bsonSortLe .desc (fun (r : Doc × SVal) => some r.2) a b
            = decide (-svalNum a.2 ≤ -svalNum b.2) := by
        intro a ha b hb
        obtain ⟨x, hx, _⟩ := hvalnum a (List.mem_of_mem_filter ha)
        obtain ⟨y, hy, _⟩ := hvalnum b (List.mem_of_mem_filter hb)
        show (!bsonOptLt (some a.2) (some b.2))
          = decide (-svalNum a.2 ≤ -svalNum b.2)
        rw [hx, hy]
        show (!bsonLt (SVal.num x) (SVal.num y))
          = decide (-svalNum (SVal.num x) ≤ -svalNum (SVal.num y))
        rw [bsonLt_num]
        simp only [svalNum]
        by_cases h : x < y
        · rw [decide_eq_true h]
          simp only [Bool.not_true]
          symm
          simp only [decide_eq_false_iff_not, not_le]
          omega
        · rw [decide_eq_false h]
          simp only [Bool.not_false]
          symm
          simp only [decide_eq_true_eq]
          omega
      have hndW : (((db.filter (fun c => c.index = idx)).map
          (drowOf dataName (SVal.num dn))).map
          (fun r => -svalNum r.2)).Nodup := by
        rw [List.map_map]
        have hcomp : ((fun (r : Doc × SVal) => -svalNum r.2) ∘
            (drowOf dataName (SVal.num dn)))
            = (fun n => -n) ∘ (fun (dc : Doc) => svalNum
              ((dc.payload.getField dataName).getD (SVal.num dn))) := by
          funext dc
          rfl
        rw [hcomp, ← List.map_map]
        exact hnd.map (fun a b h => by omega)
      have hndF : ((((db.filter (fun c => c.index = idx)).map
          (drowOf dataName (SVal.num dn))).filter
            (fun r => match cursor with
              | none => true
              | some c => mongoPast .desc r.2 c)).map
          (fun r => -svalNum r.2)).Nodup :=
        List.Nodup.sublist ((List.filter_sublist _).map _) hndW
      have hstrict := mergeSort_key_pairwise_strict _
        (bsonSortLe .desc (fun (r : Doc × SVal) => some r.2)) _ hagree hndF
      refine hstrict.imp_of_mem ?_
      intro a b ha hb hlt
      have haW := List.mem_of_mem_filter (List.mem_mergeSort.mp ha)
      have hbW := List.mem_of_mem_filter (List.mem_mergeSort.mp hb)
      obtain ⟨x, hx, _⟩ := hvalnum a haW
      obtain ⟨y, hy, _⟩ := hvalnum b hbW
      have hva := hvaleq a haW
      have hvb := hvaleq b hbW
      show jsGt ((a.1.payload.getField dataName).getD (SVal.num dn))
        ((b.1.payload.getField dataName).getD (SVal.num dn)) = true
      rw [← hva, ← hvb, hx, hy, jsGt_num]
      rw [hx, hy] at hlt
      simp only [svalNum] at hlt
      simp only [decide_eq_true_eq]
      omega


/-- C4 counterexample: on the memory tier with a supplied default, an
ascending listing with numeric cursor 5 includes an entry whose
effective field value is the string abc, although that value is not
strictly past the cursor under the JS strict comparison (the code
filters with not-less-or-equal, which keeps values incomparable with
the cursor). -/
theorem sorted_pagination_counterexample :
    (getSortedMem [("a", ⟨⟨[("s", .str "abc")], 100⟩, .inf⟩)] "s" .asc
      (some (.num 5)) (some (.num 0)) 10 50).items
      = [("a", [("s", .str "abc")])] ∧
    jsGt (Option.getD
      (Payload.getField [("s", SVal.str "abc")] "s") (.num 0))
      (.num 5) = false := by
  constructor
  · simp only [getSortedMem]
    have h1 : liveEntries
        [("a", (⟨⟨[("s", SVal.str "abc")], 100⟩,
          Expiry.inf⟩ : CacheEntry MemEntry))] 50
        = [("a", (⟨[("s", SVal.str "abc")], 100⟩ : MemEntry))] := by decide
    rw [h1]
    have h2 : ([("a", (⟨[("s", SVal.str "abc")], 100⟩ : MemEntry))].filterMap
        (fun p =>
          match effVal p.2.payload "s" (some (SVal.num 0)) with
          | none => none
          | some v => some (⟨p.1, p.2.payload, v⟩ : SRow)))
        = [⟨"a", [("s", SVal.str "abc")], SVal.str "abc"⟩] := by decide
    rw [h2]
    have h3 : ([(⟨"a", [("s", SVal.str "abc")], SVal.str "abc"⟩ : SRow)].filter
        (fun r => sortedKeep r.val (some (SVal.num 5)) .asc))
        = [⟨"a", [("s", SVal.str "abc")], SVal.str "abc"⟩] := by decide
    rw [h3]
    rw [List.mergeSort]
    decide
  · decide

/-- C4 (amended): sorted pagination with a default value, on either
tier, for requests whose cursor and effective values are numbers
(pairwise distinct, fitting one page). Every entry of the namespace -
in particular one whose payload lacks the sort field, which
participates with the default acting as its sort key - appears in the
listing exactly when its effective (default-substituted) value is
strictly past the cursor, and the items come in strict effective-value
order, so each item occupies exactly the position the sorted order
assigns its effective value. -/
theorem sorted_default_pagination (game : NsCache) (db : Db)
    (idx dataName : String) (dir : Dir) (dn : Int) (cursor : Option SVal)
    (pageSize : Nat) (now : Int)
    (hcur : cursor = none ∨ ∃ cn, cursor = some (SVal.num cn))
    (hnumM : ∀ p ∈ liveEntries game now,
      ((p.2.payload.getField dataName).all isNum) = true)
    (hndM : ((liveEntries game now).map
      (fun p => svalNum
        ((p.2.payload.getField dataName).getD (SVal.num dn)))).Nodup)
    (hpageM : (liveEntries game now).length ≤ pageSize)
    (hnumD : ∀ dc ∈ db.filter (fun c => c.index = idx),
      ((dc.payload.getField dataName).all isNum) = true)
    (hndD : ((db.filter (fun c => c.index = idx)).map
      (fun dc => svalNum
        ((dc.payload.getField dataName).getD (SVal.num dn)))).Nodup)
    (hpageD : (db.filter (fun c => c.index = idx)).length ≤ pageSize) :
    (∀ k pay, (k, pay) ∈ (getSortedMem game dataName dir cursor
        (some (SVal.num dn)) pageSize now).items ↔
      ((∃ e : MemEntry, (k, e) ∈ liveEntries game now ∧ e.payload = pay) ∧
        pastCursor dir ((pay.getField dataName).getD (SVal.num dn))
          cursor)) ∧
    ((getSortedMem game dataName dir cursor (some (SVal.num dn)) pageSize
        now).items.Pairwise (fun a b =>
      dirStrict dir ((a.2.getField dataName).getD (SVal.num dn))
        ((b.2.getField dataName).getD (SVal.num dn)) = true)) ∧
    (∀ k pay, (k, pay) ∈ (dbGetSortedDflt db idx dataName dir cursor
        (SVal.num dn) pageSize).items ↔
      ((∃ dc : Doc, dc ∈ db.filter (fun c => c.index = idx) ∧
          dc.key = k ∧ dc.payload = pay) ∧
        pastCursor dir ((pay.getField dataName).getD (SVal.num dn))
          cursor)) ∧
    ((dbGetSortedDflt db idx dataName dir cursor (SVal.num dn)
        pageSize).items.Pairwise (fun a b =>
      dirStrict dir ((a.2.getField dataName).getD (SVal.num dn))
        ((b.2.getField dataName).getD (SVal.num dn)) = true)) := by
  have hnumM2 : ∀ p ∈ liveEntries game now, ∀ v,
      p.2.payload.getField dataName = some v → ∃ n, v = SVal.num n := by
    intro p hp v hv
    have hall := hnumM p hp
    rw [hv] at hall
    cases v with
    | num n => exact ⟨n, rfl⟩
    | str t => simp [Option.all, isNum] at hall
  have hnumD2 : ∀ dc ∈ db.filter (fun c => c.index = idx), ∀ v,
      dc.payload.getField dataName = some v → ∃ n, v = SVal.num n := by
    intro dc hdc v hv
    have hall := hnumD dc hdc
    rw [hv] at hall
    cases v with
    | num n => exact ⟨n, rfl⟩
    | str t => simp [Option.all, isNum] at hall
  obtain ⟨hm1, hm2⟩ := getSortedMem_dflt_char game dataName dir dn cursor
    pageSize now hcur hnumM2 hndM hpageM
  obtain ⟨hd1, hd2⟩ := dbGetSortedDflt_char db idx dataName dir dn cursor
    pageSize hcur hnumD2 hndD hpageD
  refine ⟨?_, ?_, ?_, ?_⟩
  · intro k pay
    rw [hm1 k pay]
    rcases hcur with hc | ⟨cn, hc⟩ <;> subst hc <;>
      cases dir <;> exact Iff.rfl
  · refine hm2.imp ?_
    intro a b h
    cases dir <;> exact h
  · intro k pay
    rw [hd1 k pay]
    rcases hcur with hc | ⟨cn, hc⟩ <;> subst hc <;>
      cases dir <;> exact Iff.rfl
  · refine hd2.imp ?_
    intro a b h
    cases dir <;> exact h

/-- Closed witness for C4 (amended theorem): a namespace holding field
values 10, 20, 30 and one entry lacking the field, default 25, no
cursor - the defaulted entry is a member of the listing on both
tiers. -/
theorem sorted_default_pagination_witness :
    (("d", ([("other", SVal.num 1)] : Payload))
      ∈ (getSortedMem
        [("a", ⟨⟨[("s", .num 10)], 100⟩, .inf⟩),
         ("b", ⟨⟨[("s", .num 20)], 101⟩, .inf⟩),
         ("c", ⟨⟨[("s", .num 30)], 102⟩, .inf⟩),
         ("d", ⟨⟨[("other", .num 1)], 103⟩, .inf⟩)] "s" .asc none
        (some (SVal.num 25)) 10 50).items) ∧
    (("d", ([("other", SVal.num 1)] : Payload))
      ∈ (dbGetSortedDflt
        [⟨"ns", "a", [("s", .num 10)], 100, 9⟩,
         ⟨"ns", "b", [("s", .num 20)], 101, 9⟩,
         ⟨"ns", "c", [("s", .num 30)], 102, 9⟩,
         ⟨"ns", "d", [("other", .num 1)], 103, 9⟩] "ns" "s" .asc none
        (SVal.num 25) 10).items) := by
  have h := sorted_default_pagination
    [("a", ⟨⟨[("s", .num 10)], 100⟩, .inf⟩),
     ("b", ⟨⟨[("s", .num 20)], 101⟩, .inf⟩),
     ("c", ⟨⟨[("s", .num 30)], 102⟩, .inf⟩),
     ("d", ⟨⟨[("other", .num 1)], 103⟩, .inf⟩)]
    [⟨"ns", "a", [("s", .num 10)], 100, 9⟩,
     ⟨"ns", "b", [("s", .num 20)], 101, 9⟩,
     ⟨"ns", "c", [("s", .num 30)], 102, 9⟩,
     ⟨"ns", "d", [("other", .num 1)], 103, 9⟩]
    "ns" "s" .asc 25 none 10 50
    (Or.inl rfl)
    (by decide) (by decide) (by decide)
    (by decide) (by decide) (by decide)
  constructor
  · exact (h.1 "d" [("other", SVal.num 1)]).mpr
      ⟨⟨⟨[("other", SVal.num 1)], 103⟩, by decide, rfl⟩, trivial⟩
  · exact (h.2.2.1 "d" [("other", SVal.num 1)]).mpr
      ⟨⟨⟨"ns", "d", [("other", SVal.num 1)], 103, 9⟩, by decide, rfl, rfl⟩,
        trivial⟩

/-! ## Cross-tier equivalence helper lemmas -/

theorem any_congr_mem {α : Type} (l : List α) (f g : α → Bool)
    (h : ∀ x ∈ l, f x = g x) : l.any f = l.any g := by
  induction l with
  | nil => rfl
  | cons x xs ih =>
    simp only [List.any_cons]
    rw [h x (by simp), ih (fun a ha => h a (by simp [ha]))]

theorem any_filterMap_match {α β : Type} (l : List α) (f : α → Option β)
    (p : β → Bool) :
    (l.filterMap f).any p
      = l.any (fun x =>
          match f x with
          | none => false
          | some y => p y) := by
  induction l with
  | nil => rfl
  | cons x xs ih =>
    rw [List.filterMap_cons]
    cases hf : f x with
    | none =>
      simp only [List.any_cons, hf]
      rw [ih]
      simp
    | some y =>
      simp only [List.any_cons, hf]
      rw [ih]

/-- An element of a strictly ascending sorted list is at least its
last element only when it is the last element; every other one is
strictly smaller than nothing past the end. Specifically: the last
element of a strictly ascending list is its strict maximum. -/
theorem getLast_strict_max {α : Type} (keyf : α → Int) (S : List α)
    (hS : S.Pairwise (fun a b => keyf a < keyf b)) (hne : S ≠ [])
    (t : α) (ht : t ∈ S) :
    keyf t ≤ keyf (S.getLast hne) := by
  have hsplit := List.dropLast_append_getLast hne
  rw [← hsplit] at hS ht
  rw [List.pairwise_append] at hS
  rcases List.mem_append.mp ht with h1 | h2
  · have := hS.2.2 t h1 (S.getLast hne) (by simp)
    omega
  · have : t = S.getLast hne := by simpa using h2
    rw [this]

/-- The hasMore probe of the durable tier equals the length-based
hasMore of the memory tier: with a strictly ascending sort key, a
downward-closed filter and one full page taken, a record strictly past
the last returned one exists in the base list exactly when the sorted
filtered list extends beyond the page. -/
theorem probe_hasMore_bridge {α : Type} (B : List α) (keyf : α → Int)
    (pred : α → Bool) (le : α → α → Bool) (p : Nat) (hp : 0 < p)
    (hagree : ∀ a ∈ B.filter pred, ∀ b ∈ B.filter pred,
      le a b = decide (keyf a ≤ keyf b))
    (hclosed : ∀ t ∈ B, ∀ l ∈ B,
      keyf l < keyf t → pred l = true → pred t = true)
    (hnd : ((B.filter pred).map keyf).Nodup)
    (S : List α)
    (hS : S = (B.filter pred).mergeSort le) :
    (match (S.take p).getLast? with
      | none => false
      | some l => B.any (fun t => decide (keyf l < keyf t)))
      = (decide ((S.take p).length = p) && decide (p < S.length)) := by
  have hperm : S.Perm (B.filter pred) := by
    rw [hS]
    exact List.mergeSort_perm _ _
  have hsorted : S.Pairwise (fun a b => keyf a < keyf b) := by
    rw [hS]
    exact mergeSort_key_pairwise_strict _ _ _ hagree hnd
  cases hS0 : S with
  | nil =>
    simp only [List.take_nil, List.getLast?_nil, List.length_nil]
    have : (decide ((0 : Nat) = p)) = false := by
      simp only [decide_eq_false_iff_not]
      omega
    simp [this]
  | cons s0 srest =>
    rw [← hS0]
    have hSne : S ≠ [] := by rw [hS0]; simp
    have htne : S.take p ≠ [] := by
      rw [hS0]
      cases p with
      | zero => omega
      | succ q => simp
    rw [List.getLast?_eq_getLast _ htne]
    show (B.any fun t => decide (keyf ((S.take p).getLast htne) < keyf t))
      = (decide ((S.take p).length = p) && decide (p < S.length))
    by_cases hlen : p < S.length
    · have htlen : (S.take p).length = p := by
        rw [List.length_take]
        omega
      have hdne : S.drop p ≠ [] := by
        intro hc
        have := List.length_drop p S
        rw [hc] at this
        simp at this
        omega
      have hx : S.get ⟨p, hlen⟩ ∈ S.drop p := by
        have h1 : (S.drop p).head hdne ∈ S.drop p := List.head_mem hdne
        have h0 := List.head_drop hdne
        rw [h0] at h1
        exact h1
      have hlst : (S.take p).getLast htne ∈ S.take p :=
        List.getLast_mem htne
      have hcross : ∀ a ∈ S.take p, ∀ b ∈ S.drop p, keyf a < keyf b := by
        have hS2 : (S.take p ++ S.drop p).Pairwise
            (fun a b => keyf a < keyf b) := by
          rw [List.take_append_drop]
          exact hsorted
        exact (List.pairwise_append.mp hS2).2.2
      have hlt : keyf ((S.take p).getLast htne) < keyf (S.get ⟨p, hlen⟩) :=
        hcross _ hlst _ hx
      have hmem : S.get ⟨p, hlen⟩ ∈ B := by
        have h1 : S.get ⟨p, hlen⟩ ∈ S := List.get_mem S p hlen
        have h2 := hperm.mem_iff.mp h1
        exact List.mem_of_mem_filter h2
      have hany : B.any (fun t =>
          decide (keyf ((S.take p).getLast htne) < keyf t)) = true := by
        rw [List.any_eq_true]
        exact ⟨S.get ⟨p, hlen⟩, hmem, by simpa using hlt⟩
      rw [hany, htlen]
      simp [hlen]
    · have htake : S.take p = S := List.take_of_length_le (by omega)
      have hanyf : B.any (fun t =>
          decide (keyf ((S.take p).getLast htne) < keyf t)) = false := by
        rw [List.any_eq_false]
        intro t htB
        simp only [decide_eq_true_eq, not_lt]
        by_cases hpt : pred t = true
        · have htS : t ∈ S := hperm.mem_iff.mpr (List.mem_filter.mpr ⟨htB, hpt⟩)
          have hle := getLast_strict_max keyf S hsorted hSne t htS
          have : (S.take p).getLast htne = S.getLast hSne := by
            congr 1
          rw [this]
          exact hle
        · by_contra hcon
          push_neg at hcon
          have hlmem : (S.take p).getLast htne ∈ S :=
            List.mem_of_mem_take (List.getLast_mem htne)
          have hlpred : pred ((S.take p).getLast htne) = true := by
            have := hperm.mem_iff.mp hlmem
            exact (List.mem_filter.mp this).2
          have hlB : (S.take p).getLast htne ∈ B :=
            List.mem_of_mem_filter (hperm.mem_iff.mp hlmem)
          have := hclosed t htB _ hlB hcon hlpred
          exact hpt this
      rw [hanyf]
      have : (decide (p < S.length)) = false := by
        simp only [decide_eq_false_iff_not]
        omega
      rw [this, Bool.and_false]

/-- Two merge-sorted pipelines project to the same list when the
projections are permutations of each other, the comparators agree with
a common integer key on their lists, and the keys are distinct. -/
theorem mergeSort_proj_eq {α β γ : Type} (l1 : List α) (l2 : List β)
    (f : α → γ) (g : β → γ) (le1 : α → α → Bool) (le2 : β → β → Bool)
    (keyf : γ → Int)
    (h1 : ∀ a ∈ l1, ∀ b ∈ l1, le1 a b = decide (keyf (f a) ≤ keyf (f b)))
    (h2 : ∀ a ∈ l2, ∀ b ∈ l2, le2 a b = decide (keyf (g a) ≤ keyf (g b)))
    (hperm : (l1.map f).Perm (l2.map g))
    (hnd : ((l1.map f).map keyf).Nodup) :
    (l1.mergeSort le1).map f = (l2.mergeSort le2).map g := by
  rw [@List.map_mergeSort _ _ le1 (fun a b => decide (keyf a ≤ keyf b)) f l1 h1]
  rw [@List.map_mergeSort _ _ le2 (fun a b => decide (keyf a ≤ keyf b)) g l2 h2]
  have hagree1 : ∀ a ∈ l1.map f, ∀ b ∈ l1.map f,
      (fun a b => decide (keyf a ≤ keyf b)) a b
        = decide (keyf a ≤ keyf b) := fun a _ b _ => rfl
  have hagree2 : ∀ a ∈ l2.map g, ∀ b ∈ l2.map g,
      (fun a b => decide (keyf a ≤ keyf b)) a b
        = decide (keyf a ≤ keyf b) := fun a _ b _ => rfl
  have hnd2 : ((l2.map g).map keyf).Nodup :=
    ((hperm.map keyf).nodup_iff).mp hnd
  have hs1 := mergeSort_key_pairwise_strict (l1.map f) _ keyf hagree1 hnd
  have hs2 := mergeSort_key_pairwise_strict (l2.map g) _ keyf hagree2 hnd2
  have hperm2 : ((l1.map f).mergeSort
      (fun a b => decide (keyf a ≤ keyf b))).Perm
      ((l2.map g).mergeSort (fun a b => decide (keyf a ≤ keyf b))) :=
    ((List.mergeSort_perm _ _).trans hperm).trans
      (List.mergeSort_perm _ _).symm
  exact @List.eq_of_perm_of_sorted _ (fun a b => keyf a < keyf b)
    ⟨fun a b hab hba => absurd hab (by omega)⟩ _ _ hperm2 hs1 hs2

/-- A live-entry key occurs among the raw cache keys. -/
theorem liveEntries_key_mem {V : Type} (c : TTLCache V) (now : Int)
    (k : String) (v : V) (h : (k, v) ∈ liveEntries c now) :
    k ∈ c.map Prod.fst := by
  obtain ⟨p, hp, hpv⟩ := List.mem_filterMap.mp h
  by_cases he : p.2.expiry.expired now
  · rw [if_pos he] at hpv
    exact absurd hpv (by simp)
  · rw [if_neg he] at hpv
    have : p.1 = k := by
      injection hpv with h1
      injection h1
    rw [← this]
    exact List.mem_map.mpr ⟨p, hp, rfl⟩

/-- With unique raw keys, the cache get returns exactly the live entry
of that key. -/
theorem get_some_iff_live {V : Type} (c : TTLCache V) (k : String)
    (now : Int) (hnd : (c.map Prod.fst).Nodup) (v : V) :
    (TTLCache.get c k now).1 = some v ↔ (k, v) ∈ liveEntries c now := by
  induction c with
  | nil => simp [TTLCache.get, TTLCache.lookup, liveEntries]
  | cons hd tl ih =>
    have hndtl : (tl.map Prod.fst).Nodup := by
      rw [List.map_cons] at hnd
      exact hnd.of_cons
    have hhd : hd.1 ∉ tl.map Prod.fst := by
      rw [List.map_cons] at hnd
      exact (List.nodup_cons.mp hnd).1
    by_cases hk : hd.1 = k
    · have hlook : TTLCache.lookup (hd :: tl) k = some hd.2 := by
        unfold TTLCache.lookup
        rw [List.find?]
        simp [hk]
      by_cases he : hd.2.expiry.expired now
      · have hget : (TTLCache.get (hd :: tl) k now).1 = none := by
          unfold TTLCache.get
          rw [hlook]
          simp [he]
        rw [hget]
        constructor
        · intro hc
          exact absurd hc (by simp)
        · intro hmem
          exfalso
          have hlive : liveEntries (hd :: tl) now = liveEntries tl now := by
            unfold liveEntries
            rw [List.filterMap_cons, if_pos he]
          rw [hlive] at hmem
          exact hhd (hk ▸ liveEntries_key_mem tl now k v hmem)
      · have hget : (TTLCache.get (hd :: tl) k now).1 = some hd.2.value := by
          unfold TTLCache.get
          rw [hlook]
          simp [he]
        rw [hget]
        have hlive : liveEntries (hd :: tl) now
            = (hd.1, hd.2.value) :: liveEntries tl now := by
          unfold liveEntries
          rw [List.filterMap_cons, if_neg he]
        rw [hlive]
        constructor
        · intro hv
          have : v = hd.2.value := by
            injection hv with h1
            exact h1.symm
          rw [this, ← hk]
          exact List.mem_cons_self _ _
        · intro hmem
          rcases List.mem_cons.mp hmem with h1 | h2
          · have : hd.2.value = v := (Prod.mk.injEq _ _ _ _).mp h1.symm |>.2
            rw [this]
          · exfalso
            exact hhd (hk ▸ liveEntries_key_mem tl now k v h2)
    · have hlook : TTLCache.lookup (hd :: tl) k = TTLCache.lookup tl k := by
        unfold TTLCache.lookup
        rw [List.find?]
        simp [hk]
      have hget : (TTLCache.get (hd :: tl) k now).1
          = (TTLCache.get tl k now).1 := by
        unfold TTLCache.get
        rw [hlook]
        cases TTLCache.lookup tl k with
        | none => rfl
        | some e =>
          by_cases he : e.expiry.expired now <;> simp [he]
      rw [hget, ih hndtl]
      unfold liveEntries
      rw [List.filterMap_cons]
      by_cases he : hd.2.expiry.expired now
      · rw [if_pos he]
      · rw [if_neg he]
        constructor
        · intro hmem
          exact List.mem_cons_of_mem _ hmem
        · intro hmem
          rcases List.mem_cons.mp hmem with h1 | h2
          · exfalso
            apply hk
            exact congrArg Prod.fst h1.symm
          · exact h2

/-- With unique raw keys, the cache get returns absent exactly when no
live entry holds the key. -/
theorem get_none_iff_live {V : Type} (c : TTLCache V) (k : String)
    (now : Int) (hnd : (c.map Prod.fst).Nodup) :
    (TTLCache.get c k now).1 = none
      ↔ ∀ v, (k, v) ∉ liveEntries c now := by
  constructor
  · intro h v hmem
    have := (get_some_iff_live c k now hnd v).mpr hmem
    rw [h] at this
    exact absurd this (by simp)
  · intro h
    cases hg : (TTLCache.get c k now).1 with
    | none => rfl
    | some v =>
      exact absurd ((get_some_iff_live c k now hnd v).mp hg) (h v)

/-- The findOne of the durable tier, against unique keys within the
namespace, returns exactly the namespace document of the key. -/
theorem dbFindOne_some_iff (db : Db) (idx key : String)
    (hnd : ((db.filter (fun c => c.index = idx)).map (·.key)).Nodup)
    (dc : Doc) :
    db.find? (fun d => d.index = idx && d.key = key) = some dc
      ↔ (dc ∈ db.filter (fun c => c.index = idx) ∧ dc.key = key) := by
  constructor
  · intro h
    have hp := List.find?_some h
    simp only [Bool.and_eq_true, decide_eq_true_eq] at hp
    have hm := List.mem_of_find?_eq_some h
    exact ⟨List.mem_filter.mpr ⟨hm, by simp [hp.1]⟩, hp.2⟩
  · rintro ⟨hmem, hkey⟩
    have hpd : dc.index = idx := by
      have := (List.mem_filter.mp hmem).2
      simpa using this
    have hexists : ∃ x ∈ db,
        (fun d => d.index = idx && d.key = key) x = true :=
      ⟨dc, List.mem_of_mem_filter hmem, by simp [hpd, hkey]⟩
    obtain ⟨x, hxfind⟩ := Option.isSome_iff_exists.mp
      (List.find?_isSome.mpr hexists)
    have hxp := List.find?_some hxfind
    simp only [Bool.and_eq_true, decide_eq_true_eq] at hxp
    have hxm := List.mem_of_find?_eq_some hxfind
    have hxfil : x ∈ db.filter (fun c => c.index = idx) :=
      List.mem_filter.mpr ⟨hxm, by simp [hxp.1]⟩
    have hxdc : x = dc :=
      List.inj_on_of_nodup_map hnd hxfil hmem (hxp.2.trans hkey.symm)
    rw [hxfind, hxdc]

/-- The findOne of the durable tier returns absent exactly when the
namespace holds no document of the key. -/
theorem dbFindOne_none_iff (db : Db) (idx key : String) :
    db.find? (fun d => d.index = idx && d.key = key) = none
      ↔ ∀ dc ∈ db.filter (fun c => c.index = idx), dc.key ≠ key := by
  rw [List.find?_eq_none]
  constructor
  · intro h dc hdc hkey
    have hm := List.mem_of_mem_filter hdc
    have hp := (List.mem_filter.mp hdc).2
    apply h dc hm
    simp only [Bool.and_eq_true, decide_eq_true_eq]
    exact ⟨by simpa using hp, hkey⟩
  · intro h x hx hp
    simp only [Bool.and_eq_true, decide_eq_true_eq] at hp
    exact h x (List.mem_filter.mpr ⟨hx, by simp [hp.1]⟩) hp.2

/-! ## Cross-tier equivalence (C1) -/

/-- Boolean negation of a decided non-strict integer comparison. -/
theorem not_decide_le (a c : Int) : (!decide (a ≤ c)) = decide (c < a) := by
  by_cases h : a ≤ c <;> simp [h] <;> omega

/-- Boolean negation of a decided strict integer comparison. -/
theorem not_decide_lt (a c : Int) : (!decide (a < c)) = decide (c ≤ a) := by
  by_cases h : a < c <;> simp [h] <;> omega

/-- The direction-adjusted key is injective. -/
theorem dirKey_inj (dir : Dir) : Function.Injective (dirKey dir) := by
  intro a b h
  cases dir with
  | asc => exact h
  | desc =>
    simp only [dirKey] at h
    omega

/-- On numbers, the Mongo strictly-past operator is the strict order
of the direction-adjusted keys. -/
theorem mongoPast_num (dir : Dir) (a c : Int) :
    mongoPast dir (.num a) (.num c)
      = decide (dirKey dir c < dirKey dir a) := by
  cases dir with
  | asc => rfl
  | desc =>
    show mongoQLt (.num a) (.num c) = _
    rw [mongoQLt_num]
    exact decide_eq_decide.mpr (by simp only [dirKey]; omega)

/-- On numbers against a numeric (or absent) cursor, the memory-tier
not-le / not-ge cursor filter coincides with the Mongo strictly-past
filter. -/
theorem sortedKeep_num (dir : Dir) (cursor : Option SVal) (a : Int)
    (hcur : cursor = none ∨ ∃ cn, cursor = some (SVal.num cn)) :
    sortedKeep (.num a) cursor dir = svalKeep dir cursor (.num a) := by
  rcases hcur with h | ⟨cn, h⟩
  · subst h
    rfl
  · subst h
    cases dir with
    | asc =>
      show (!jsLe (.num a) (.num cn)) = mongoPast .asc (.num a) (.num cn)
      rw [jsLe_num, mongoPast_num]
      exact not_decide_le a cn
    | desc =>
      show (!jsGe (.num a) (.num cn)) = mongoPast .desc (.num a) (.num cn)
      rw [jsGe_num, mongoPast_num]
      have := not_decide_le cn a
      rw [this]
      exact decide_eq_decide.mpr (by simp only [dirKey]; omega)

/-- The db sorted cursor filter is upward closed along the
direction-adjusted key on numbers. -/
theorem svalKeep_closed (dir : Dir) (cursor : Option SVal) (a b : Int)
    (hcur : cursor = none ∨ ∃ cn, cursor = some (SVal.num cn))
    (hk : dirKey dir a < dirKey dir b)
    (ha : svalKeep dir cursor (.num a) = true) :
    svalKeep dir cursor (.num b) = true := by
  rcases hcur with h | ⟨cn, h⟩
  · subst h
    rfl
  · subst h
    show mongoPast dir (.num b) (.num cn) = true
    have ha2 : mongoPast dir (.num a) (.num cn) = true := ha
    rw [mongoPast_num] at ha2 ⊢
    simp only [decide_eq_true_eq] at ha2 ⊢
    omega

/-- On numeric rows the memory three-way comparator sorts by the
direction-adjusted key. -/
theorem rowLe_num (dir : Dir) (r s : SRow) (a b : Int)
    (ha : r.val = .num a) (hb : s.val = .num b) :
    rowLe dir r s = decide (dirKey dir a ≤ dirKey dir b) := by
  unfold rowLe
  rw [ha, hb]
  cases dir with
  | asc => exact decide_eq_decide.mpr (by rw [compare3_num_asc]; rfl)
  | desc =>
    exact decide_eq_decide.mpr
      (by rw [compare3_num_desc]; simp only [dirKey]; omega)

/-- On present numeric sort values the Mongo sort comparator sorts by
the direction-adjusted key. -/
theorem bsonSortLe_num {α : Type} (dir : Dir) (f : α → Option SVal)
    (a b : α) (na nb : Int)
    (ha : f a = some (.num na)) (hb : f b = some (.num nb)) :
    bsonSortLe dir f a b = decide (dirKey dir na ≤ dirKey dir nb) := by
  unfold bsonSortLe
  cases dir with
  | asc =>
    rw [ha, hb]
    show (!bsonLt (.num nb) (.num na)) = _
    rw [bsonLt_num, not_decide_lt]
    rfl
  | desc =>
    rw [ha, hb]
    show (!bsonLt (.num na) (.num nb)) = _
    rw [bsonLt_num, not_decide_lt]
    exact decide_eq_decide.mpr (by simp only [dirKey]; omega)

/-- A filter may be pre-restricted by any predicate it implies. -/
theorem filter_split {α : Type} (l : List α) (p q : α → Bool)
    (h : ∀ x ∈ l, p x = true → q x = true) :
    l.filter p = (l.filter q).filter p := by
  induction l with
  | nil => rfl
  | cons x xs ih =>
    have ih2 := ih (fun a ha => h a (by simp [ha]))
    rw [List.filter_cons, List.filter_cons]
    by_cases hq : q x = true
    · rw [if_pos hq, List.filter_cons]
      by_cases hp : p x = true
      · rw [if_pos hp, if_pos hp, ih2]
      · rw [if_neg hp, if_neg hp, ih2]
    · have hp : ¬ (p x = true) := fun hp => hq (h x (by simp) hp)
      rw [if_neg hp, if_neg hq, ih2]

/-- An existence scan may be pre-restricted by any predicate it
implies. -/
theorem any_filter_sub {α : Type} (l : List α) (p q : α → Bool)
    (h : ∀ x ∈ l, p x = true → q x = true) :
    l.any p = (l.filter q).any p := by
  induction l with
  | nil => rfl
  | cons x xs ih =>
    have ih2 := ih (fun a ha => h a (by simp [ha]))
    rw [List.any_cons, List.filter_cons]
    by_cases hq : q x = true
    · rw [if_pos hq, List.any_cons, ih2]
    · have hp : p x = false := by
        cases hpx : p x
        · rfl
        · exact absurd (h x (by simp) hpx) hq
      rw [if_neg hq, hp, ih2]
      simp

/-- A filter-then-map pipeline equals a filterMap-then-filter pipeline
when the pieces agree pointwise. -/
theorem map_filter_eq_filter_filterMap {α γ : Type} (l : List α)
    (P : α → Bool) (f : α → γ) (G : α → Option γ) (Q : γ → Bool)
    (h1 : ∀ a ∈ l, G a = none → P a = false)
    (h2 : ∀ a ∈ l, ∀ g, G a = some g → f a = g ∧ P a = Q g) :
    (l.filter P).map f = (l.filterMap G).filter Q := by
  induction l with
  | nil => rfl
  | cons x xs ih =>
    have ih2 := ih (fun a ha => h1 a (by simp [ha]))
      (fun a ha => h2 a (by simp [ha]))
    rw [List.filter_cons, List.filterMap_cons]
    cases hG : G x with
    | none =>
      have hP := h1 x (by simp) hG
      rw [hP]
      dsimp only
      simp only [Bool.false_eq_true, if_false]
      exact ih2
    | some g =>
      obtain ⟨hf, hPQ⟩ := h2 x (by simp) g hG
      rw [hPQ]
      dsimp only
      rw [List.filter_cons]
      by_cases hQ : Q g = true
      · rw [if_pos hQ, if_pos hQ, List.map_cons, hf, ih2]
      · rw [if_neg hQ, if_neg hQ, ih2]

/-- Recency-listing equivalence: when the namespace holds the same
(key, payload, writeCursor) entries in both tiers and the write
cursors are pairwise distinct, the memory and db getAll branches
return the same page, including hasMore. -/
theorem getAll_equiv (game : NsCache) (db : Db) (idx : String) (now : Int)
    (hcorr : ((db.filter (fun c => c.index = idx)).map
        (fun d => (d.key, d.payload, d.cursor))).Perm
      ((liveEntries game now).map
        (fun (p : String × MemEntry) => (p.1, p.2.payload, p.2.cursor))))
    (hcurs : ((liveEntries game now).map
      (fun (p : String × MemEntry) => p.2.cursor)).Nodup)
    (cursor : Option Int) (pageSize : Nat) (hp : 0 < pageSize) :
    getAllMem game cursor pageSize now = dbGetAll db idx cursor pageSize := by
  have h1 : ((liveEntries game now).filter
        (fun p => cursKeep cursor p.2.cursor)).map
        (fun (p : String × MemEntry) => (p.1, p.2.payload, p.2.cursor))
      = ((liveEntries game now).map
          (fun (p : String × MemEntry) => (p.1, p.2.payload, p.2.cursor))).filter
        (fun (t : String × Payload × Int) => cursKeep cursor t.2.2) := by
    rw [List.filter_map]
    rfl
  have h2 : ((db.filter (fun c => c.index = idx)).filter
        (fun d => cursKeep cursor d.cursor)).map
        (fun d => (d.key, d.payload, d.cursor))
      = ((db.filter (fun c => c.index = idx)).map
          (fun d => (d.key, d.payload, d.cursor))).filter
        (fun (t : String × Payload × Int) => cursKeep cursor t.2.2) := by
    rw [List.filter_map]
    rfl
  have hndT : ((((liveEntries game now).map
      (fun (p : String × MemEntry) => (p.1, p.2.payload, p.2.cursor))).filter
        (fun (t : String × Payload × Int) => cursKeep cursor t.2.2)).map
      (fun (t : String × Payload × Int) => -t.2.2)).Nodup := by
    apply List.Nodup.sublist ((List.filter_sublist _).map _)
    rw [List.map_map]
    have hcomp : ((fun (t : String × Payload × Int) => -t.2.2) ∘
        (fun (p : String × MemEntry) => (p.1, p.2.payload, p.2.cursor)))
        = (fun n => -n) ∘ (fun (p : String × MemEntry) => p.2.cursor) := by
      funext p
      rfl
    rw [hcomp, ← List.map_map]
    exact hcurs.map neg_injective
  have hproj : (((liveEntries game now).filter
        (fun p => cursKeep cursor p.2.cursor)).mergeSort recLe).map
        (fun (p : String × MemEntry) => (p.1, p.2.payload, p.2.cursor))
      = (((db.filter (fun c => c.index = idx)).filter
          (fun d => cursKeep cursor d.cursor)).mergeSort
            (fun a b => decide (b.cursor ≤ a.cursor))).map
        (fun d => (d.key, d.payload, d.cursor)) := by
    apply mergeSort_proj_eq _ _ _ _ _ _
      (fun (t : String × Payload × Int) => -t.2.2)
    · intro a _ b _
      show decide (b.2.cursor ≤ a.2.cursor) = _
      exact decide_eq_decide.mpr (by dsimp only; omega)
    · intro a _ b _
      exact decide_eq_decide.mpr (by dsimp only; omega)
    · rw [h1, h2]
      exact (hcorr.symm).filter _
    · rw [h1]
      exact hndT
  have hlenS : (((liveEntries game now).filter
        (fun p => cursKeep cursor p.2.cursor)).mergeSort recLe).length
      = (((db.filter (fun c => c.index = idx)).filter
          (fun d => cursKeep cursor d.cursor)).mergeSort
            (fun a b => decide (b.cursor ≤ a.cursor))).length := by
    have := congrArg List.length hproj
    simpa using this
  have hitems : List.map (fun (p : String × MemEntry) => (p.1, p.2.payload))
      (List.take pageSize
        (((liveEntries game now).filter
          (fun p => cursKeep cursor p.2.cursor)).mergeSort recLe))
      = List.map (fun (d : Doc) => (d.key, d.payload))
        (List.take pageSize
          (((db.filter (fun c => c.index = idx)).filter
            (fun d => cursKeep cursor d.cursor)).mergeSort
              (fun a b => decide (b.cursor ≤ a.cursor)))) := by
    have e1 : List.map (fun (p : String × MemEntry) => (p.1, p.2.payload))
        (List.take pageSize
          (((liveEntries game now).filter
            (fun p => cursKeep cursor p.2.cursor)).mergeSort recLe))
        = List.map (fun (t : String × Payload × Int) => (t.1, t.2.1))
          (List.take pageSize
            ((((liveEntries game now).filter
              (fun p => cursKeep cursor p.2.cursor)).mergeSort recLe).map
            (fun (p : String × MemEntry) => (p.1, p.2.payload, p.2.cursor)))) := by
      rw [← List.map_take, List.map_map]
      rfl
    have e2 : List.map (fun (d : Doc) => (d.key, d.payload))
        (List.take pageSize
          (((db.filter (fun c => c.index = idx)).filter
            (fun d => cursKeep cursor d.cursor)).mergeSort
              (fun a b => decide (b.cursor ≤ a.cursor))))
        = List.map (fun (t : String × Payload × Int) => (t.1, t.2.1))
          (List.take pageSize
            ((((db.filter (fun c => c.index = idx)).filter
              (fun d => cursKeep cursor d.cursor)).mergeSort
                (fun a b => decide (b.cursor ≤ a.cursor))).map
            (fun d => (d.key, d.payload, d.cursor)))) := by
      rw [← List.map_take, List.map_map]
      rfl
    rw [e1, e2, hproj]
  have htotal : (liveEntries game now).length
      = (db.filter (fun c => c.index = idx)).length := by
    have := hcorr.length_eq.symm
    simpa using this
  have hnext : Option.map (fun (p : String × MemEntry) => p.2.cursor)
      (List.take pageSize
        (((liveEntries game now).filter
          (fun p => cursKeep cursor p.2.cursor)).mergeSort recLe)).getLast?
      = Option.map (fun (d : Doc) => d.cursor)
        (List.take pageSize
          (((db.filter (fun c => c.index = idx)).filter
            (fun d => cursKeep cursor d.cursor)).mergeSort
              (fun a b => decide (b.cursor ≤ a.cursor)))).getLast? := by
    have e1 : Option.map (fun (p : String × MemEntry) => p.2.cursor)
        (List.take pageSize
          (((liveEntries game now).filter
            (fun p => cursKeep cursor p.2.cursor)).mergeSort recLe)).getLast?
        = Option.map (fun (t : String × Payload × Int) => t.2.2)
          ((List.take pageSize
            ((((liveEntries game now).filter
              (fun p => cursKeep cursor p.2.cursor)).mergeSort recLe).map
            (fun (p : String × MemEntry) => (p.1, p.2.payload, p.2.cursor)))).getLast?) := by
      rw [← List.map_take, List.getLast?_map, Option.map_map]
      rfl
    have e2 : Option.map (fun (d : Doc) => d.cursor)
        (List.take pageSize
          (((db.filter (fun c => c.index = idx)).filter
            (fun d => cursKeep cursor d.cursor)).mergeSort
              (fun a b => decide (b.cursor ≤ a.cursor)))).getLast?
        = Option.map (fun (t : String × Payload × Int) => t.2.2)
          ((List.take pageSize
            ((((db.filter (fun c => c.index = idx)).filter
              (fun d => cursKeep cursor d.cursor)).mergeSort
                (fun a b => decide (b.cursor ≤ a.cursor))).map
            (fun d => (d.key, d.payload, d.cursor)))).getLast?) := by
      rw [← List.map_take, List.getLast?_map, Option.map_map]
      rfl
    rw [e1, e2, hproj]
  unfold getAllMem dbGetAll
  dsimp only
  simp only [RecencyPage.mk.injEq]
  refine ⟨?_, trivial, ?_, ?_, ?_⟩
  · exact hitems
  · exact htotal
  · exact hnext
  · have hmapeq : ((((db.filter (fun c => c.index = idx)).filter
        (fun d => cursKeep cursor d.cursor)).mergeSort
          (fun a b => decide (b.cursor ≤ a.cursor))).map
        (fun d => -d.cursor))
        = ((((liveEntries game now).filter
          (fun p => cursKeep cursor p.2.cursor)).mergeSort recLe).map
          (fun (p : String × MemEntry) => -p.2.cursor)) := by
      have c1 : (fun (d : Doc) => -d.cursor)
          = (fun (t : String × Payload × Int) => -t.2.2) ∘
            (fun d => (d.key, d.payload, d.cursor)) := rfl
      have c2 : (fun (p : String × MemEntry) => -p.2.cursor)
          = (fun (t : String × Payload × Int) => -t.2.2) ∘
            (fun (p : String × MemEntry) => (p.1, p.2.payload, p.2.cursor)) := rfl
      rw [c1, c2, ← List.map_map, ← List.map_map, hproj]
    have hndF : (((liveEntries game now).filter
        (fun p => cursKeep cursor p.2.cursor)).map
        (fun (p : String × MemEntry) => -p.2.cursor)).Nodup := by
      apply List.Nodup.sublist ((List.filter_sublist _).map _)
      have c3 : (fun (p : String × MemEntry) => -p.2.cursor)
          = (fun n => -n) ∘ (fun (p : String × MemEntry) => p.2.cursor) := rfl
      rw [c3, ← List.map_map]
      exact hcurs.map neg_injective
    have hndM2 : ((((liveEntries game now).filter
        (fun p => cursKeep cursor p.2.cursor)).mergeSort recLe).map
        (fun (p : String × MemEntry) => -p.2.cursor)).Nodup :=
      (((List.mergeSort_perm _ _).map _).symm).nodup hndF
    have hndD : (((db.filter (fun c => c.index = idx)).filter
        (fun d => cursKeep cursor d.cursor)).map
        (fun d => -d.cursor)).Nodup :=
      ((List.mergeSort_perm _ _).map _).nodup (hmapeq ▸ hndM2)
    have hbridge := probe_hasMore_bridge (db.filter (fun c => c.index = idx))
        (fun d => -d.cursor) (fun d => cursKeep cursor d.cursor)
        (fun a b => decide (b.cursor ≤ a.cursor)) pageSize hp
        (fun a _ b _ => decide_eq_decide.mpr (by dsimp only; omega))
        (fun t _ l _ hlt hl => by
          cases cursor with
          | none => rfl
          | some c =>
            simp only [cursKeep, Bool.or_eq_true, decide_eq_true_eq] at hl ⊢
            dsimp only at hlt
            rcases hl with h | h
            · exact Or.inl h
            · exact Or.inr (by omega))
        hndD _ rfl
    have hfinal : (decide ((List.take pageSize
          (((liveEntries game now).filter
            (fun p => cursKeep cursor p.2.cursor)).mergeSort recLe)).length
            = pageSize) &&
        decide (pageSize < (((liveEntries game now).filter
          (fun p => cursKeep cursor p.2.cursor)).mergeSort recLe).length))
        = match (List.take pageSize
            (((db.filter (fun (c : Doc) => c.index = idx)).filter
              (fun (d : Doc) => cursKeep cursor d.cursor)).mergeSort
                (fun a b => decide (b.cursor ≤ a.cursor)))).getLast? with
          | none => false
          | some last => (db.filter (fun (c : Doc) => c.index = idx)).any
              (fun (d : Doc) => decide (d.cursor < last.cursor)) := by
      have hLL : (decide ((List.take pageSize
            (((liveEntries game now).filter
              (fun p => cursKeep cursor p.2.cursor)).mergeSort recLe)).length
              = pageSize) &&
          decide (pageSize < (((liveEntries game now).filter
            (fun p => cursKeep cursor p.2.cursor)).mergeSort recLe).length))
          = (decide ((List.take pageSize
              (((db.filter (fun (c : Doc) => c.index = idx)).filter
                (fun (d : Doc) => cursKeep cursor d.cursor)).mergeSort
                  (fun a b => decide (b.cursor ≤ a.cursor)))).length
                = pageSize) &&
            decide (pageSize < (((db.filter (fun (c : Doc) => c.index = idx)).filter
              (fun (d : Doc) => cursKeep cursor d.cursor)).mergeSort
                (fun a b => decide (b.cursor ≤ a.cursor))).length)) := by
        simp only [List.length_take, hlenS]
      cases hg : (List.take pageSize
          (((db.filter (fun (c : Doc) => c.index = idx)).filter
            (fun (d : Doc) => cursKeep cursor d.cursor)).mergeSort
              (fun a b => decide (b.cursor ≤ a.cursor)))).getLast? with
      | none =>
        rw [hg] at hbridge
        dsimp only at hbridge
        dsimp only
        rw [hLL]
        exact hbridge.symm
      | some l =>
        rw [hg] at hbridge
        dsimp only at hbridge
        dsimp only
        rw [hLL, ← hbridge]
        apply congrArg
        funext t
        exact decide_eq_decide.mpr (by omega)
    exact hfinal

/-- Rank equivalence: with the same entries in both tiers, unique keys
and numeric effective values, the memory scan and the db count yield
the same rank outcome, including the not-found and field-missing
cases. -/
theorem getRank_equiv (game : NsCache) (db : Db) (idx key dataName : String)
    (dir : Dir) (dflt : Option SVal) (now : Int)
    (hcorr : ((db.filter (fun c => c.index = idx)).map
        (fun d => (d.key, d.payload, d.cursor))).Perm
      ((liveEntries game now).map
        (fun (p : String × MemEntry) => (p.1, p.2.payload, p.2.cursor))))
    (hndM : (game.map Prod.fst).Nodup)
    (hndD : ((db.filter (fun c => c.index = idx)).map (·.key)).Nodup)
    (hnum : ((liveEntries game now).all
      (fun p => (effVal p.2.payload dataName dflt).all isNum)) = true) :
    getRankMem game key dataName dir dflt now
      = dbGetRank db idx key dataName dir dflt := by
  have hnum2 : ∀ p ∈ liveEntries game now, ∀ v,
      effVal p.2.payload dataName dflt = some v → ∃ n, v = SVal.num n := by
    intro p hp v hv
    have := (List.all_eq_true.mp hnum) p hp
    rw [hv] at this
    simp only [Option.all_some] at this
    cases v with
    | num n => exact ⟨n, rfl⟩
    | str t => exact absurd this (by simp [isNum])
  unfold getRankMem dbGetRank
  cases hg : (TTLCache.get game key now).1 with
  | none =>
    have hnolive := (get_none_iff_live game key now hndM).mp hg
    have hnone : db.find? (fun d => d.index = idx && d.key = key) = none := by
      rw [dbFindOne_none_iff]
      intro dc hdc hkey
      have htr : (dc.key, dc.payload, dc.cursor)
          ∈ (db.filter (fun c => c.index = idx)).map
            (fun d => (d.key, d.payload, d.cursor)) :=
        List.mem_map.mpr ⟨dc, hdc, rfl⟩
      obtain ⟨p, hp, hpe⟩ := List.mem_map.mp (hcorr.mem_iff.mp htr)
      apply hnolive p.2
      have h1 : p.1 = dc.key := congrArg Prod.fst hpe
      have : (key, p.2) = p := by
        rw [← hkey, ← h1]
      rw [this]
      exact hp
    rw [hnone]
  | some entry =>
    have hlive : (key, entry) ∈ liveEntries game now :=
      (get_some_iff_live game key now hndM entry).mp hg
    have htr : (key, entry.payload, entry.cursor)
        ∈ (liveEntries game now).map
          (fun (p : String × MemEntry) => (p.1, p.2.payload, p.2.cursor)) :=
      List.mem_map.mpr ⟨(key, entry), hlive, rfl⟩
    obtain ⟨dc, hdc, hdce⟩ := List.mem_map.mp (hcorr.mem_iff.mpr htr)
    have hk : dc.key = key := congrArg Prod.fst hdce
    have hpay : dc.payload = entry.payload :=
      congrArg (fun t => t.2.1) hdce
    have hfind : db.find? (fun d => d.index = idx && d.key = key) = some dc :=
      (dbFindOne_some_iff db idx key hndD dc).mpr ⟨hdc, hk⟩
    rw [hfind]
    dsimp only
    rw [hpay]
    cases heff : effVal entry.payload dataName dflt with
    | none => rfl
    | some target =>
      obtain ⟨tn, htn⟩ := hnum2 (key, entry) hlive target heff
      subst htn
      have hbody : (fun (acc : Nat) (p : String × MemEntry) =>
          match effVal p.2.payload dataName dflt with
          | none => acc
          | some v => if betterThan v (.num tn) dir then acc + 1 else acc)
          = (fun (acc : Nat) (p : String × MemEntry) =>
            if (match effVal p.2.payload dataName dflt with
              | none => false
              | some v => betterThan v (.num tn) dir) then acc + 1
            else acc) := by
        funext acc p
        cases h : effVal p.2.payload dataName dflt with
        | none => simp
        | some v => simp
      dsimp only
      rw [hbody, foldl_count, Nat.zero_add]
      have hmemT : (liveEntries game now).countP (fun p =>
          match effVal p.2.payload dataName dflt with
          | none => false
          | some v => betterThan v (.num tn) dir)
          = ((liveEntries game now).map
            (fun (p : String × MemEntry) => (p.1, p.2.payload, p.2.cursor))).countP
            (fun (t : String × Payload × Int) =>
              match effVal t.2.1 dataName dflt with
              | none => false
              | some v => betterThan v (.num tn) dir) := by
        rw [List.countP_map]
        rfl
      cases dflt with
      | none =>
        have hdbT : (db.filter (fun c => c.index = idx)).countP (fun d =>
            match d.payload.getField dataName with
            | none => false
            | some v => dbBetter dir v (.num tn))
            = ((db.filter (fun c => c.index = idx)).map
              (fun d => (d.key, d.payload, d.cursor))).countP
              (fun (t : String × Payload × Int) =>
                match t.2.1.getField dataName with
                | none => false
                | some v => dbBetter dir v (.num tn)) := by
          rw [List.countP_map]
          rfl
        have hagree : ∀ (t : String × Payload × Int),
            t ∈ ((liveEntries game now).map
              (fun (p : String × MemEntry) => (p.1, p.2.payload, p.2.cursor))) →
            (match t.2.1.getField dataName with
              | none => false
              | some v => dbBetter dir v (.num tn))
            = (match effVal t.2.1 dataName none with
              | none => false
              | some v => betterThan v (.num tn) dir) := by
          intro t ht
          obtain ⟨p, hp, hpe⟩ := List.mem_map.mp ht
          have hpt : t.2.1 = p.2.payload := (congrArg (fun x => x.2.1) hpe).symm
          rw [hpt]
          cases hf : p.2.payload.getField dataName with
          | none =>
            have : effVal p.2.payload dataName none = none := by
              unfold effVal
              rw [hf]
            rw [this]
          | some v =>
            have heq : effVal p.2.payload dataName none = some v := by
              unfold effVal
              rw [hf]
            obtain ⟨n, hn⟩ := hnum2 p hp v heq
            subst hn
            rw [heq]
            cases dir with
            | asc => rfl
            | desc => rfl
        have hperm := hcorr.countP_eq (fun (t : String × Payload × Int) =>
          match t.2.1.getField dataName with
          | none => false
          | some v => dbBetter dir v (.num tn))
        have hcongr : ((liveEntries game now).map
            (fun (p : String × MemEntry) => (p.1, p.2.payload, p.2.cursor))).countP
              (fun (t : String × Payload × Int) =>
                match t.2.1.getField dataName with
                | none => false
                | some v => dbBetter dir v (.num tn))
            = ((liveEntries game now).map
              (fun (p : String × MemEntry) => (p.1, p.2.payload, p.2.cursor))).countP
              (fun (t : String × Payload × Int) =>
                match effVal t.2.1 dataName none with
                | none => false
                | some v => betterThan v (.num tn) dir) :=
          List.countP_congr (fun t ht => by rw [hagree t ht])
        rw [hmemT, ← hcongr, ← hperm, ← hdbT]
        rfl
      | some dv =>
        have hdbT : (db.filter (fun c => c.index = idx)).countP (fun d =>
            dbBetter dir ((d.payload.getField dataName).getD dv) (.num tn))
            = ((db.filter (fun c => c.index = idx)).map
              (fun d => (d.key, d.payload, d.cursor))).countP
              (fun (t : String × Payload × Int) =>
                dbBetter dir ((t.2.1.getField dataName).getD dv) (.num tn)) := by
          rw [List.countP_map]
          rfl
        have hagree : ∀ (t : String × Payload × Int),
            t ∈ ((liveEntries game now).map
              (fun (p : String × MemEntry) => (p.1, p.2.payload, p.2.cursor))) →
            (dbBetter dir ((t.2.1.getField dataName).getD dv) (.num tn))
            = (match effVal t.2.1 dataName (some dv) with
              | none => false
              | some v => betterThan v (.num tn) dir) := by
          intro t ht
          obtain ⟨p, hp, hpe⟩ := List.mem_map.mp ht
          have hpt : t.2.1 = p.2.payload := (congrArg (fun x => x.2.1) hpe).symm
          rw [hpt]
          cases hf : p.2.payload.getField dataName with
          | none =>
            have heq : effVal p.2.payload dataName (some dv) = some dv := by
              unfold effVal
              rw [hf]
            obtain ⟨n, hn⟩ := hnum2 p hp dv heq
            rw [heq]
            simp only [Option.getD_none]
            rw [hn]
            cases dir with
            | asc => rfl
            | desc => rfl
          | some v =>
            have heq : effVal p.2.payload dataName (some dv) = some v := by
              unfold effVal
              rw [hf]
            obtain ⟨n, hn⟩ := hnum2 p hp v heq
            rw [heq]
            simp only [Option.getD_some]
            rw [hn]
            cases dir with
            | asc => rfl
            | desc => rfl
        have hperm := hcorr.countP_eq (fun (t : String × Payload × Int) =>
          dbBetter dir ((t.2.1.getField dataName).getD dv) (.num tn))
        have hcongr : ((liveEntries game now).map
            (fun (p : String × MemEntry) => (p.1, p.2.payload, p.2.cursor))).countP
              (fun (t : String × Payload × Int) =>
                dbBetter dir ((t.2.1.getField dataName).getD dv) (.num tn))
            = ((liveEntries game now).map
              (fun (p : String × MemEntry) => (p.1, p.2.payload, p.2.cursor))).countP
              (fun (t : String × Payload × Int) =>
                match effVal t.2.1 dataName (some dv) with
                | none => false
                | some v => betterThan v (.num tn) dir) :=
          List.countP_congr (fun t ht => by rw [hagree t ht])
        rw [hmemT, ← hcongr, ← hperm, ← hdbT]
        rfl

/-- Sorted-listing equivalence with a default value: same entries in
both tiers, numeric effective values, a numeric or absent cursor and
pairwise distinct effective values give identical pages, including
hasMore. -/
theorem getSortedDflt_equiv (game : NsCache) (db : Db) (idx dataName : String)
    (dir : Dir) (cursor : Option SVal) (dv : SVal) (pageSize : Nat)
    (now : Int)
    (hcorr : ((db.filter (fun c => c.index = idx)).map
        (fun d => (d.key, d.payload, d.cursor))).Perm
      ((liveEntries game now).map
        (fun (p : String × MemEntry) => (p.1, p.2.payload, p.2.cursor))))
    (hnum : ((liveEntries game now).all
      (fun p => (effVal p.2.payload dataName (some dv)).all isNum)) = true)
    (hcur : cursor = none ∨ ∃ cn, cursor = some (SVal.num cn))
    (hvnd : ((liveEntries game now).map
      (fun p => svalNum ((p.2.payload.getField dataName).getD dv))).Nodup)
    (hp : 0 < pageSize) :
    getSortedMem game dataName dir cursor (some dv) pageSize now
      = dbGetSortedDflt db idx dataName dir cursor dv pageSize := by
  have hEff : ∀ (pl : Payload), effVal pl dataName (some dv)
      = some ((pl.getField dataName).getD dv) := by
    intro pl
    unfold effVal
    cases h : pl.getField dataName with
    | none => rfl
    | some v => rfl
  have hWith : (liveEntries game now).filterMap
      (fun p => match effVal p.2.payload dataName (some dv) with
        | none => none
        | some v => some (⟨p.1, p.2.payload, v⟩ : SRow))
      = (liveEntries game now).map (rowOf dataName dv) := by
    apply filterMap_all_some
    intro p _
    rw [hEff p.2.payload]
    rfl
  have hnumV : ∀ p ∈ liveEntries game now,
      ∃ n, (p.2.payload.getField dataName).getD dv = SVal.num n := by
    intro p hp2
    have := (List.all_eq_true.mp hnum) p hp2
    rw [hEff p.2.payload] at this
    simp only [Option.all_some] at this
    cases h : (p.2.payload.getField dataName).getD dv with
    | num n => exact ⟨n, rfl⟩
    | str t =>
      rw [h] at this
      exact absurd this (by simp [isNum])
  have hWVnum : ∀ r ∈ (liveEntries game now).map (rowOf dataName dv),
      ∃ n, r.val = SVal.num n := by
    intro r hr
    obtain ⟨p, hp2, hpe⟩ := List.mem_map.mp hr
    obtain ⟨n, hn⟩ := hnumV p hp2
    exact ⟨n, by rw [← hpe]; exact hn⟩
  have hpermRows : (((db.filter (fun c => c.index = idx)).map
        (fun d => (d, (d.payload.getField dataName).getD dv))).map
        (fun (r : Doc × SVal) => (r.1.key, r.1.payload, r.2))).Perm
      ((((liveEntries game now).map (rowOf dataName dv)).map
        (fun (r : SRow) => (r.key, r.data, r.val)))) := by
    have e1 : ((db.filter (fun c => c.index = idx)).map
          (fun d => (d, (d.payload.getField dataName).getD dv))).map
          (fun (r : Doc × SVal) => (r.1.key, r.1.payload, r.2))
        = (((db.filter (fun c => c.index = idx)).map
            (fun d => (d.key, d.payload, d.cursor))).map
          (fun (t : String × Payload × Int) =>
            (t.1, t.2.1, (t.2.1.getField dataName).getD dv))) := by
      rw [List.map_map, List.map_map]
      rfl
    have e2 : (((liveEntries game now).map (rowOf dataName dv)).map
          (fun (r : SRow) => (r.key, r.data, r.val)))
        = (((liveEntries game now).map
            (fun (p : String × MemEntry) => (p.1, p.2.payload, p.2.cursor))).map
          (fun (t : String × Payload × Int) =>
            (t.1, t.2.1, (t.2.1.getField dataName).getD dv))) := by
      rw [List.map_map, List.map_map]
      rfl
    rw [e1, e2]
    exact hcorr.map _
  have hrowNum : ∀ r ∈ ((db.filter (fun c => c.index = idx)).map
      (fun d => (d, (d.payload.getField dataName).getD dv))),
      ∃ n, r.2 = SVal.num n := by
    intro r hr
    have hmem : (r.1.key, r.1.payload, r.2)
        ∈ (((liveEntries game now).map (rowOf dataName dv)).map
          (fun (r : SRow) => (r.key, r.data, r.val))) :=
      hpermRows.mem_iff.mp (List.mem_map.mpr ⟨r, hr, rfl⟩)
    obtain ⟨q, hq2, hqe⟩ := List.mem_map.mp hmem
    obtain ⟨n, hn⟩ := hWVnum q hq2
    refine ⟨n, ?_⟩
    have := congrArg (fun (t : String × Payload × SVal) => t.2.2) hqe
    dsimp only at this
    rw [← this]
    exact hn
  have hfc : (((liveEntries game now).map (rowOf dataName dv)).map
        (fun (r : SRow) => (r.key, r.data, r.val))).filter
        (fun (t : String × Payload × SVal) => sortedKeep t.2.2 cursor dir)
      = (((liveEntries game now).map (rowOf dataName dv)).map
        (fun (r : SRow) => (r.key, r.data, r.val))).filter
        (fun (t : String × Payload × SVal) => svalKeep dir cursor t.2.2) := by
    apply List.filter_congr
    intro t ht
    obtain ⟨q, hq2, hqe⟩ := List.mem_map.mp ht
    obtain ⟨n, hn⟩ := hWVnum q hq2
    have ht2 : t.2.2 = SVal.num n := by
      have := congrArg (fun (t : String × Payload × SVal) => t.2.2) hqe
      dsimp only at this
      rw [← this]
      exact hn
    rw [ht2]
    exact sortedKeep_num dir cursor n hcur
  have h1m : (((liveEntries game now).map (rowOf dataName dv)).filter
        (fun r => sortedKeep r.val cursor dir)).map
        (fun (r : SRow) => (r.key, r.data, r.val))
      = (((liveEntries game now).map (rowOf dataName dv)).map
        (fun (r : SRow) => (r.key, r.data, r.val))).filter
        (fun (t : String × Payload × SVal) => sortedKeep t.2.2 cursor dir) := by
    exact (@List.filter_map SRow (String × Payload × SVal)
      (fun (t : String × Payload × SVal) => sortedKeep t.2.2 cursor dir)
      (fun (r : SRow) => (r.key, r.data, r.val))
      ((liveEntries game now).map (rowOf dataName dv))).symm
  have h2d : (((db.filter (fun c => c.index = idx)).map
        (fun d => (d, (d.payload.getField dataName).getD dv))).filter
        (fun (r : Doc × SVal) => svalKeep dir cursor r.2)).map
        (fun (r : Doc × SVal) => (r.1.key, r.1.payload, r.2))
      = (((db.filter (fun c => c.index = idx)).map
          (fun d => (d, (d.payload.getField dataName).getD dv))).map
        (fun (r : Doc × SVal) => (r.1.key, r.1.payload, r.2))).filter
        (fun (t : String × Payload × SVal) => svalKeep dir cursor t.2.2) := by
    exact (@List.filter_map (Doc × SVal) (String × Payload × SVal)
      (fun (t : String × Payload × SVal) => svalKeep dir cursor t.2.2)
      (fun (r : Doc × SVal) => (r.1.key, r.1.payload, r.2))
      ((db.filter (fun c => c.index = idx)).map
        (fun d => (d, (d.payload.getField dataName).getD dv)))).symm
  have hpermF : ((((liveEntries game now).map (rowOf dataName dv)).filter
        (fun r => sortedKeep r.val cursor dir)).map
        (fun (r : SRow) => (r.key, r.data, r.val))).Perm
      ((((db.filter (fun c => c.index = idx)).map
        (fun d => (d, (d.payload.getField dataName).getD dv))).filter
        (fun (r : Doc × SVal) => svalKeep dir cursor r.2)).map
        (fun (r : Doc × SVal) => (r.1.key, r.1.payload, r.2))) := by
    rw [h1m, hfc, h2d]
    exact (hpermRows.filter _).symm
  have hndT : (((((liveEntries game now).map (rowOf dataName dv)).filter
        (fun r => sortedKeep r.val cursor dir)).map
        (fun (r : SRow) => (r.key, r.data, r.val))).map
        (fun (t : String × Payload × SVal) =>
          dirKey dir (svalNum t.2.2))).Nodup := by
    rw [List.map_map]
    apply List.Nodup.sublist ((List.filter_sublist _).map _)
    rw [List.map_map]
    have hcomp : (((fun (t : String × Payload × SVal) =>
          dirKey dir (svalNum t.2.2)) ∘
          (fun (r : SRow) => (r.key, r.data, r.val))) ∘ rowOf dataName dv)
        = (dirKey dir) ∘
          (fun (p : String × MemEntry) =>
            svalNum ((p.2.payload.getField dataName).getD dv)) := by
      funext p
      rfl
    rw [hcomp, ← List.map_map]
    exact hvnd.map (dirKey_inj dir)
  have hproj : ((((liveEntries game now).map (rowOf dataName dv)).filter
        (fun r => sortedKeep r.val cursor dir)).mergeSort (rowLe dir)).map
        (fun (r : SRow) => (r.key, r.data, r.val))
      = ((((db.filter (fun c => c.index = idx)).map
          (fun d => (d, (d.payload.getField dataName).getD dv))).filter
          (fun (r : Doc × SVal) => svalKeep dir cursor r.2)).mergeSort
            (bsonSortLe dir (fun (r : Doc × SVal) => some r.2))).map
        (fun (r : Doc × SVal) => (r.1.key, r.1.payload, r.2)) := by
    apply mergeSort_proj_eq _ _ _ _ _ _
      (fun (t : String × Payload × SVal) => dirKey dir (svalNum t.2.2))
    · intro a ha b hb
      obtain ⟨na, hna⟩ := hWVnum a (List.mem_of_mem_filter ha)
      obtain ⟨nb, hnb⟩ := hWVnum b (List.mem_of_mem_filter hb)
      rw [rowLe_num dir a b na nb hna hnb]
      show decide (dirKey dir na ≤ dirKey dir nb)
        = decide (dirKey dir (svalNum a.val) ≤ dirKey dir (svalNum b.val))
      rw [hna, hnb]
      rfl
    · intro a ha b hb
      obtain ⟨na, hna⟩ := hrowNum a (List.mem_of_mem_filter ha)
      obtain ⟨nb, hnb⟩ := hrowNum b (List.mem_of_mem_filter hb)
      rw [bsonSortLe_num dir (fun (r : Doc × SVal) => some r.2) a b na nb
        (show some a.2 = some (SVal.num na) by rw [hna])
        (show some b.2 = some (SVal.num nb) by rw [hnb])]
      show decide (dirKey dir na ≤ dirKey dir nb)
        = decide (dirKey dir (svalNum a.2) ≤ dirKey dir (svalNum b.2))
      rw [hna, hnb]
      rfl
    · exact hpermF
    · exact hndT
  have hlenS : (((((liveEntries game now).map (rowOf dataName dv)).filter
        (fun r => sortedKeep r.val cursor dir)).mergeSort (rowLe dir))).length = ((((db.filter (fun c => c.index = idx)).map
        (fun d => (d, (d.payload.getField dataName).getD dv))).filter
        (fun (r : Doc × SVal) => svalKeep dir cursor r.2)).mergeSort
        (bsonSortLe dir (fun (r : Doc × SVal) => some r.2))).length := by
    have := congrArg List.length hproj
    simpa using this
  have hitems : List.map (fun (r : SRow) => (r.key, r.data))
      (List.take pageSize ((((liveEntries game now).map (rowOf dataName dv)).filter
        (fun r => sortedKeep r.val cursor dir)).mergeSort (rowLe dir)))
      = List.map (fun (r : Doc × SVal) => (r.1.key, r.1.payload))
        (List.take pageSize ((((db.filter (fun c => c.index = idx)).map
        (fun d => (d, (d.payload.getField dataName).getD dv))).filter
        (fun (r : Doc × SVal) => svalKeep dir cursor r.2)).mergeSort
        (bsonSortLe dir (fun (r : Doc × SVal) => some r.2)))) := by
    have e1 : List.map (fun (r : SRow) => (r.key, r.data))
        (List.take pageSize ((((liveEntries game now).map (rowOf dataName dv)).filter
        (fun r => sortedKeep r.val cursor dir)).mergeSort (rowLe dir)))
        = List.map (fun (t : String × Payload × SVal) => (t.1, t.2.1))
          (List.take pageSize
            ((((((liveEntries game now).map (rowOf dataName dv)).filter
        (fun r => sortedKeep r.val cursor dir)).mergeSort (rowLe dir))).map
              (fun (r : SRow) => (r.key, r.data, r.val)))) := by
      rw [← List.map_take, List.map_map]
      rfl
    have e2 : List.map (fun (r : Doc × SVal) => (r.1.key, r.1.payload))
        (List.take pageSize ((((db.filter (fun c => c.index = idx)).map
        (fun d => (d, (d.payload.getField dataName).getD dv))).filter
        (fun (r : Doc × SVal) => svalKeep dir cursor r.2)).mergeSort
        (bsonSortLe dir (fun (r : Doc × SVal) => some r.2))))
        = List.map (fun (t : String × Payload × SVal) => (t.1, t.2.1))
          (List.take pageSize
            (((((db.filter (fun c => c.index = idx)).map
        (fun d => (d, (d.payload.getField dataName).getD dv))).filter
        (fun (r : Doc × SVal) => svalKeep dir cursor r.2)).mergeSort
        (bsonSortLe dir (fun (r : Doc × SVal) => some r.2))).map
              (fun (r : Doc × SVal) => (r.1.key, r.1.payload, r.2)))) := by
      rw [← List.map_take, List.map_map]
      rfl
    rw [e1, e2, hproj]
  have htotal : ((liveEntries game now).map (rowOf dataName dv)).length
      = (db.filter (fun c => c.index = idx)).length := by
    rw [List.length_map]
    have h := hcorr.length_eq
    simp only [List.length_map] at h
    exact h.symm
  have hnext : Option.map (fun (r : SRow) => r.val)
      (List.take pageSize ((((liveEntries game now).map (rowOf dataName dv)).filter
        (fun r => sortedKeep r.val cursor dir)).mergeSort (rowLe dir))).getLast?
      = Option.map (fun (r : Doc × SVal) => r.2)
        (List.take pageSize ((((db.filter (fun c => c.index = idx)).map
        (fun d => (d, (d.payload.getField dataName).getD dv))).filter
        (fun (r : Doc × SVal) => svalKeep dir cursor r.2)).mergeSort
        (bsonSortLe dir (fun (r : Doc × SVal) => some r.2)))).getLast? := by
    have e1 : Option.map (fun (r : SRow) => r.val)
        (List.take pageSize ((((liveEntries game now).map (rowOf dataName dv)).filter
        (fun r => sortedKeep r.val cursor dir)).mergeSort (rowLe dir))).getLast?
        = Option.map (fun (t : String × Payload × SVal) => t.2.2)
          ((List.take pageSize
            ((((((liveEntries game now).map (rowOf dataName dv)).filter
        (fun r => sortedKeep r.val cursor dir)).mergeSort (rowLe dir))).map
              (fun (r : SRow) => (r.key, r.data, r.val)))).getLast?) := by
      rw [← List.map_take, List.getLast?_map, Option.map_map]
      rfl
    have e2 : Option.map (fun (r : Doc × SVal) => r.2)
        (List.take pageSize ((((db.filter (fun c => c.index = idx)).map
        (fun d => (d, (d.payload.getField dataName).getD dv))).filter
        (fun (r : Doc × SVal) => svalKeep dir cursor r.2)).mergeSort
        (bsonSortLe dir (fun (r : Doc × SVal) => some r.2)))).getLast?
        = Option.map (fun (t : String × Payload × SVal) => t.2.2)
          ((List.take pageSize
            (((((db.filter (fun c => c.index = idx)).map
        (fun d => (d, (d.payload.getField dataName).getD dv))).filter
        (fun (r : Doc × SVal) => svalKeep dir cursor r.2)).mergeSort
        (bsonSortLe dir (fun (r : Doc × SVal) => some r.2))).map
              (fun (r : Doc × SVal) => (r.1.key, r.1.payload, r.2)))).getLast?) := by
      rw [← List.map_take, List.getLast?_map, Option.map_map]
      rfl
    rw [e1, e2, hproj]
  have hbridge := probe_hasMore_bridge
      ((db.filter (fun c => c.index = idx)).map
        (fun d => (d, (d.payload.getField dataName).getD dv)))
      (fun (r : Doc × SVal) => dirKey dir (svalNum r.2))
      (fun (r : Doc × SVal) => svalKeep dir cursor r.2)
      (bsonSortLe dir (fun (r : Doc × SVal) => some r.2)) pageSize hp
      (fun a ha b hb => by
        obtain ⟨na, hna⟩ := hrowNum a (List.mem_of_mem_filter ha)
        obtain ⟨nb, hnb⟩ := hrowNum b (List.mem_of_mem_filter hb)
        rw [bsonSortLe_num dir (fun (r : Doc × SVal) => some r.2) a b na nb
          (show some a.2 = some (SVal.num na) by rw [hna])
          (show some b.2 = some (SVal.num nb) by rw [hnb])]
        show decide (dirKey dir na ≤ dirKey dir nb)
          = decide (dirKey dir (svalNum a.2) ≤ dirKey dir (svalNum b.2))
        rw [hna, hnb]
        rfl)
      (fun t ht l hl hlt hpred => by
        obtain ⟨nt, hnt⟩ := hrowNum t ht
        obtain ⟨nl, hnl⟩ := hrowNum l hl
        have hlt2 : dirKey dir nl < dirKey dir nt := by
          have h2 : dirKey dir (svalNum l.2) < dirKey dir (svalNum t.2) := hlt
          rw [hnl, hnt] at h2
          exact h2
        have hpl : svalKeep dir cursor (SVal.num nl) = true := by
          rw [← hnl]
          exact hpred
        have h3 := svalKeep_closed dir cursor nl nt hcur hlt2 hpl
        show svalKeep dir cursor t.2 = true
        rw [hnt]
        exact h3)
      (by
        have h := (hpermF.map
          (fun (t : String × Payload × SVal) =>
            dirKey dir (svalNum t.2.2))).nodup hndT
        rw [List.map_map] at h
        exact h)
      _ rfl
  have hLL : (decide ((List.take pageSize ((((liveEntries game now).map (rowOf dataName dv)).filter
        (fun r => sortedKeep r.val cursor dir)).mergeSort (rowLe dir))).length = pageSize) &&
      decide (pageSize < (((((liveEntries game now).map (rowOf dataName dv)).filter
        (fun r => sortedKeep r.val cursor dir)).mergeSort (rowLe dir))).length))
      = (decide ((List.take pageSize ((((db.filter (fun c => c.index = idx)).map
        (fun d => (d, (d.payload.getField dataName).getD dv))).filter
        (fun (r : Doc × SVal) => svalKeep dir cursor r.2)).mergeSort
        (bsonSortLe dir (fun (r : Doc × SVal) => some r.2)))).length = pageSize) &&
        decide (pageSize < ((((db.filter (fun c => c.index = idx)).map
        (fun d => (d, (d.payload.getField dataName).getD dv))).filter
        (fun (r : Doc × SVal) => svalKeep dir cursor r.2)).mergeSort
        (bsonSortLe dir (fun (r : Doc × SVal) => some r.2))).length)) := by
    simp only [List.length_take, hlenS]
  have hfinal : (decide ((List.take pageSize ((((liveEntries game now).map (rowOf dataName dv)).filter
        (fun r => sortedKeep r.val cursor dir)).mergeSort (rowLe dir))).length = pageSize) &&
      decide (pageSize < (((((liveEntries game now).map (rowOf dataName dv)).filter
        (fun r => sortedKeep r.val cursor dir)).mergeSort (rowLe dir))).length))
      = match (List.take pageSize ((((db.filter (fun c => c.index = idx)).map
        (fun d => (d, (d.payload.getField dataName).getD dv))).filter
        (fun (r : Doc × SVal) => svalKeep dir cursor r.2)).mergeSort
        (bsonSortLe dir (fun (r : Doc × SVal) => some r.2)))).getLast? with
        | none => false
        | some last => (((db.filter (fun c => c.index = idx)).map
        (fun d => (d, (d.payload.getField dataName).getD dv)))).any
            (fun (r : Doc × SVal) => mongoPast dir r.2 last.2) := by
    cases hg : (List.take pageSize ((((db.filter (fun c => c.index = idx)).map
        (fun d => (d, (d.payload.getField dataName).getD dv))).filter
        (fun (r : Doc × SVal) => svalKeep dir cursor r.2)).mergeSort
        (bsonSortLe dir (fun (r : Doc × SVal) => some r.2)))).getLast? with
    | none =>
      rw [hg] at hbridge
      dsimp only at hbridge
      dsimp only
      rw [hLL]
      exact hbridge.symm
    | some l =>
      rw [hg] at hbridge
      dsimp only at hbridge
      dsimp only
      rw [hLL, ← hbridge]
      have hlm : l ∈ ((db.filter (fun c => c.index = idx)).map
        (fun d => (d, (d.payload.getField dataName).getD dv))) := by
        have h1 : l ∈ List.take pageSize ((((db.filter (fun c => c.index = idx)).map
        (fun d => (d, (d.payload.getField dataName).getD dv))).filter
        (fun (r : Doc × SVal) => svalKeep dir cursor r.2)).mergeSort
        (bsonSortLe dir (fun (r : Doc × SVal) => some r.2))) :=
          List.mem_of_mem_getLast? hg
        have h2 : l ∈ ((((db.filter (fun c => c.index = idx)).map
        (fun d => (d, (d.payload.getField dataName).getD dv))).filter
        (fun (r : Doc × SVal) => svalKeep dir cursor r.2)).mergeSort
        (bsonSortLe dir (fun (r : Doc × SVal) => some r.2))) := List.take_subset _ _ h1
        have h3 : l ∈ (((db.filter (fun c => c.index = idx)).map
        (fun d => (d, (d.payload.getField dataName).getD dv))).filter
        (fun (r : Doc × SVal) => svalKeep dir cursor r.2)) :=
          (List.mergeSort_perm _ _).mem_iff.mp h2
        exact List.mem_of_mem_filter h3
      obtain ⟨nl, hnl⟩ := hrowNum l hlm
      apply any_congr_mem
      intro r hr
      obtain ⟨nr, hnr⟩ := hrowNum r hr
      show decide (dirKey dir (svalNum l.2) < dirKey dir (svalNum r.2))
        = mongoPast dir r.2 l.2
      rw [hnr, hnl, mongoPast_num]
      rfl
  unfold getSortedMem dbGetSortedDflt
  dsimp only
  rw [hWith]
  simp only [SortedPage.mk.injEq]
  refine ⟨?_, trivial, ?_, ?_, ?_⟩
  · exact hitems
  · exact htotal
  · exact hnext
  · exact hfinal

/-- Sorted-listing equivalence without a default value: same entries
in both tiers, numeric field values, a numeric or absent cursor and
pairwise distinct field values give identical pages - entries lacking
the field are dropped by both tiers, counted by neither, and hasMore
agrees. -/
theorem getSortedNoDflt_equiv (game : NsCache) (db : Db)
    (idx dataName : String) (dir : Dir) (cursor : Option SVal)
    (pageSize : Nat) (now : Int)
    (hcorr : (((db.filter (fun c => c.index = idx))).map (fun (d : Doc) => (d.key, d.payload, d.cursor))).Perm
      ((liveEntries game now).map (fun (p : String × MemEntry) => (p.1, p.2.payload, p.2.cursor))))
    (hnum : ((liveEntries game now).all
      (fun p => (effVal p.2.payload dataName none).all isNum)) = true)
    (hcur : cursor = none ∨ ∃ cn, cursor = some (SVal.num cn))
    (hvnd : ((liveEntries game now).filterMap
      (fun p => (p.2.payload.getField dataName).map svalNum)).Nodup)
    (hp : 0 < pageSize) :
    getSortedMem game dataName dir cursor none pageSize now
      = dbGetSortedNoDflt db idx dataName dir cursor pageSize := by
  have hgetNum : ∀ p ∈ liveEntries game now, ∀ v,
      p.2.payload.getField dataName = some v → ∃ n, v = SVal.num n := by
    intro p hp2 v hv
    have hall := (List.all_eq_true.mp hnum) p hp2
    have he : effVal p.2.payload dataName none = some v := by
      unfold effVal
      rw [hv]
    rw [he] at hall
    simp only [Option.all_some] at hall
    cases v with
    | num n => exact ⟨n, rfl⟩
    | str t => exact absurd hall (by simp [isNum])
  have hWithS : (liveEntries game now).filterMap
      (fun p => match effVal p.2.payload dataName none with
        | none => none
        | some v => some (⟨p.1, p.2.payload, v⟩ : SRow))
      = ((liveEntries game now).filterMap
      (fun (p : String × MemEntry) =>
      match p.2.payload.getField dataName with
      | none => none
      | some v => some (⟨p.1, p.2.payload, v⟩ : SRow))) := by
    apply List.filterMap_congr
    intro p _
    unfold effVal
    cases h : p.2.payload.getField dataName with
    | none => rfl
    | some v => rfl
  have hWVnum : ∀ r ∈ ((liveEntries game now).filterMap
      (fun (p : String × MemEntry) =>
      match p.2.payload.getField dataName with
      | none => none
      | some v => some (⟨p.1, p.2.payload, v⟩ : SRow))), ∃ n, r.val = SVal.num n := by
    intro r hr
    obtain ⟨p, hp2, hpe⟩ := List.mem_filterMap.mp hr
    cases hf : p.2.payload.getField dataName with
    | none =>
      rw [hf] at hpe
      exact absurd hpe (by simp)
    | some v =>
      rw [hf] at hpe
      obtain ⟨n, hn⟩ := hgetNum p hp2 v hf
      injection hpe with h1
      refine ⟨n, ?_⟩
      rw [← h1]
      exact hn
  have hdocNum : ∀ d ∈ (db.filter (fun c => c.index = idx)), ∀ v,
      d.payload.getField dataName = some v → ∃ n, v = SVal.num n := by
    intro d hd v hv
    have htr : (d.key, d.payload, d.cursor) ∈ ((db.filter (fun c => c.index = idx))).map (fun (d : Doc) => (d.key, d.payload, d.cursor)) :=
      List.mem_map.mpr ⟨d, hd, rfl⟩
    obtain ⟨p, hp2, hpe⟩ := List.mem_map.mp (hcorr.mem_iff.mp htr)
    have hpay : p.2.payload = d.payload :=
      congrArg (fun (t : String × Payload × Int) => t.2.1) hpe
    apply hgetNum p hp2 v
    rw [hpay]
    exact hv
  have hAeq : (((liveEntries game now).filterMap
      (fun (p : String × MemEntry) =>
      match p.2.payload.getField dataName with
      | none => none
      | some v => some (⟨p.1, p.2.payload, v⟩ : SRow)))).map (fun (r : SRow) => (r.key, r.data, r.val))
      = ((liveEntries game now).map (fun (p : String × MemEntry) => (p.1, p.2.payload, p.2.cursor))).filterMap (fun (t : String × Payload × Int) =>
      match t.2.1.getField dataName with
      | none => none
      | some v => some ((t.1, t.2.1, v) : String × Payload × SVal)) := by
    rw [List.map_filterMap, List.filterMap_map]
    apply List.filterMap_congr
    intro p _
    dsimp only [Function.comp]
    cases h : p.2.payload.getField dataName with
    | none => rfl
    | some v => rfl
  have hBeq : ((db.filter (fun c => c.index = idx))).filterMap (fun (d : Doc) =>
      match d.payload.getField dataName with
      | none => none
      | some v => some ((d.key, d.payload, v) : String × Payload × SVal))
      = (((db.filter (fun c => c.index = idx))).map (fun (d : Doc) => (d.key, d.payload, d.cursor))).filterMap (fun (t : String × Payload × Int) =>
      match t.2.1.getField dataName with
      | none => none
      | some v => some ((t.1, t.2.1, v) : String × Payload × SVal)) := by
    rw [List.filterMap_map]
    apply List.filterMap_congr
    intro d _
    dsimp only [Function.comp]
  have hABperm : ((((liveEntries game now).filterMap
      (fun (p : String × MemEntry) =>
      match p.2.payload.getField dataName with
      | none => none
      | some v => some (⟨p.1, p.2.payload, v⟩ : SRow)))).map (fun (r : SRow) => (r.key, r.data, r.val))).Perm
      (((db.filter (fun c => c.index = idx))).filterMap (fun (d : Doc) =>
      match d.payload.getField dataName with
      | none => none
      | some v => some ((d.key, d.payload, v) : String × Payload × SVal))) := by
    rw [hAeq, hBeq]
    exact (hcorr.filterMap _).symm
  have h1m : ((((liveEntries game now).filterMap
      (fun (p : String × MemEntry) =>
      match p.2.payload.getField dataName with
      | none => none
      | some v => some (⟨p.1, p.2.payload, v⟩ : SRow)))).filter (fun r => sortedKeep r.val cursor dir)).map (fun (r : SRow) => (r.key, r.data, r.val))
      = ((((liveEntries game now).filterMap
      (fun (p : String × MemEntry) =>
      match p.2.payload.getField dataName with
      | none => none
      | some v => some (⟨p.1, p.2.payload, v⟩ : SRow)))).map (fun (r : SRow) => (r.key, r.data, r.val))).filter (fun (t : String × Payload × SVal) => sortedKeep t.2.2 cursor dir) := by
    exact (@List.filter_map SRow (String × Payload × SVal)
      (fun (t : String × Payload × SVal) => sortedKeep t.2.2 cursor dir)
      (fun (r : SRow) => (r.key, r.data, r.val))
      (((liveEntries game now).filterMap
      (fun (p : String × MemEntry) =>
      match p.2.payload.getField dataName with
      | none => none
      | some v => some (⟨p.1, p.2.payload, v⟩ : SRow))))).symm
  have hfc : ((((liveEntries game now).filterMap
      (fun (p : String × MemEntry) =>
      match p.2.payload.getField dataName with
      | none => none
      | some v => some (⟨p.1, p.2.payload, v⟩ : SRow)))).map (fun (r : SRow) => (r.key, r.data, r.val))).filter (fun (t : String × Payload × SVal) => sortedKeep t.2.2 cursor dir)
      = ((((liveEntries game now).filterMap
      (fun (p : String × MemEntry) =>
      match p.2.payload.getField dataName with
      | none => none
      | some v => some (⟨p.1, p.2.payload, v⟩ : SRow)))).map (fun (r : SRow) => (r.key, r.data, r.val))).filter (fun (t : String × Payload × SVal) => svalKeep dir cursor t.2.2) := by
    apply List.filter_congr
    intro t ht
    obtain ⟨r, hr2, hre⟩ := List.mem_map.mp ht
    obtain ⟨n, hn⟩ := hWVnum r hr2
    have ht2 : t.2.2 = SVal.num n := by
      have h3 := congrArg (fun (t : String × Payload × SVal) => t.2.2) hre
      dsimp only at h3
      rw [← h3]
      exact hn
    rw [ht2]
    exact sortedKeep_num dir cursor n hcur
  have hDbSide : (((db.filter (fun c => c.index = idx))).filter (docKeep dataName dir cursor)).map (fun (d : Doc) =>
      ((d.key, d.payload, (d.payload.getField dataName).getD (SVal.num 0))
        : String × Payload × SVal))
      = (((db.filter (fun c => c.index = idx))).filterMap (fun (d : Doc) =>
      match d.payload.getField dataName with
      | none => none
      | some v => some ((d.key, d.payload, v) : String × Payload × SVal))).filter (fun (t : String × Payload × SVal) => svalKeep dir cursor t.2.2) := by
    apply map_filter_eq_filter_filterMap
    · intro d _ hG
      unfold docKeep
      cases hf : d.payload.getField dataName with
      | none => rfl
      | some v =>
        rw [hf] at hG
        exact absurd hG (by simp)
    · intro d _ g hG
      cases hf : d.payload.getField dataName with
      | none =>
        rw [hf] at hG
        exact absurd hG (by simp)
      | some v =>
        rw [hf] at hG
        injection hG with h1
        constructor
        · rw [← h1]
          rfl
        · rw [← h1]
          unfold docKeep
          rw [hf]
  have hpermF : (((((liveEntries game now).filterMap
      (fun (p : String × MemEntry) =>
      match p.2.payload.getField dataName with
      | none => none
      | some v => some (⟨p.1, p.2.payload, v⟩ : SRow)))).filter (fun r => sortedKeep r.val cursor dir)).map (fun (r : SRow) => (r.key, r.data, r.val))).Perm
      ((((db.filter (fun c => c.index = idx))).filter (docKeep dataName dir cursor)).map (fun (d : Doc) =>
      ((d.key, d.payload, (d.payload.getField dataName).getD (SVal.num 0))
        : String × Payload × SVal))) := by
    rw [h1m, hfc, hDbSide]
    exact hABperm.filter _
  have hndFull : (((((liveEntries game now).filterMap
      (fun (p : String × MemEntry) =>
      match p.2.payload.getField dataName with
      | none => none
      | some v => some (⟨p.1, p.2.payload, v⟩ : SRow)))).map (fun (r : SRow) => (r.key, r.data, r.val))).map (fun (t : String × Payload × SVal) => dirKey dir (svalNum t.2.2))).Nodup := by
    have hkey1 : ((((liveEntries game now).filterMap
      (fun (p : String × MemEntry) =>
      match p.2.payload.getField dataName with
      | none => none
      | some v => some (⟨p.1, p.2.payload, v⟩ : SRow)))).map (fun (r : SRow) => (r.key, r.data, r.val))).map (fun (t : String × Payload × SVal) => dirKey dir (svalNum t.2.2))
        = ((((liveEntries game now).filterMap
      (fun (p : String × MemEntry) =>
      match p.2.payload.getField dataName with
      | none => none
      | some v => some (⟨p.1, p.2.payload, v⟩ : SRow)))).map (fun (r : SRow) => svalNum r.val)).map
          (dirKey dir) := by
      rw [List.map_map, List.map_map]
      rfl
    have hkey2 : (((liveEntries game now).filterMap
      (fun (p : String × MemEntry) =>
      match p.2.payload.getField dataName with
      | none => none
      | some v => some (⟨p.1, p.2.payload, v⟩ : SRow)))).map (fun (r : SRow) => svalNum r.val)
        = (liveEntries game now).filterMap
          (fun p => (p.2.payload.getField dataName).map svalNum) := by
      rw [List.map_filterMap]
      apply List.filterMap_congr
      intro p _
      cases h : p.2.payload.getField dataName with
      | none => rfl
      | some v => rfl
    rw [hkey1, hkey2]
    exact hvnd.map (dirKey_inj dir)
  have hndT : ((((((liveEntries game now).filterMap
      (fun (p : String × MemEntry) =>
      match p.2.payload.getField dataName with
      | none => none
      | some v => some (⟨p.1, p.2.payload, v⟩ : SRow)))).filter (fun r => sortedKeep r.val cursor dir)).map (fun (r : SRow) => (r.key, r.data, r.val))).map (fun (t : String × Payload × SVal) => dirKey dir (svalNum t.2.2))).Nodup := by
    rw [h1m, hfc]
    exact List.Nodup.sublist ((List.filter_sublist _).map _) hndFull
  have hproj : (((((liveEntries game now).filterMap
      (fun (p : String × MemEntry) =>
      match p.2.payload.getField dataName with
      | none => none
      | some v => some (⟨p.1, p.2.payload, v⟩ : SRow)))).filter (fun r => sortedKeep r.val cursor dir)).mergeSort (rowLe dir)).map (fun (r : SRow) => (r.key, r.data, r.val))
      = ((((db.filter (fun c => c.index = idx))).filter (docKeep dataName dir cursor)).mergeSort
          (bsonSortLe dir (fun (d : Doc) => d.payload.getField dataName))).map
        (fun (d : Doc) =>
      ((d.key, d.payload, (d.payload.getField dataName).getD (SVal.num 0))
        : String × Payload × SVal)) := by
    apply mergeSort_proj_eq _ _ _ _ _ _ (fun (t : String × Payload × SVal) => dirKey dir (svalNum t.2.2))
    · intro a ha b hb
      obtain ⟨na, hna⟩ := hWVnum a (List.mem_of_mem_filter ha)
      obtain ⟨nb, hnb⟩ := hWVnum b (List.mem_of_mem_filter hb)
      rw [rowLe_num dir a b na nb hna hnb]
      show decide (dirKey dir na ≤ dirKey dir nb)
        = decide (dirKey dir (svalNum a.val) ≤ dirKey dir (svalNum b.val))
      rw [hna, hnb]
      rfl
    · intro a ha b hb
      have hka := (List.mem_filter.mp ha).2
      have hkb := (List.mem_filter.mp hb).2
      unfold docKeep at hka hkb
      cases hfa : a.payload.getField dataName with
      | none =>
        rw [hfa] at hka
        exact absurd hka (by simp)
      | some va =>
        cases hfb : b.payload.getField dataName with
        | none =>
          rw [hfb] at hkb
          exact absurd hkb (by simp)
        | some vb =>
          obtain ⟨na, hna⟩ := hdocNum a (List.mem_of_mem_filter ha) va hfa
          obtain ⟨nb, hnb⟩ := hdocNum b (List.mem_of_mem_filter hb) vb hfb
          subst hna
          subst hnb
          rw [bsonSortLe_num dir
            (fun (d : Doc) => d.payload.getField dataName) a b na nb hfa hfb]
          rfl
    · exact hpermF
    · exact hndT
  have hlenS : ((((((liveEntries game now).filterMap
      (fun (p : String × MemEntry) =>
      match p.2.payload.getField dataName with
      | none => none
      | some v => some (⟨p.1, p.2.payload, v⟩ : SRow)))).filter (fun r => sortedKeep r.val cursor dir)).mergeSort (rowLe dir))).length = (((((db.filter (fun c => c.index = idx))).filter (docKeep dataName dir cursor)).mergeSort
      (bsonSortLe dir (fun (d : Doc) => d.payload.getField dataName)))).length := by
    have := congrArg List.length hproj
    simpa using this
  have hitems : List.map (fun (r : SRow) => (r.key, r.data))
      (List.take pageSize (((((liveEntries game now).filterMap
      (fun (p : String × MemEntry) =>
      match p.2.payload.getField dataName with
      | none => none
      | some v => some (⟨p.1, p.2.payload, v⟩ : SRow)))).filter (fun r => sortedKeep r.val cursor dir)).mergeSort (rowLe dir)))
      = List.map (fun (d : Doc) => (d.key, d.payload))
        (List.take pageSize ((((db.filter (fun c => c.index = idx))).filter (docKeep dataName dir cursor)).mergeSort
      (bsonSortLe dir (fun (d : Doc) => d.payload.getField dataName)))) := by
    have e1 : List.map (fun (r : SRow) => (r.key, r.data))
        (List.take pageSize (((((liveEntries game now).filterMap
      (fun (p : String × MemEntry) =>
      match p.2.payload.getField dataName with
      | none => none
      | some v => some (⟨p.1, p.2.payload, v⟩ : SRow)))).filter (fun r => sortedKeep r.val cursor dir)).mergeSort (rowLe dir)))
        = List.map (fun (t : String × Payload × SVal) => (t.1, t.2.1))
          (List.take pageSize (((((((liveEntries game now).filterMap
      (fun (p : String × MemEntry) =>
      match p.2.payload.getField dataName with
      | none => none
      | some v => some (⟨p.1, p.2.payload, v⟩ : SRow)))).filter (fun r => sortedKeep r.val cursor dir)).mergeSort (rowLe dir))).map (fun (r : SRow) => (r.key, r.data, r.val)))) := by
      rw [← List.map_take, List.map_map]
      rfl
    have e2 : List.map (fun (d : Doc) => (d.key, d.payload))
        (List.take pageSize ((((db.filter (fun c => c.index = idx))).filter (docKeep dataName dir cursor)).mergeSort
      (bsonSortLe dir (fun (d : Doc) => d.payload.getField dataName))))
        = List.map (fun (t : String × Payload × SVal) => (t.1, t.2.1))
          (List.take pageSize ((((((db.filter (fun c => c.index = idx))).filter (docKeep dataName dir cursor)).mergeSort
      (bsonSortLe dir (fun (d : Doc) => d.payload.getField dataName)))).map (fun (d : Doc) =>
      ((d.key, d.payload, (d.payload.getField dataName).getD (SVal.num 0))
        : String × Payload × SVal)))) := by
      rw [← List.map_take, List.map_map]
      rfl
    rw [e1, e2, hproj]
  have htotal : (((liveEntries game now).filterMap
      (fun (p : String × MemEntry) =>
      match p.2.payload.getField dataName with
      | none => none
      | some v => some (⟨p.1, p.2.payload, v⟩ : SRow)))).length
      = ((db.filter (fun c => c.index = idx))).countP (fun (d : Doc) => (d.payload.getField dataName).isSome) := by
    have ht1 := hABperm.length_eq
    rw [List.length_map] at ht1
    rw [ht1, List.length_filterMap_eq_countP]
    apply List.countP_congr
    intro d _
    cases h : d.payload.getField dataName with
    | none => simp [h]
    | some v => simp [h]
  have hnextDb : ((List.take pageSize ((((db.filter (fun c => c.index = idx))).filter (docKeep dataName dir cursor)).mergeSort
      (bsonSortLe dir (fun (d : Doc) => d.payload.getField dataName)))).getLast?).bind
      (fun (d : Doc) => d.payload.getField dataName)
      = Option.map (fun (t : String × Payload × SVal) => t.2.2)
        ((List.take pageSize ((((((db.filter (fun c => c.index = idx))).filter (docKeep dataName dir cursor)).mergeSort
      (bsonSortLe dir (fun (d : Doc) => d.payload.getField dataName)))).map (fun (d : Doc) =>
      ((d.key, d.payload, (d.payload.getField dataName).getD (SVal.num 0))
        : String × Payload × SVal)))).getLast?) := by
    rw [← List.map_take, List.getLast?_map]
    cases hgd : (List.take pageSize ((((db.filter (fun c => c.index = idx))).filter (docKeep dataName dir cursor)).mergeSort
      (bsonSortLe dir (fun (d : Doc) => d.payload.getField dataName)))).getLast? with
    | none => rfl
    | some last =>
      have hlm : last ∈ ((db.filter (fun c => c.index = idx))).filter (docKeep dataName dir cursor) := by
        have htk : last ∈ List.take pageSize ((((db.filter (fun c => c.index = idx))).filter (docKeep dataName dir cursor)).mergeSort
      (bsonSortLe dir (fun (d : Doc) => d.payload.getField dataName))) :=
          List.mem_of_mem_getLast? hgd
        have hs : last ∈ (((((db.filter (fun c => c.index = idx))).filter (docKeep dataName dir cursor)).mergeSort
      (bsonSortLe dir (fun (d : Doc) => d.payload.getField dataName)))) := List.take_subset _ _ htk
        exact (List.mergeSort_perm _ _).mem_iff.mp hs
      have hkp : (docKeep dataName dir cursor) last = true := (List.mem_filter.mp hlm).2
      cases hf : last.payload.getField dataName with
      | none =>
        unfold docKeep at hkp
        rw [hf] at hkp
        exact absurd hkp (by simp)
      | some v =>
        show last.payload.getField dataName
          = some ((last.payload.getField dataName).getD (SVal.num 0))
        rw [hf]
        rfl
  have hnext : Option.map (fun (r : SRow) => r.val)
      (List.take pageSize (((((liveEntries game now).filterMap
      (fun (p : String × MemEntry) =>
      match p.2.payload.getField dataName with
      | none => none
      | some v => some (⟨p.1, p.2.payload, v⟩ : SRow)))).filter (fun r => sortedKeep r.val cursor dir)).mergeSort (rowLe dir))).getLast?
      = ((List.take pageSize ((((db.filter (fun c => c.index = idx))).filter (docKeep dataName dir cursor)).mergeSort
      (bsonSortLe dir (fun (d : Doc) => d.payload.getField dataName)))).getLast?).bind
        (fun (d : Doc) => d.payload.getField dataName) := by
    have e1 : Option.map (fun (r : SRow) => r.val)
        (List.take pageSize (((((liveEntries game now).filterMap
      (fun (p : String × MemEntry) =>
      match p.2.payload.getField dataName with
      | none => none
      | some v => some (⟨p.1, p.2.payload, v⟩ : SRow)))).filter (fun r => sortedKeep r.val cursor dir)).mergeSort (rowLe dir))).getLast?
        = Option.map (fun (t : String × Payload × SVal) => t.2.2)
          ((List.take pageSize (((((((liveEntries game now).filterMap
      (fun (p : String × MemEntry) =>
      match p.2.payload.getField dataName with
      | none => none
      | some v => some (⟨p.1, p.2.payload, v⟩ : SRow)))).filter (fun r => sortedKeep r.val cursor dir)).mergeSort (rowLe dir))).map (fun (r : SRow) => (r.key, r.data, r.val)))).getLast?) := by
      rw [← List.map_take, List.getLast?_map, Option.map_map]
      rfl
    rw [e1, hproj]
    exact hnextDb.symm
  have hsplit : ((db.filter (fun c => c.index = idx))).filter (docKeep dataName dir cursor)
      = ((((db.filter (fun c => c.index = idx))).filter (fun (d : Doc) => (d.payload.getField dataName).isSome))).filter (docKeep dataName dir cursor) := by
    apply filter_split
    intro d _ hk
    unfold docKeep at hk
    cases hf : d.payload.getField dataName with
    | none =>
      rw [hf] at hk
      exact absurd hk (by simp)
    | some v => simp [hf]
  have hndB : ((((((db.filter (fun c => c.index = idx))).filter (fun (d : Doc) => (d.payload.getField dataName).isSome))).filter (docKeep dataName dir cursor)).map
      (fun (d : Doc) =>
      dirKey dir (svalNum ((d.payload.getField dataName).getD (SVal.num 0))))).Nodup := by
    rw [← hsplit]
    have h := (hpermF.map (fun (t : String × Payload × SVal) => dirKey dir (svalNum t.2.2))).nodup hndT
    rw [List.map_map] at h
    exact h
  have hbridge := probe_hasMore_bridge
      (((db.filter (fun c => c.index = idx))).filter (fun (d : Doc) => (d.payload.getField dataName).isSome))
      (fun (d : Doc) =>
      dirKey dir (svalNum ((d.payload.getField dataName).getD (SVal.num 0))))
      (docKeep dataName dir cursor)
      (bsonSortLe dir (fun (d : Doc) => d.payload.getField dataName))
      pageSize hp
      (fun a ha b hb => by
        have ha2 : a ∈ ((db.filter (fun c => c.index = idx))).filter (docKeep dataName dir cursor) := by
          rw [hsplit]
          exact ha
        have hb2 : b ∈ ((db.filter (fun c => c.index = idx))).filter (docKeep dataName dir cursor) := by
          rw [hsplit]
          exact hb
        have hka := (List.mem_filter.mp ha2).2
        have hkb := (List.mem_filter.mp hb2).2
        unfold docKeep at hka hkb
        cases hfa : a.payload.getField dataName with
        | none =>
          rw [hfa] at hka
          exact absurd hka (by simp)
        | some va =>
          cases hfb : b.payload.getField dataName with
          | none =>
            rw [hfb] at hkb
            exact absurd hkb (by simp)
          | some vb =>
            obtain ⟨na, hna⟩ := hdocNum a (List.mem_of_mem_filter ha2) va hfa
            obtain ⟨nb, hnb⟩ := hdocNum b (List.mem_of_mem_filter hb2) vb hfb
            subst hna
            subst hnb
            rw [bsonSortLe_num dir
              (fun (d : Doc) => d.payload.getField dataName) a b na nb
              hfa hfb]
            show decide (dirKey dir na ≤ dirKey dir nb)
              = decide (dirKey dir (svalNum ((a.payload.getField
                  dataName).getD (SVal.num 0)))
                ≤ dirKey dir (svalNum ((b.payload.getField
                  dataName).getD (SVal.num 0))))
            rw [hfa, hfb]
            rfl)
      (fun t ht l hl hlt hpred => by
        have hft := (List.mem_filter.mp ht).2
        have hfl := (List.mem_filter.mp hl).2
        cases hfa : t.payload.getField dataName with
        | none =>
          rw [hfa] at hft
          exact absurd hft (by simp)
        | some vt =>
          cases hfb : l.payload.getField dataName with
          | none =>
            rw [hfb] at hfl
            exact absurd hfl (by simp)
          | some vl =>
            obtain ⟨nt, hnt⟩ := hdocNum t (List.mem_of_mem_filter ht) vt hfa
            obtain ⟨nl, hnl⟩ := hdocNum l (List.mem_of_mem_filter hl) vl hfb
            subst hnt
            subst hnl
            have hlt2 : dirKey dir nl < dirKey dir nt := by
              have h2 : dirKey dir (svalNum ((l.payload.getField
                  dataName).getD (SVal.num 0)))
                  < dirKey dir (svalNum ((t.payload.getField
                    dataName).getD (SVal.num 0))) := hlt
              rw [hfa, hfb] at h2
              exact h2
            have hpl : svalKeep dir cursor (SVal.num nl) = true := by
              have h3 : docKeep dataName dir cursor l = true := hpred
              unfold docKeep at h3
              rw [hfb] at h3
              exact h3
            show docKeep dataName dir cursor t = true
            unfold docKeep
            rw [hfa]
            exact svalKeep_closed dir cursor nl nt hcur hlt2 hpl)
      hndB
      (((((db.filter (fun c => c.index = idx))).filter (docKeep dataName dir cursor)).mergeSort
      (bsonSortLe dir (fun (d : Doc) => d.payload.getField dataName))))
      (by rw [hsplit])
  have hLL : (decide ((List.take pageSize (((((liveEntries game now).filterMap
      (fun (p : String × MemEntry) =>
      match p.2.payload.getField dataName with
      | none => none
      | some v => some (⟨p.1, p.2.payload, v⟩ : SRow)))).filter (fun r => sortedKeep r.val cursor dir)).mergeSort (rowLe dir))).length = pageSize) &&
      decide (pageSize < ((((((liveEntries game now).filterMap
      (fun (p : String × MemEntry) =>
      match p.2.payload.getField dataName with
      | none => none
      | some v => some (⟨p.1, p.2.payload, v⟩ : SRow)))).filter (fun r => sortedKeep r.val cursor dir)).mergeSort (rowLe dir))).length))
      = (decide ((List.take pageSize ((((db.filter (fun c => c.index = idx))).filter (docKeep dataName dir cursor)).mergeSort
      (bsonSortLe dir (fun (d : Doc) => d.payload.getField dataName)))).length = pageSize) &&
        decide (pageSize < (((((db.filter (fun c => c.index = idx))).filter (docKeep dataName dir cursor)).mergeSort
      (bsonSortLe dir (fun (d : Doc) => d.payload.getField dataName)))).length)) := by
    simp only [List.length_take, hlenS]
  have hfinal : (decide ((List.take pageSize (((((liveEntries game now).filterMap
      (fun (p : String × MemEntry) =>
      match p.2.payload.getField dataName with
      | none => none
      | some v => some (⟨p.1, p.2.payload, v⟩ : SRow)))).filter (fun r => sortedKeep r.val cursor dir)).mergeSort (rowLe dir))).length = pageSize) &&
      decide (pageSize < ((((((liveEntries game now).filterMap
      (fun (p : String × MemEntry) =>
      match p.2.payload.getField dataName with
      | none => none
      | some v => some (⟨p.1, p.2.payload, v⟩ : SRow)))).filter (fun r => sortedKeep r.val cursor dir)).mergeSort (rowLe dir))).length))
      = match (List.take pageSize ((((db.filter (fun c => c.index = idx))).filter (docKeep dataName dir cursor)).mergeSort
      (bsonSortLe dir (fun (d : Doc) => d.payload.getField dataName)))).getLast? with
        | none => false
        | some last =>
          match last.payload.getField dataName with
          | none => decide ((((db.filter (fun c => c.index = idx))).filter (docKeep dataName dir cursor)).length ≠ 0)
          | some nc => ((db.filter (fun c => c.index = idx))).any (fun (d : Doc) =>
              match d.payload.getField dataName with
              | none => false
              | some v => mongoPast dir v nc) := by
    cases hg : (List.take pageSize ((((db.filter (fun c => c.index = idx))).filter (docKeep dataName dir cursor)).mergeSort
      (bsonSortLe dir (fun (d : Doc) => d.payload.getField dataName)))).getLast? with
    | none =>
      rw [hg] at hbridge
      dsimp only at hbridge
      dsimp only
      rw [hLL]
      exact hbridge.symm
    | some last =>
      rw [hg] at hbridge
      dsimp only at hbridge
      have hlm : last ∈ ((db.filter (fun c => c.index = idx))).filter (docKeep dataName dir cursor) := by
        have htk : last ∈ List.take pageSize ((((db.filter (fun c => c.index = idx))).filter (docKeep dataName dir cursor)).mergeSort
      (bsonSortLe dir (fun (d : Doc) => d.payload.getField dataName))) :=
          List.mem_of_mem_getLast? hg
        have hs : last ∈ (((((db.filter (fun c => c.index = idx))).filter (docKeep dataName dir cursor)).mergeSort
      (bsonSortLe dir (fun (d : Doc) => d.payload.getField dataName)))) := List.take_subset _ _ htk
        exact (List.mergeSort_perm _ _).mem_iff.mp hs
      have hkp : (docKeep dataName dir cursor) last = true := (List.mem_filter.mp hlm).2
      cases hf : last.payload.getField dataName with
      | none =>
        unfold docKeep at hkp
        rw [hf] at hkp
        exact absurd hkp (by simp)
      | some v =>
        obtain ⟨nlast, hnlv⟩ := hdocNum last (List.mem_of_mem_filter hlm) v hf
        subst hnlv
        dsimp only
        rw [hf]
        dsimp only
        rw [hLL, ← hbridge]
        rw [any_filter_sub ((db.filter (fun c => c.index = idx)))
          (fun (d : Doc) =>
          match d.payload.getField dataName with
          | none => false
          | some v => mongoPast dir v (SVal.num nlast))
          (fun (d : Doc) => (d.payload.getField dataName).isSome)
          (by
            intro d _ hpd
            dsimp only at hpd
            cases hfd : d.payload.getField dataName with
            | none =>
              rw [hfd] at hpd
              exact absurd hpd (by simp)
            | some w => simp [hfd])]
        apply any_congr_mem
        intro d hd
        have hfd := (List.mem_filter.mp hd).2
        cases hfd2 : d.payload.getField dataName with
        | none =>
          rw [hfd2] at hfd
          exact absurd hfd (by simp)
        | some w =>
          obtain ⟨nd, hnd⟩ := hdocNum d (List.mem_of_mem_filter hd) w hfd2
          subst hnd
          rw [hf]
          dsimp only
          rw [mongoPast_num]
          rfl
  unfold getSortedMem dbGetSortedNoDflt
  dsimp only
  rw [hWithS]
  simp only [SortedPage.mk.injEq]
  refine ⟨?_, trivial, ?_, ?_, ?_⟩
  · exact hitems
  · exact htotal
  · exact hnext
  · exact hfinal

/-- C1 counterexample: two live entries sharing the write cursor 100,
mirrored exactly in the durable tier. The memory recency listing of
page size 1 reports hasMore true (one row returned, two sorted rows),
but the db branch probes for a document with cursor strictly below 100
and finds none, reporting hasMore false: the tiers disagree although
they hold the same entries. -/
theorem cross_tier_counterexample :
    (((([⟨"ns", "a", [], 100, 999⟩, ⟨"ns", "b", [], 100, 999⟩] : Db).filter
        (fun c => c.index = "ns")).map
        (fun d => (d.key, d.payload, d.cursor))).Perm
      ((liveEntries
        ([("a", ⟨⟨[], 100⟩, .inf⟩), ("b", ⟨⟨[], 100⟩, .inf⟩)] : NsCache)
        50).map
        (fun (p : String × MemEntry) => (p.1, p.2.payload, p.2.cursor)))) ∧
    (getAllMem
      ([("a", ⟨⟨[], 100⟩, .inf⟩), ("b", ⟨⟨[], 100⟩, .inf⟩)] : NsCache)
      none 1 50).hasMore = true ∧
    (dbGetAll ([⟨"ns", "a", [], 100, 999⟩, ⟨"ns", "b", [], 100, 999⟩] : Db)
      "ns" none 1).hasMore = false := by
  refine ⟨by decide, ?_, ?_⟩
  · show (decide ((List.take 1 ((List.filter _ _).mergeSort recLe)).length = 1)
      && _) = true
    simp [getAllMem, liveEntries, List.mergeSort, recLe]
    decide
  · simp [dbGetAll, List.mergeSort]

/-- C1 (amended): cross-tier equivalence under regularity hypotheses.
When the memory and durable tiers hold the same (key, payload,
writeCursor) entries with unique keys, the write cursors are pairwise
distinct, and the sorted/rank parameters are numeric - every effective
sort value is a number, the cursor is a number or absent, and the
effective values are pairwise distinct - the recency listing, the
field-sorted listing (with or without a default value) and the rank
operation return identical results in both tiers for every cursor,
page size, direction, field name and default. Without the
distinct-cursor hypothesis the equivalence fails (see the
counterexample): the duplicate-cursor hasMore probes disagree. -/
theorem cross_tier_equivalence (game : NsCache) (db : Db)
    (idx key dataName : String) (dir : Dir) (cursor : Option Int)
    (scursor : Option SVal) (dflt : Option SVal) (pageSize : Nat) (now : Int)
    (hcorr : ((db.filter (fun c => c.index = idx)).map
        (fun d => (d.key, d.payload, d.cursor))).Perm
      ((liveEntries game now).map
        (fun (p : String × MemEntry) => (p.1, p.2.payload, p.2.cursor))))
    (hndM : (game.map Prod.fst).Nodup)
    (hndD : ((db.filter (fun c => c.index = idx)).map (·.key)).Nodup)
    (hp : 0 < pageSize)
    (hcurs : ((liveEntries game now).map
      (fun (p : String × MemEntry) => p.2.cursor)).Nodup)
    (hnum : ((liveEntries game now).all
      (fun p => (effVal p.2.payload dataName dflt).all isNum)) = true)
    (hcur : scursor = none ∨ ∃ cn, scursor = some (SVal.num cn))
    (hvnd : ((liveEntries game now).filterMap
      (fun p => (effVal p.2.payload dataName dflt).map svalNum)).Nodup) :
    getAllMem game cursor pageSize now = dbGetAll db idx cursor pageSize ∧
    getSortedMem game dataName dir scursor dflt pageSize now
      = dbGetSorted db idx dataName dir scursor dflt pageSize ∧
    getRankMem game key dataName dir dflt now
      = dbGetRank db idx key dataName dir dflt := by
  refine ⟨getAll_equiv game db idx now hcorr hcurs cursor pageSize hp, ?_,
    getRank_equiv game db idx key dataName dir dflt now hcorr hndM hndD hnum⟩
  cases dflt with
  | none =>
    show getSortedMem game dataName dir scursor none pageSize now
      = dbGetSortedNoDflt db idx dataName dir scursor pageSize
    apply getSortedNoDflt_equiv game db idx dataName dir scursor pageSize now
      hcorr hnum hcur _ hp
    have he : (liveEntries game now).filterMap
        (fun p => (effVal p.2.payload dataName none).map svalNum)
        = (liveEntries game now).filterMap
          (fun p => (p.2.payload.getField dataName).map svalNum) := by
      apply List.filterMap_congr
      intro p _
      unfold effVal
      cases h : p.2.payload.getField dataName with
      | none => rfl
      | some v => rfl
    rw [← he]
    exact hvnd
  | some dv =>
    show getSortedMem game dataName dir scursor (some dv) pageSize now
      = dbGetSortedDflt db idx dataName dir scursor dv pageSize
    apply getSortedDflt_equiv game db idx dataName dir scursor dv pageSize now
      hcorr hnum hcur _ hp
    have he : (liveEntries game now).filterMap
        (fun p => (effVal p.2.payload dataName (some dv)).map svalNum)
        = (liveEntries game now).map
          (fun p => svalNum ((p.2.payload.getField dataName).getD dv)) := by
      apply filterMap_all_some
      intro p _
      unfold effVal
      cases h : p.2.payload.getField dataName with
      | none => rfl
      | some v => rfl
    rw [← he]
    exact hvnd

/-- Closed witness for C1: a concrete two-entry namespace mirrored in
both tiers on which the three operations agree, with every hypothesis
discharged by evaluation. -/
theorem cross_tier_equivalence_witness :
    (0 : Nat) < 1 ∧
    (getAllMem ([("a", ⟨⟨[("s", .num 10)], 100⟩, .inf⟩),
      ("b", ⟨⟨[("s", .num 20)], 101⟩, .inf⟩)] : NsCache) none 1 50
        = dbGetAll ([⟨"ns", "a", [("s", .num 10)], 100, 999⟩,
      ⟨"ns", "b", [("s", .num 20)], 101, 999⟩] : Db) "ns" none 1 ∧
      getSortedMem ([("a", ⟨⟨[("s", .num 10)], 100⟩, .inf⟩),
      ("b", ⟨⟨[("s", .num 20)], 101⟩, .inf⟩)] : NsCache) "s" .asc none none 1 50
        = dbGetSorted ([⟨"ns", "a", [("s", .num 10)], 100, 999⟩,
      ⟨"ns", "b", [("s", .num 20)], 101, 999⟩] : Db) "ns" "s" .asc none none 1 ∧
      getRankMem ([("a", ⟨⟨[("s", .num 10)], 100⟩, .inf⟩),
      ("b", ⟨⟨[("s", .num 20)], 101⟩, .inf⟩)] : NsCache) "a" "s" .asc none 50
        = dbGetRank ([⟨"ns", "a", [("s", .num 10)], 100, 999⟩,
      ⟨"ns", "b", [("s", .num 20)], 101, 999⟩] : Db) "ns" "a" "s" .asc none) :=
  ⟨by decide,
    cross_tier_equivalence
      ([("a", ⟨⟨[("s", .num 10)], 100⟩, .inf⟩),
      ("b", ⟨⟨[("s", .num 20)], 101⟩, .inf⟩)] : NsCache)
      ([⟨"ns", "a", [("s", .num 10)], 100, 999⟩,
      ⟨"ns", "b", [("s", .num 20)], 101, 999⟩] : Db)
      "ns" "a" "s" .asc none none none 1 50
      (by decide) (by decide) (by decide) (by decide) (by decide) (by decide)
      (Or.inl rfl) (by decide)⟩
